import Mathlib

/-!
# collectd haproxy plugin (`src/haproxy.c`): embedding and verified properties

The plugin polls the HAProxy statistics socket, turns every CSV line of the
`show stat` report into a `hap_entry_t`, tracks an up/down status per
(server, proxy) pair and dispatches counters, gauges and notifications.

Conventions of the embedding.

* A C string is the list of its characters before the terminating NUL.  Where
  the C code scans raw bytes (`while (*e && *e != ',')`) the model stops at a
  NUL character of the list as well, so the functions are total on every list.
* `unsigned long long` and `unsigned long` are naturals reduced modulo `2^64`
  (LP64), `int` is an integer reduced to the signed 32 bit range.
* `atoi`, `atol` and `atoll` follow glibc: `strtol`/`strtoll` saturate, and
  `atoi` is `(int) strtol (s, NULL, 10)`.
* `pentry->status` is a `double` computed with `float` operands; the model
  keeps the value as a rational and rounds the result of every conversion and
  operation to the nearest binary32 number, ties to even (`f32_round`).  The
  store into the `double` member is exact, and so are the constants `0.0F`,
  `50.0F` and `100.0F`.
-/

namespace Haproxy

/-! ## C library -/

/-- Contents of a NUL-terminated C string. -/
abbrev CStr := List Char

/-- Model of `isspace` in the C locale. -/
def isspace (c : Char) : Bool :=
  c = ' ' || (9 ≤ c.toNat && c.toNat ≤ 13)

/-- Model of `isdigit`. -/
def isdigit (c : Char) : Bool :=
  48 ≤ c.toNat && c.toNat ≤ 57

/-- Value of the longest run of decimal digits at the head of the string,
accumulated on `acc`. -/
def digits_value (acc : Nat) : CStr → Nat
  | [] => acc
  | c :: cs => if isdigit c then digits_value (acc * 10 + (c.toNat - 48)) cs else acc

/-- The mathematical integer read by `strtol (s, NULL, 10)`: leading white
space, an optional sign, then decimal digits; `0` when there is no digit. -/
def strtol_exact (s : CStr) : Int :=
  match s.dropWhile isspace with
  | '-' :: r => - (digits_value 0 r : Int)
  | '+' :: r => (digits_value 0 r : Int)
  | r => (digits_value 0 r : Int)

/-- Saturation of `strtol`/`strtoll` to the range of a 64 bit signed integer. -/
def clamp64 (x : Int) : Int :=
  if x < -(2 ^ 63 : Int) then -(2 ^ 63 : Int)
  else if (2 ^ 63 : Int) - 1 < x then (2 ^ 63 : Int) - 1 else x

/-- Model of `atoll`. -/
def atoll (s : CStr) : Int := clamp64 (strtol_exact s)

/-- Model of `atol` (LP64: `long` is 64 bits wide). -/
def atol (s : CStr) : Int := clamp64 (strtol_exact s)

/-- Conversion of a `long` to `int`: reduction to the signed 32 bit range. -/
def to_int32 (x : Int) : Int :=
  (x + 2 ^ 31) % 2 ^ 32 - 2 ^ 31

/-- Model of `atoi`. -/
def atoi (s : CStr) : Int := to_int32 (atol s)

/-- Conversion to `unsigned long long` / `unsigned long`. -/
def to_u64 (x : Int) : Nat := (x % 2 ^ 64).toNat

/-- Model of `strchr`: the suffix of the string that starts at the first
occurrence of `c`, or `none` (NULL). -/
def strchr : CStr → Char → Option CStr
  | [], _ => none
  | d :: ds, c => if d = c then some (d :: ds) else strchr ds c

/-- Model of `strncmp (p, q, n) == 0`. -/
def strncmp_eq (p q : CStr) (n : Nat) : Bool := p.take n == q.take n

/-- Model of `strcmp (p, q) == 0`. -/
def strcmp_eq (p q : CStr) : Bool := p == q

/-- Model of `tolower` on ASCII letters. -/
def tolower (c : Char) : Char :=
  if 65 ≤ c.toNat ∧ c.toNat ≤ 90 then Char.ofNat (c.toNat + 32) else c

/-- Model of `strcasecmp (p, q) == 0`. -/
def strcasecmp_eq (p q : CStr) : Bool := p.map tolower == q.map tolower

/-- The scanning idiom `while (*e && *e != d) e++; if (!*e) ...`: when the
scan stops on the delimiter `d` the result is the text before it and the text
after it (`++e`); when it stops on a NUL or on the end of the data the result
is `none`. -/
def scan_to (d : Char) : List Char → Option (CStr × List Char)
  | [] => none
  | c :: cs =>
    if c = '\x00' then none
    else if c = d then some ([], cs)
    else match scan_to d cs with
      | none => none
      | some (tok, rest) => some (c :: tok, rest)

/-! ## Data model -/

/-- The numeric members of `hap_entry_t`. -/
structure hap_values where
  bin : Nat := 0
  bout : Nat := 0
  stot : Nat := 0
  rate : Nat := 0
  ereq : Nat := 0
  ersp : Nat := 0
  econ : Nat := 0
  dreq : Nat := 0
  drsp : Nat := 0
  pxtype : Nat := 0
  req_rate : Nat := 0
  hrsp_1xx : Nat := 0
  hrsp_2xx : Nat := 0
  hrsp_3xx : Nat := 0
  hrsp_4xx : Nat := 0
  hrsp_5xx : Nat := 0
  hrsp_other : Nat := 0
  status : ℚ := 0
  deriving DecidableEq

/-- The `hap_entry_t` that `hap_line2entry` fills: fresh from `calloc`, so the
two name pointers start as NULL (`none`) and every number as zero. -/
structure hap_pentry extends hap_values where
  pxname : Option CStr := none
  svname : Option CStr := none
  deriving DecidableEq

/-- A `hap_entry_t` linked into `hap_entry_list`: `hap_line2entry` links an
entry only when both names are set, so the names are plain strings here. -/
structure hap_entry_t extends hap_values where
  pxname : CStr
  svname : CStr
  deriving DecidableEq

/-! ## Single precision arithmetic

The status expressions of `hap_line2entry` have the operand `100.0F`, so the
usual arithmetic conversions turn every `int` operand into a `float` and every
operation is a `float` operation: its exact result is rounded to the nearest
binary32 number, ties to the even significand (IEEE 754 with
`FLT_EVAL_METHOD` 0, as on x86-64).  A binary32 number is kept as the rational
it denotes.  The model is that of the normal numbers, 24 significant bits
without a bound on the exponent: the operands here are `int`s, so every value
that is rounded is zero or has a magnitude between `2^-25` and `2^39`
(`hap_status_operands_in_range`), far from the subnormal numbers (below
`2^-126`) and from overflow (`2^128`). -/

/-- The integer nearest to `m`, the even one at a tie. -/
def round_half_even (m : ℚ) : Int :=
  if m - ⌊m⌋ < 1 / 2 then ⌊m⌋
  else if 1 / 2 < m - ⌊m⌋ then ⌊m⌋ + 1
  else if ⌊m⌋ % 2 = 0 then ⌊m⌋ else ⌊m⌋ + 1

/-- Binary logarithm of `n`, rounded down (`0` for `n < 2`); `k` bounds the
number of halvings. -/
def ilog2_aux : Nat → Nat → Nat
  | 0, _ => 0
  | k + 1, n => if 2 ≤ n then ilog2_aux k (n / 2) + 1 else 0

/-- Binary logarithm of `n`, rounded down. -/
def ilog2 (n : Nat) : Nat := ilog2_aux n n

/-- The binary exponent of `q ≠ 0`: the `e` with `2^e ≤ |q| < 2^(e+1)`.  The
difference of the logarithms of numerator and denominator is `e` or `e + 1`. -/
def f32_exponent (q : ℚ) : Int :=
  if |q| < (2 : ℚ) ^ ((ilog2 q.num.natAbs : Int) - (ilog2 q.den : Int)) then
    (ilog2 q.num.natAbs : Int) - (ilog2 q.den : Int) - 1
  else (ilog2 q.num.natAbs : Int) - (ilog2 q.den : Int)

/-- The binary32 number nearest to `q`, ties to even: `q` is scaled by its unit
in the last place `2^(e-23)`, rounded to an integer significand and scaled
back. -/
def f32_round (q : ℚ) : ℚ :=
  if q = 0 then 0
  else (round_half_even (q / (2 : ℚ) ^ (f32_exponent q - 23)) : ℚ) *
    (2 : ℚ) ^ (f32_exponent q - 23)

/-- Conversion of an `int` to `float`. -/
def f32_of_int (x : Int) : ℚ := f32_round (x : ℚ)

/-- The `float` product. -/
def f32_mul (a b : ℚ) : ℚ := f32_round (a * b)

/-- The `float` quotient (the divisor is not zero where the code divides). -/
def f32_div (a b : ℚ) : ℚ := f32_round (a / b)

/-- The `float` difference. -/
def f32_sub (a b : ℚ) : ℚ := f32_round (a - b)

/-- The rational `q` is zero or has a magnitude between `2^lo` and `2^hi`. -/
def f32_between (lo hi : Int) (q : ℚ) : Prop :=
  q = 0 ∨ ((2 : ℚ) ^ lo ≤ |q| ∧ |q| ≤ (2 : ℚ) ^ hi)

/-- The rational `q` is zero or has a magnitude between `2^-25` and `2^39`,
inside the range of the normal binary32 numbers. -/
def f32_in_range (q : ℚ) : Prop := f32_between (-25) 39 q

/-! ## Parsing a statistics line -/

/-- The status decoding of `case 17` in `hap_line2entry`:
`(100.0F * atoi(p + 2)) / atoi(s + 1)` and
`100.0F - ((100.0F * atoi(p + 4)) / atoi(s + 1))` in single precision. -/
def hap_status_of (p : CStr) : ℚ :=
  if strncmp_eq p ['U', 'P'] 2 then
    match strchr (p.drop 2) '/' with
    | some s =>
      if atoi (s.drop 1) ≠ 0 then
        f32_div (f32_mul 100 (f32_of_int (atoi (p.drop 2)))) (f32_of_int (atoi (s.drop 1)))
      else 100
    | none => 100
  else if strncmp_eq p ['D', 'O', 'W', 'N'] 4 then
    match strchr (p.drop 4) '/' with
    | some s =>
      if atoi (s.drop 1) ≠ 0 then
        f32_sub 100
          (f32_div (f32_mul 100 (f32_of_int (atoi (p.drop 4)))) (f32_of_int (atoi (s.drop 1))))
      else 0
    | none => 0
  else if strcmp_eq p ['O', 'P', 'E', 'N'] then 100
  else if strcmp_eq p ['n', 'o', ' ', 'c', 'h', 'e', 'c', 'k'] then 50
  else 0

/-- The `switch (i)` of `hap_line2entry`: what field number `i`, holding the
text `p`, stores into the entry.  `interval_g` is collectd's global polling
interval (an `int`). -/
def hap_field (interval_g : Int) (i : Nat) (p : CStr) (pe : hap_pentry) : hap_pentry :=
  match i with
  | 0 => { pe with pxname := some p }
  | 1 => { pe with svname := some p }
  | 4 => { pe with stot := (to_u64 (atoll p) * to_u64 interval_g) % 2 ^ 64 }
  | 8 => { pe with bin := to_u64 (atoll p) }
  | 9 => { pe with bout := to_u64 (atoll p) }
  | 10 => { pe with dreq := to_u64 (atoll p) }
  | 11 => { pe with drsp := to_u64 (atoll p) }
  | 12 => { pe with ereq := to_u64 (atoll p) }
  | 13 => { pe with econ := to_u64 (atoll p) }
  | 14 => { pe with ersp := to_u64 (atoll p) }
  | 17 => { pe with status := hap_status_of p }
  | 32 => { pe with pxtype := to_u64 (atoll p) }
  | 33 => { pe with rate := (to_u64 (atoll p) * to_u64 interval_g) % 2 ^ 64 }
  | 39 => { pe with hrsp_1xx := to_u64 (atoll p) }
  | 40 => { pe with hrsp_2xx := to_u64 (atoll p) }
  | 41 => { pe with hrsp_3xx := to_u64 (atoll p) }
  | 42 => { pe with hrsp_4xx := to_u64 (atoll p) }
  | 43 => { pe with hrsp_5xx := to_u64 (atoll p) }
  | 44 => { pe with hrsp_other := to_u64 (atoll p) }
  | 46 => { pe with req_rate := to_u64 (atoll p) }
  | _ => pe

/-- The tokenizing loop `for (i = 0; i < 51; i++)` of `hap_line2entry`:
`n` is the number of iterations left (`51 - i`), `p` the unread text. -/
def hap_tokenize (interval_g : Int) : Nat → Nat → List Char → hap_pentry → hap_pentry
  | 0, _, _, pe => pe
  | n + 1, i, p, pe =>
    match scan_to ',' p with
    | none => pe
    | some (tok, rest) => hap_tokenize interval_g n (i + 1) rest (hap_field interval_g i tok pe)

/-- Model of `hap_line2entry`: the entry parsed from `line` is pushed on the
front of `hap_entry_list` when both names were read, and dropped otherwise. -/
def hap_line2entry (interval_g : Int) (line : List Char)
    (hap_entry_list : List hap_entry_t) : List hap_entry_t :=
  let pentry := hap_tokenize interval_g 51 0 line {}
  match pentry.pxname, pentry.svname with
  | some px, some sv =>
    { pentry.tohap_values with pxname := px, svname := sv } :: hap_entry_list
  | _, _ => hap_entry_list

/-! ## Status cache, configuration and dispatched values -/

/-- Model of `hap_status_t`, one cell of `hap_status_list`. -/
structure hap_status_t where
  pxname : CStr
  svname : CStr
  status : Int
  deriving DecidableEq

def HAP_STAT_LINE_LEN : Nat := 2047
def HAP_BYTES : Nat := 0x0001
def HAP_SESSIONS : Nat := 0x0002
def HAP_ERRORS : Nat := 0x0004
def HAP_DENY : Nat := 0x0008
def HAP_STATUS : Nat := 0x0010
def HAP_HTTP_CODES : Nat := 0x0020
def HAP_ALL : Nat := 0xFFFF
def HAP_NOTIF_STATUSDOWN : Nat := 0x0001
def HAP_NOTIF_STATUSUP : Nat := 0x0002
def HAP_NOTIF_NONE : Nat := 0x0000
def HAP_STATUS_DOWN : Int := 0
def HAP_STATUS_UP : Int := 1

/-- Severity `NOTIF_WARNING` of collectd's `plugin.h`. -/
def NOTIF_WARNING : Nat := 2

/-- Severity `NOTIF_OKAY` of collectd's `plugin.h`. -/
def NOTIF_OKAY : Nat := 4

/-- The module-global settings written by `hap_config`, with the initial
values of the C file.  The filter arrays `pxf` and `svf` are lists: the
pointer is NULL exactly when the list is empty. -/
structure hap_conf where
  hap_flags : Nat := HAP_ALL
  hap_notifs : Nat := HAP_NOTIF_NONE
  hap_socketpath : CStr := "/var/run/haproxy-stats.sock".toList
  hap_restart_gap : Nat := 20
  pxf : List CStr := []
  svf : List CStr := []
  deriving DecidableEq

/-- One variadic argument of `hap_submit_counter` / `hap_submit_gauge`, with
the C type it is passed as. -/
inductive hap_arg where
  | ull (v : Nat)
  | dbl (v : ℚ)
  deriving DecidableEq

/-- What the plugin hands to collectd, one constructor per dispatching
function, holding the arguments of the call. -/
inductive hap_event where
  | submit_counter (svname pxname type : CStr) (args : List hap_arg)
  | submit_gauge (svname pxname type : CStr) (args : List hap_arg)
  | notification (svname pxname type : CStr) (severity : Nat) (message : CStr)
  deriving DecidableEq

/-- The two module-global lists. -/
structure hap_state where
  hap_entry_list : List hap_entry_t := []
  hap_status_list : List hap_status_t := []
  deriving DecidableEq

/-- Model of `new_hap_status`: a new cell is pushed on the front of
`hap_status_list`.  (The NULL test on the names cannot fire: the names of a
linked entry are never NULL.) -/
def new_hap_status (svname pxname : CStr) (status : Int)
    (hap_status_list : List hap_status_t) : List hap_status_t :=
  { svname := svname, pxname := pxname, status := status } :: hap_status_list

/-- Model of `get_hap_status`: the first cell whose two names are equal to the
arguments (`strcmp`), as its position in the list together with the cell, or
`none` for NULL. -/
def get_hap_status (svname pxname : CStr) : List hap_status_t → Option (Nat × hap_status_t)
  | [] => none
  | r :: rs =>
    if strcmp_eq r.svname svname && strcmp_eq r.pxname pxname then some (0, r)
    else match get_hap_status svname pxname rs with
      | none => none
      | some (i, q) => some (i + 1, q)

/-- The assignment `pstatus->status = status` through the pointer returned by
`get_hap_status`. -/
def set_hap_status (pstatus : Nat × hap_status_t) (status : Int)
    (hap_status_list : List hap_status_t) : List hap_status_t :=
  hap_status_list.set pstatus.1 { pstatus.2 with status := status }

/-! ## The statistics socket -/

/-- Outcome of one turn of the receive loop, as decided by the peer. -/
inductive hap_recv where
  /-- `poll` returns a value `<= 0` (time-out or error). -/
  | poll_fail
  /-- `recv` returns a negative value. -/
  | recv_fail
  /-- The bytes the peer has made available: `recv` returns as many of them as
  fit in the room it is given and leaves the others for the next call. -/
  | recv_data (bytes : List Char)
  deriving DecidableEq

/-- Behaviour of the unix socket during one query: the return values of
`socket`, `connect` and `send`, then the outcomes of the receive loop.  When
`reads` is exhausted the peer has closed the stream and `recv` returns 0. -/
structure hap_sock where
  socket_fd : Int := 3
  connect_ret : Int := 0
  send_ret : Int := 10
  reads : List hap_recv := []
  deriving DecidableEq

/-- Number of bytes and turns left in a list of receive outcomes: a bound on
the number of turns of the receive loop. -/
def hap_reads_size : List hap_recv → Nat
  | [] => 0
  | hap_recv.recv_data bytes :: rs => bytes.length + 1 + hap_reads_size rs
  | _ :: rs => 1 + hap_reads_size rs

/-- What is left for the peer to deliver after `recv` took `room` bytes of
`bytes`. -/
def hap_recv_rest (bytes : List Char) (room : Nat) (rs : List hap_recv) : List hap_recv :=
  if bytes.drop room = [] then rs else hap_recv.recv_data (bytes.drop room) :: rs

/-- The line loop of `hap_retrievestat` on the buffer contents from `line`
on: every newline-terminated line that does not begin with `#` goes to
`hap_line2entry`; the result holds the unterminated rest (the `off` bytes
moved to the front of the buffer).  `fuel` bounds the number of lines. -/
def hap_stat_lines (interval_g : Int) :
    Nat → List Char → List hap_entry_t → List hap_entry_t × List Char
  | 0, line, el => (el, line)
  | fuel + 1, line, el =>
    match scan_to '\n' line with
    | none => (el, line)
    | some (l, rest) =>
      hap_stat_lines interval_g fuel rest
        (if l.head? ≠ some '#' then hap_line2entry interval_g l el else el)

/-- The receive loop `while (1)` of `hap_retrievestat`: `buf` holds the `off`
bytes kept from the previous turn.  The result is `ret` and the entry list. -/
def hap_stat_recv (interval_g : Int) :
    Nat → List hap_recv → List Char → List hap_entry_t → Int × List hap_entry_t
  | 0, _, _, el => (-1, el)
  | _ + 1, [], _, el => (0, el)
  | _ + 1, hap_recv.poll_fail :: _, _, el => (-1, el)
  | _ + 1, hap_recv.recv_fail :: _, _, el => (-1, el)
  | fuel + 1, hap_recv.recv_data bytes :: rs, buf, el =>
    let room := HAP_STAT_LINE_LEN - buf.length
    let got := bytes.take room
    if got = [] then (0, el)
    else
      let r := hap_stat_lines interval_g ((buf ++ got).length + 1) (buf ++ got) el
      hap_stat_recv interval_g fuel (hap_recv_rest bytes room rs) r.2 r.1

/-- Model of `hap_retrievestat`: the return value and the new
`hap_entry_list`.  `send` returns a signed value that the C code compares
with the unsigned `sizeof (HAP_SHOW_STAT) - 1`, which is 10. -/
def hap_retrievestat (interval_g : Int) (s : hap_sock)
    (hap_entry_list : List hap_entry_t) : Int × List hap_entry_t :=
  if s.socket_fd = -1 then (-1, hap_entry_list)
  else if s.connect_ret < 0 then (-1, hap_entry_list)
  else if to_u64 s.send_ret < 10 then (-1, hap_entry_list)
  else hap_stat_recv interval_g (hap_reads_size s.reads + 1) s.reads [] hap_entry_list

/-- The line loop of `hap_retrieveuptime`: the uptime read from the first
newline-terminated line that begins with `Uptime_sec:`, or else the
unterminated rest of the buffer. -/
def hap_uptime_lines : Nat → List Char → Nat ⊕ List Char
  | 0, line => .inr line
  | fuel + 1, line =>
    match scan_to '\n' line with
    | none => .inr line
    | some (l, rest) =>
      if strncmp_eq l "Uptime_sec:".toList 11 then .inl (to_u64 (atol (l.drop 11)))
      else hap_uptime_lines fuel rest

/-- The receive loop `while (1)` of `hap_retrieveuptime`: `ret` and
`*uptime`. -/
def hap_uptime_recv : Nat → List hap_recv → List Char → Int × Nat
  | 0, _, _ => (-1, 0)
  | _ + 1, [], _ => (-1, 0)
  | _ + 1, hap_recv.poll_fail :: _, _ => (-1, 0)
  | _ + 1, hap_recv.recv_fail :: _, _ => (-1, 0)
  | fuel + 1, hap_recv.recv_data bytes :: rs, buf =>
    let room := HAP_STAT_LINE_LEN - buf.length
    let got := bytes.take room
    if got = [] then (-1, 0)
    else
      match hap_uptime_lines ((buf ++ got).length + 1) (buf ++ got) with
      | .inl uptime => (0, uptime)
      | .inr rest => hap_uptime_recv fuel (hap_recv_rest bytes room rs) rest

/-- Model of `hap_retrieveuptime`: the return value and `*uptime`. -/
def hap_retrieveuptime (s : hap_sock) : Int × Nat :=
  if s.socket_fd = -1 then (-1, 0)
  else if s.connect_ret < 0 then (-1, 0)
  else if to_u64 s.send_ret < 10 then (-1, 0)
  else hap_uptime_recv (hap_reads_size s.reads + 1) s.reads []

/-! ## One polling cycle -/

/-- The status notification block of the entry loop of `hap_read`
(`if (hap_notifs) { ... }`): the new status list and what is notified. -/
def hap_track (hap_notifs : Nat) (pentry : hap_entry_t)
    (hap_status_list : List hap_status_t) : List hap_status_t × List hap_event :=
  if hap_notifs ≠ 0 then
    if pentry.status = 0 then
      match get_hap_status pentry.svname pentry.pxname hap_status_list with
      | none =>
        (new_hap_status pentry.svname pentry.pxname HAP_STATUS_DOWN hap_status_list, [])
      | some pstatus =>
        if pstatus.2.status ≠ HAP_STATUS_DOWN then
          (set_hap_status pstatus HAP_STATUS_DOWN hap_status_list,
            if hap_notifs &&& HAP_NOTIF_STATUSDOWN ≠ 0 then
              [hap_event.notification pentry.svname pentry.pxname "hap_status".toList
                NOTIF_WARNING "DOWN".toList]
            else [])
        else (hap_status_list, [])
    else if pentry.status = 100 then
      match get_hap_status pentry.svname pentry.pxname hap_status_list with
      | none =>
        (new_hap_status pentry.svname pentry.pxname HAP_STATUS_UP hap_status_list, [])
      | some pstatus =>
        if pstatus.2.status ≠ HAP_STATUS_UP then
          (set_hap_status pstatus HAP_STATUS_UP hap_status_list,
            if hap_notifs &&& HAP_NOTIF_STATUSUP ≠ 0 then
              [hap_event.notification pentry.svname pentry.pxname "hap_status".toList
                NOTIF_OKAY "UP".toList]
            else [])
        else (hap_status_list, [])
    else (hap_status_list, [])
  else (hap_status_list, [])

/-- The filter loop `for (i = 0; i < count; i++) if (!strcasecmp (f[i], name))
break;`: `true` when the loop is left by `break`, `false` when `i == count`. -/
def hap_filter_hit : List CStr → CStr → Bool
  | [], _ => false
  | f :: fs, name => if strcasecmp_eq f name then true else hap_filter_hit fs name

/-- The two filter blocks of `hap_read`: `true` when one of them jumps to
`filtered`. -/
def hap_filtered (c : hap_conf) (pentry : hap_entry_t) : Bool :=
  if c.pxf ≠ [] ∧ hap_filter_hit c.pxf pentry.pxname = false then true
  else if c.svf ≠ [] ∧ hap_filter_hit c.svf pentry.svname = false then true
  else false

/-- The submissions of `hap_read` for an entry that passed the filters. -/
def hap_submit (hap_flags : Nat) (pentry : hap_entry_t) : List hap_event :=
  (if hap_flags &&& HAP_BYTES ≠ 0 then
    [hap_event.submit_counter pentry.svname pentry.pxname "hap_bytes".toList
      [.ull pentry.bin, .ull pentry.bout]]
  else []) ++
  (if hap_flags &&& HAP_SESSIONS ≠ 0 then
    [hap_event.submit_counter pentry.svname pentry.pxname "hap_sessions".toList
      [.ull pentry.stot, .ull pentry.rate],
     hap_event.submit_gauge pentry.svname pentry.pxname "frequency".toList
      [.ull pentry.req_rate]]
  else []) ++
  (if hap_flags &&& HAP_ERRORS ≠ 0 then
    [hap_event.submit_counter pentry.svname pentry.pxname "hap_errors".toList
      [.ull pentry.ereq, .ull pentry.ersp, .ull pentry.econ]]
  else []) ++
  (if hap_flags &&& HAP_HTTP_CODES ≠ 0 then
    (if pentry.pxtype < 3 then
      [hap_event.submit_counter pentry.svname pentry.pxname "hap_http_codes".toList
        [.ull pentry.hrsp_1xx, .ull pentry.hrsp_2xx, .ull pentry.hrsp_3xx,
         .ull pentry.hrsp_4xx, .ull pentry.hrsp_5xx, .ull pentry.hrsp_other]]
    else [])
  else []) ++
  (if hap_flags &&& HAP_DENY ≠ 0 then
    [hap_event.submit_counter pentry.svname pentry.pxname "hap_deny".toList
      [.ull pentry.dreq, .ull pentry.drsp]]
  else []) ++
  (if hap_flags &&& HAP_STATUS ≠ 0 then
    [hap_event.submit_gauge pentry.svname pentry.pxname "hap_status".toList
      [.dbl pentry.status]]
  else [])

/-- One turn of the loop `while (pentry)` of `hap_read`. -/
def hap_read_entry (c : hap_conf) (pentry : hap_entry_t)
    (hap_status_list : List hap_status_t) : List hap_status_t × List hap_event :=
  let tracked := hap_track c.hap_notifs pentry hap_status_list
  (tracked.1, tracked.2 ++ (if hap_filtered c pentry then [] else hap_submit c.hap_flags pentry))

/-- The loop `while (pentry)` of `hap_read` over `hap_entry_list`, head
first. -/
def hap_read_loop (c : hap_conf) :
    List hap_entry_t → List hap_status_t → List hap_status_t × List hap_event
  | [], hap_status_list => (hap_status_list, [])
  | pentry :: rest, hap_status_list =>
    let r := hap_read_entry c pentry hap_status_list
    let rs := hap_read_loop c rest r.1
    (rs.1, r.2 ++ rs.2)

/-- Model of `hap_read`, one polling cycle: `stat` and `info` are the
behaviours of the socket during the two queries.  The result is the new
module state and what was dispatched, in order.  Every path ends with
`hap_entry_list = NULL`; the three `goto noreg` leave the status list as it
is and dispatch nothing.  `hap_restart_gap + 1` is computed in
`unsigned long`. -/
def hap_read (c : hap_conf) (interval_g : Int) (stat info : hap_sock)
    (st : hap_state) : hap_state × List hap_event :=
  let rs := hap_retrievestat interval_g stat st.hap_entry_list
  if rs.1 < 0 then
    ({ hap_entry_list := [], hap_status_list := st.hap_status_list }, [])
  else
    let ru := hap_retrieveuptime info
    if ru.1 < 0 then
      ({ hap_entry_list := [], hap_status_list := st.hap_status_list }, [])
    else if ru.2 < (c.hap_restart_gap + 1) % 2 ^ 64 then
      ({ hap_entry_list := [], hap_status_list := st.hap_status_list }, [])
    else
      let r := hap_read_loop c rs.2 st.hap_status_list
      ({ hap_entry_list := [], hap_status_list := r.1 }, r.2)

/-! ## Definitions that follow the specification -/

/-- The comma-terminated fields of a statistics line, in order: the text
between two commas (or between the start of the line and the first comma).
What follows the last comma is not a field, and the line ends at a NUL. -/
def columns : List Char → List CStr
  | [] => []
  | c :: cs =>
    if c = '\x00' then []
    else if c = ',' then [] :: columns cs
    else match columns cs with
      | [] => []
      | f :: fs => (c :: f) :: fs

/-- Column `k` of a statistics line (empty when the line has no such
column). -/
def column (line : List Char) (k : Nat) : CStr := (columns line).getD k []

/-- Decimal decoding of a column as an `unsigned long long`. -/
def column_u64 (line : List Char) (k : Nat) : Nat := to_u64 (atoll (column line k))

/-- The fraction `x/y` that follows a status word: `rest` is the text after
the word, `x` the integer at its start and `y` the integer after its first
slash; `none` when `rest` has no slash. -/
def status_fraction (rest : CStr) : Option (Int × Int) :=
  match rest.dropWhile (fun c => c != '/') with
  | [] => none
  | _ :: den => some (atoi rest, atoi den)

/-- The fraction of a status token that starts with `UP` or `DOWN`. -/
def token_fraction (tok : CStr) : Option (Int × Int) :=
  if ['U', 'P'].isPrefixOf tok then status_fraction (tok.drop 2)
  else if ['D', 'O', 'W', 'N'].isPrefixOf tok then status_fraction (tok.drop 4)
  else none

/-- Reference decoding of the status token, after section 4.2 of the
specification, with `100*x/y` as the exact quotient. -/
def reference_availability (tok : CStr) : ℚ :=
  if ['U', 'P'].isPrefixOf tok then
    match status_fraction (tok.drop 2) with
    | some (x, y) => if y ≠ 0 then 100 * (x : ℚ) / (y : ℚ) else 100
    | none => 100
  else if ['D', 'O', 'W', 'N'].isPrefixOf tok then
    match status_fraction (tok.drop 4) with
    | some (x, y) => if y ≠ 0 then 100 - 100 * (x : ℚ) / (y : ℚ) else 0
    | none => 0
  else if tok = ['O', 'P', 'E', 'N'] then 100
  else if tok = ['n', 'o', ' ', 'c', 'h', 'e', 'c', 'k'] then 50
  else 0

/-- The percentage `100*x/y` as single precision arithmetic yields it: `x` and
`y` are converted to binary32, and the product and the quotient are each
rounded to binary32. -/
def percent_f32 (x y : Int) : ℚ :=
  f32_round (f32_round (100 * f32_round (x : ℚ)) / f32_round (y : ℚ))

/-- Reference decoding of the status token, after section 4.2 of the
specification, with `100*x/y` and `100 - 100*x/y` evaluated in single
precision. -/
def rounded_availability (tok : CStr) : ℚ :=
  if ['U', 'P'].isPrefixOf tok then
    match status_fraction (tok.drop 2) with
    | some (x, y) => if y ≠ 0 then percent_f32 x y else 100
    | none => 100
  else if ['D', 'O', 'W', 'N'].isPrefixOf tok then
    match status_fraction (tok.drop 4) with
    | some (x, y) => if y ≠ 0 then f32_round (100 - percent_f32 x y) else 0
    | none => 0
  else if tok = ['O', 'P', 'E', 'N'] then 100
  else if tok = ['n', 'o', ' ', 'c', 'h', 'e', 'c', 'k'] then 50
  else 0

/-- The fields of a line handed to the `switch` of `hap_line2entry` one after
the other, starting with field number `i`. -/
def hap_fields (interval_g : Int) : Nat → List CStr → hap_pentry → hap_pentry
  | _, [], pe => pe
  | i, tok :: toks, pe => hap_fields interval_g (i + 1) toks (hap_field interval_g i tok pe)

/-- The status lists that a run of the plugin can hold under the setting
`hap_notifs`: the empty list of the start, and what the status block of
`hap_read` makes of such a list for any entry. -/
inductive hap_reachable (hap_notifs : Nat) : List hap_status_t → Prop where
  | start : hap_reachable hap_notifs []
  | track (pentry : hap_entry_t) (sl : List hap_status_t) :
      hap_reachable hap_notifs sl → hap_reachable hap_notifs (hap_track hap_notifs pentry sl).1

/-- The statistics line of the end-to-end scenario of the specification. -/
def scenario_line : List Char :=
  "fe1,sv1,0,0,0,0,0,120,1000,2000,0,0,0,0,0,0,0,UP,,,,,,,,,,,,,,,,0,0,0,0,0,0,0,0,0,0,0,0,0".toList

/-- The `show stat` socket of the end-to-end scenario: a header comment line,
then the statistics line. -/
def scenario_stat : hap_sock :=
  { reads := [hap_recv.recv_data ("# pxname,svname,qcur,qmax,\n".toList ++ scenario_line ++ ['\n'])] }

/-- The `show info` socket of the end-to-end scenario. -/
def scenario_info : hap_sock :=
  { reads := [hap_recv.recv_data "Uptime_sec: 500\n".toList] }

/-- A statistics line with all 51 columns, as HAProxy reports a server. -/
def sample_line : List Char :=
  ("www,srv1,0,1,2,3,4,120,1000,2000,5,6,7,8,9,0,0,UP 1/3,1,1,0,0,0,10,0,,1,2,1,,50,,2,7,,9," ++
    "L4OK,,0,11,12,13,14,15,16,0,21,22,23,0,0,").toList

/-- A statistics line whose status token carries the fraction `7/5`. -/
def overshoot_line : List Char :=
  "fe1,sv1,0,0,0,0,0,0,0,0,0,0,0,0,0,0,0,UP 7/5,".toList

/-- The status recorded for a key, if any. -/
def recorded_status (svname pxname : CStr) (sl : List hap_status_t) : Option Int :=
  (get_hap_status svname pxname sl).map (fun p => p.2.status)

/-- The state recorded for a key after an observation with the availability
`avail`, from the state recorded before (`old`): availability 0 records DOWN,
availability 100 records UP, any other availability leaves the record as it
is. -/
def next_status (avail : ℚ) (old : Option Int) : Option Int :=
  if avail = 0 then some HAP_STATUS_DOWN
  else if avail = 100 then some HAP_STATUS_UP
  else old

/-- What an observation of the entry `e` notifies, from the state recorded for
its key before (`old`): the DOWN notification when the availability is 0 and
the record is not DOWN, the UP notification when the availability is 100 and
the record is not UP, nothing when there is no record, when the record is the
observed extreme, or when the availability is intermediate. -/
def edge_notification (e : hap_entry_t) (old : Option Int) : List hap_event :=
  match old with
  | none => []
  | some a =>
    if e.status = 0 then
      if a = HAP_STATUS_DOWN then []
      else [hap_event.notification e.svname e.pxname "hap_status".toList NOTIF_WARNING
        "DOWN".toList]
    else if e.status = 100 then
      if a = HAP_STATUS_UP then []
      else [hap_event.notification e.svname e.pxname "hap_status".toList NOTIF_OKAY
        "UP".toList]
    else []

/-- The notifications that the specification expects over the observations
`es` of one key, in order, from the state recorded for the key at the start
(`old`). -/
def reference_notifications (old : Option Int) : List hap_entry_t → List hap_event
  | [] => []
  | e :: es => edge_notification e old ++ reference_notifications (next_status e.status old) es

/-- The state that the specification expects to be recorded for a key after
the observations `es` of that key, from the state recorded at the start. -/
def reference_status (old : Option Int) : List hap_entry_t → Option Int
  | [] => old
  | e :: es => reference_status (next_status e.status old) es

/-- The observations of the key (`svname`, `pxname`) in a run, in order. -/
def observations_of (svname pxname : CStr) (es : List hap_entry_t) : List hap_entry_t :=
  es.filter (fun e => decide (e.svname = svname ∧ e.pxname = pxname))

/-- The notifications about the key (`svname`, `pxname`) among what was
dispatched, in order. -/
def notifications_of (svname pxname : CStr) (evs : List hap_event) : List hap_event :=
  evs.filter (fun ev =>
    match ev with
    | .notification sv px _ _ _ => decide (sv = svname ∧ px = pxname)
    | _ => false)

/-- An entry of `sv1`/`fe1` with availability 100. -/
def entry_up : hap_entry_t := { pxname := "fe1".toList, svname := "sv1".toList, status := 100 }

/-- An entry of `sv1`/`fe1` with availability 0. -/
def entry_down : hap_entry_t := { pxname := "fe1".toList, svname := "sv1".toList, status := 0 }

/-- An entry of `sv1`/`fe1` with availability 40. -/
def entry_mid : hap_entry_t := { pxname := "fe1".toList, svname := "sv1".toList, status := 40 }

/-- An entry of `sv2`/`fe1` with availability 100. -/
def entry_other : hap_entry_t := { pxname := "fe1".toList, svname := "sv2".toList, status := 100 }

/-- The run 0, 40, 100, 100, 0 of `sv1`/`fe1`, with an observation of
`sv2`/`fe1` in between. -/
def flip_run : List hap_entry_t :=
  [entry_down, entry_mid, entry_up, entry_other, entry_up, entry_down]

/-- The run 0, 40, 0, 40 of `sv1`/`fe1`. -/
def quiet_run : List hap_entry_t := [entry_down, entry_mid, entry_down, entry_mid]

/-- The status cell of `sv1`/`fe1` in state UP. -/
def cell_up : hap_status_t :=
  { pxname := "fe1".toList, svname := "sv1".toList, status := HAP_STATUS_UP }

/-- Settings with only the DOWN notification enabled. -/
def conf_down_only : hap_conf := { hap_notifs := HAP_NOTIF_STATUSDOWN }

/-- Settings with both notifications enabled. -/
def conf_both : hap_conf := { hap_notifs := 3 }

/-- A `show info` socket that reports an uptime of 15 seconds. -/
def restarted_info : hap_sock :=
  { reads := [hap_recv.recv_data "Uptime_sec: 15\n".toList] }

/-! ## Configuration -/

/-- The complement `~x` of an `int` flag, as the 32 bit pattern. -/
def int_not (x : Nat) : Nat := 0xFFFFFFFF ^^^ x

/-- Model of `hap_config`: the return value and the new settings.  `IS_TRUE`
is the macro of collectd that decides whether a configuration value means
"true"; it is not part of this plugin and is taken as a parameter. -/
def hap_config (IS_TRUE : CStr → Bool) (key value : CStr) (c : hap_conf) : Int × hap_conf :=
  if strcasecmp_eq key "DisableDeny".toList then
    (0, if IS_TRUE value then { c with hap_flags := c.hap_flags &&& int_not HAP_DENY } else c)
  else if strcasecmp_eq key "DisableErrors".toList then
    (0, if IS_TRUE value then { c with hap_flags := c.hap_flags &&& int_not HAP_ERRORS } else c)
  else if strcasecmp_eq key "DisableSessions".toList then
    (0, if IS_TRUE value then { c with hap_flags := c.hap_flags &&& int_not HAP_SESSIONS } else c)
  else if strcasecmp_eq key "DisableBytes".toList then
    (0, if IS_TRUE value then { c with hap_flags := c.hap_flags &&& int_not HAP_BYTES } else c)
  else if strcasecmp_eq key "DisableStatus".toList then
    (0, if IS_TRUE value then { c with hap_flags := c.hap_flags &&& int_not HAP_STATUS } else c)
  else if strcasecmp_eq key "DisableHttpCodes".toList then
    (0, if IS_TRUE value then { c with hap_flags := c.hap_flags &&& int_not HAP_HTTP_CODES }
      else c)
  else if strcasecmp_eq key "NotifStatusDown".toList then
    (0, if IS_TRUE value then { c with hap_notifs := c.hap_notifs ||| HAP_NOTIF_STATUSDOWN }
      else c)
  else if strcasecmp_eq key "NotifStatusUp".toList then
    (0, if IS_TRUE value then { c with hap_notifs := c.hap_notifs ||| HAP_NOTIF_STATUSUP }
      else c)
  else if strcasecmp_eq key "PxFilter".toList then
    (0, { c with pxf := c.pxf ++ [value] })
  else if strcasecmp_eq key "SvFilter".toList then
    (0, { c with svf := c.svf ++ [value] })
  else if strcasecmp_eq key "SocketPath".toList then
    (0, { c with hap_socketpath := value })
  else if strcasecmp_eq key "RestartGap".toList then
    (0, { c with hap_restart_gap := to_u64 (atol value) })
  else (-1, c)

/-- The names of the array `config_keys`, before its terminating NULL. -/
def config_keys : List CStr :=
  ["DisableBytes".toList, "DisableDeny".toList, "DisableErrors".toList,
   "DisableSessions".toList, "DisableStatus".toList, "DisableHttpCodes".toList,
   "NotifStatusDown".toList, "NotifStatusUp".toList, "PxFilter".toList,
   "SocketPath".toList, "SvFilter".toList, "RestartGap".toList]

def config_keys_num : Nat := 11

/-- Model of `module_register`: the keys that `plugin_register_config` is
given, the first `config_keys_num` entries of `config_keys`. -/
def module_register : List CStr := config_keys.take config_keys_num

/-! ## Reading the variadic arguments -/

/-- The value `va_arg (ap, unsigned long long)` reads in `hap_submit_counter`:
defined when the argument was passed as an `unsigned long long`. -/
def va_arg_ull : hap_arg → Option Nat
  | .ull v => some v
  | .dbl _ => none

/-- The value `va_arg (ap, double)` reads in `hap_submit_gauge`: defined when
the argument was passed as a `double`; reading an argument of another type
has no defined value. -/
def va_arg_double : hap_arg → Option ℚ
  | .dbl v => some v
  | .ull _ => none

/-- The `values` that a call of `hap_submit_counter` or `hap_submit_gauge`
dispatches (`none` for a value that C leaves undefined); a notification
dispatches no value. -/
def hap_dispatched_values : hap_event → List (Option ℚ)
  | .submit_counter _ _ _ args => args.map (fun a => (va_arg_ull a).map (fun v => (v : ℚ)))
  | .submit_gauge _ _ _ args => args.map va_arg_double
  | .notification _ _ _ _ _ => []

/-! ## Further definitions that follow the specification -/

/-- Two characters that are the same up to the case of an ASCII letter. -/
def same_letter (a b : Char) : Bool :=
  a = b || (65 ≤ a.toNat && a.toNat ≤ 90 && b.toNat = a.toNat + 32) ||
    (65 ≤ b.toNat && b.toNat ≤ 90 && a.toNat = b.toNat + 32)

/-- Equality of two strings ignoring ASCII case. -/
def eq_ignore_case : CStr → CStr → Bool
  | [], [] => true
  | a :: p, b :: q => same_letter a b && eq_ignore_case p q
  | _, _ => false

/-- The filter of section 4.4 of the specification: the entry passes an
allow-list when the list is empty or holds its name up to ASCII case, and it
is included when it passes both lists. -/
def filter_includes (pxf svf : List CStr) (e : hap_entry_t) : Prop :=
  (pxf = [] ∨ ∃ f ∈ pxf, eq_ignore_case e.pxname f = true) ∧
  (svf = [] ∨ ∃ f ∈ svf, eq_ignore_case e.svname f = true)

/-- The notifications among what was dispatched. -/
def hap_notifications (evs : List hap_event) : List hap_event :=
  evs.filter (fun ev => match ev with
    | .notification _ _ _ _ _ => true
    | _ => false)

/-- A run of polling cycles with the interval `interval_g`: every cycle comes
with the behaviour of the socket during its two queries. -/
def hap_cycles (c : hap_conf) (interval_g : Int) :
    List (hap_sock × hap_sock) → hap_state → hap_state
  | [], st => st
  | (stat, info) :: rest, st => hap_cycles c interval_g rest (hap_read c interval_g stat info st).1

/-- The keys (proxy name, server name) of the cells of a status list. -/
def hap_keys (sl : List hap_status_t) : List (CStr × CStr) :=
  sl.map (fun r => (r.pxname, r.svname))

/-- A `show stat` socket that delivers the header and half of the scenario
line, then times out. -/
def broken_stat : hap_sock :=
  { reads := [hap_recv.recv_data ("# pxname,svname,\nfe0,sv0,0,\n".toList ++
      scenario_line.take 20), hap_recv.poll_fail] }

/-- A `show info` socket whose `connect` fails. -/
def broken_info : hap_sock := { connect_ret := -1 }

/-- The metric categories of the configuration. -/
inductive hap_metric where
  | bytes | sessions | errors | deny | status | http_codes
  deriving DecidableEq

/-- The bit of a metric category in `hap_flags`. -/
def hap_metric.flag : hap_metric → Nat
  | .bytes => HAP_BYTES
  | .sessions => HAP_SESSIONS
  | .errors => HAP_ERRORS
  | .deny => HAP_DENY
  | .status => HAP_STATUS
  | .http_codes => HAP_HTTP_CODES

/-- The option that disables a metric category. -/
def hap_metric.disable_key : hap_metric → CStr
  | .bytes => "DisableBytes".toList
  | .sessions => "DisableSessions".toList
  | .errors => "DisableErrors".toList
  | .deny => "DisableDeny".toList
  | .status => "DisableStatus".toList
  | .http_codes => "DisableHttpCodes".toList

/-- The notification categories of the configuration. -/
inductive hap_notif_category where
  | status_down | status_up
  deriving DecidableEq

/-- The bit of a notification category in `hap_notifs`. -/
def hap_notif_category.flag : hap_notif_category → Nat
  | .status_down => HAP_NOTIF_STATUSDOWN
  | .status_up => HAP_NOTIF_STATUSUP

/-- The option that enables a notification category. -/
def hap_notif_category.enable_key : hap_notif_category → CStr
  | .status_down => "NotifStatusDown".toList
  | .status_up => "NotifStatusUp".toList

/-- A metric category is in the enabled set. -/
def metric_enabled (c : hap_conf) (m : hap_metric) : Bool :=
  decide (c.hap_flags &&& m.flag ≠ 0)

/-- A notification category is in the enabled set. -/
def notif_enabled (c : hap_conf) (n : hap_notif_category) : Bool :=
  decide (c.hap_notifs &&& n.flag ≠ 0)

/-- A statistics line with all 51 columns and the status token `UP 1/2`. -/
def gauge_line : List Char :=
  ("www,srv1,0,1,2,3,4,120,1000,2000,5,6,7,8,9,0,0,UP 1/2,1,1,0,0,0,10,0,,1,2,1,,50,,2,7,,9," ++
    "L4OK,,0,11,12,13,14,15,16,0,21,22,23,0,0,").toList

/-- The entry that `hap_line2entry` makes of `gauge_line` with the
interval 10. -/
def gauge_entry : hap_entry_t :=
  { pxname := "www".toList, svname := "srv1".toList, bin := 1000, bout := 2000, stot := 20,
    rate := 70, ereq := 7, ersp := 9, econ := 8, dreq := 5, drsp := 6, pxtype := 2,
    req_rate := 21, hrsp_1xx := 11, hrsp_2xx := 12, hrsp_3xx := 13, hrsp_4xx := 14,
    hrsp_5xx := 15, hrsp_other := 16, status := 50 }

/-- The newline-terminated lines of a byte stream, in order, and the
unterminated text that follows the last newline. -/
def split_lines : List Char → List CStr × List Char
  | [] => ([], [])
  | c :: cs =>
    if c = '\n' then ([] :: (split_lines cs).1, (split_lines cs).2)
    else match (split_lines cs).1 with
      | [] => ([], c :: (split_lines cs).2)
      | l :: ls => ((c :: l) :: ls, (split_lines cs).2)

/-- The newline-terminated lines of a byte stream, in order. -/
def complete_lines (s : List Char) : List CStr := (split_lines s).1

/-- The text of a byte stream after its last newline. -/
def line_rest (s : List Char) : List Char := (split_lines s).2

/-- What the line loop of `hap_retrievestat` does with one line: a line that
does not begin with `#` is handed to `hap_line2entry`. -/
def hap_stat_line (interval_g : Int) (el : List hap_entry_t) (l : CStr) : List hap_entry_t :=
  if l.head? ≠ some '#' then hap_line2entry interval_g l el else el

/-- The line begins with `Uptime_sec:`. -/
def is_uptime_line (l : CStr) : Bool := "Uptime_sec:".toList.isPrefixOf l

/-- The uptime of a `show info` response, after section 4.3 of the
specification: the integer after `Uptime_sec:` on the first complete line
that begins with it. -/
def response_uptime (s : List Char) : Option Nat :=
  ((complete_lines s).find? is_uptime_line).map (fun l => to_u64 (atol (l.drop 11)))

/-- A line of a `show stat` response is a comment: it begins with `#`. -/
def is_comment_line (l : CStr) : Bool := l.head? = some '#'

/-- The `show stat` response of the end-to-end scenario, delivered in two
reads that cut the statistics line in the middle of a field. -/
def scenario_chunks : List (List Char) :=
  ["# pxname,svname,qcur,qmax,\n".toList ++ scenario_line.take 30,
   scenario_line.drop 30 ++ ['\n']]

/-- The same response without its comment line, delivered in one read. -/
def scenario_plain_chunks : List (List Char) := [scenario_line ++ ['\n']]

/-- A `show info` response delivered in two reads that cut the uptime
line. -/
def info_chunks : List (List Char) :=
  ["Name: HAProxy\nUptime_".toList, "sec: 500\nNbproc: 1\n".toList]

/-- A `show stat` response whose comment line holds a NUL byte. -/
def nul_comment_stat : hap_sock :=
  { reads := [hap_recv.recv_data "#\x00\nfe1,sv1,\n".toList] }

/-- The response of `nul_comment_stat` without its comment line. -/
def nul_comment_stat_plain : hap_sock :=
  { reads := [hap_recv.recv_data "fe1,sv1,\n".toList] }

/-- A `show stat` response whose comment line is longer than the buffer. -/
def long_comment_stat : hap_sock :=
  { reads := [hap_recv.recv_data ('#' :: List.replicate 2047 'x' ++ "\nfe1,sv1,\n".toList)] }

/-- A `show info` response with a NUL byte before the uptime line. -/
def nul_info : List Char := "a\x00\nUptime_sec: 500\n".toList

/-- A `show info` response with a line longer than the buffer before the
uptime line. -/
def long_info : List Char := List.replicate 2047 'x' ++ "\nUptime_sec: 500\n".toList

/-- The number of commas of a line, a C string: the commas before its
terminating NUL. -/
def comma_count (line : List Char) : Nat :=
  (line.takeWhile (fun c => c != '\x00')).count ','

/-! ## Lemmas on the C library model -/

theorem scan_to_columns_none (l : List Char) (h : scan_to ',' l = none) : columns l = [] := by
  induction l with
  | nil => rfl
  | cons c cs ih =>
    simp only [scan_to] at h
    simp only [columns]
    split_ifs at h with h0 hc
    · simp [h0]
    · cases hs : scan_to ',' cs with
      | none => simp [h0, hc, ih hs]
      | some v => simp [hs] at h

theorem scan_to_columns_some (l : List Char) (tok : CStr) (rest : List Char)
    (h : scan_to ',' l = some (tok, rest)) : columns l = tok :: columns rest := by
  induction l generalizing tok with
  | nil => simp [scan_to] at h
  | cons c cs ih =>
    simp only [scan_to] at h
    simp only [columns]
    split_ifs at h with h0 hc
    · simp only [Option.some.injEq, Prod.mk.injEq] at h
      simp [h0, hc, h.1.symm, h.2]
    · cases hs : scan_to ',' cs with
      | none => simp [hs] at h
      | some v =>
        obtain ⟨t, r⟩ := v
        simp only [hs, Option.some.injEq, Prod.mk.injEq] at h
        obtain ⟨h1, h2⟩ := h
        subst h1 h2
        simp [h0, hc, ih t hs]

theorem hap_tokenize_eq_fields (interval_g : Int) (n i : Nat) (p : List Char) (pe : hap_pentry) :
    hap_tokenize interval_g n i p pe = hap_fields interval_g i ((columns p).take n) pe := by
  induction n generalizing i p pe with
  | zero => simp [hap_tokenize, hap_fields]
  | succ n ih =>
    simp only [hap_tokenize]
    cases hs : scan_to ',' p with
    | none => simp [scan_to_columns_none p hs, hap_fields]
    | some v =>
      obtain ⟨tok, rest⟩ := v
      simp [scan_to_columns_some p tok rest hs, hap_fields, ih]

/-- A member of the entry that only field number `k` writes holds, after the
fields `toks` numbered from `i ≤ k` on, what field `k` put there. -/
theorem hap_fields_proj {α : Type} (interval_g : Int) (proj : hap_pentry → α) (k : Nat)
    (g : CStr → α)
    (hk : ∀ tok pe, proj (hap_field interval_g k tok pe) = g tok)
    (hne : ∀ j, j ≠ k → ∀ tok pe, proj (hap_field interval_g j tok pe) = proj pe)
    (toks : List CStr) (i : Nat) (pe : hap_pentry) (hi : i ≤ k) :
    proj (hap_fields interval_g i toks pe) =
      match toks[k - i]? with
      | some tok => g tok
      | none => proj pe := by
  induction toks generalizing i pe with
  | nil => simp [hap_fields]
  | cons tok toks ih =>
    simp only [hap_fields]
    rcases Nat.eq_or_lt_of_le hi with h | h
    · subst h
      have hfix : ∀ (ts : List CStr) (j : Nat) (q : hap_pentry), i < j →
          proj (hap_fields interval_g j ts q) = proj q := by
        intro ts
        induction ts with
        | nil => intro j q _; simp [hap_fields]
        | cons t ts iht =>
          intro j q hj
          simp only [hap_fields]
          rw [iht (j + 1) _ (by omega), hne j (by omega)]
      rw [hfix toks (i + 1) _ (by omega), hk]
      simp
    · rw [ih (i + 1) _ (by omega)]
      have hsub : k - i = (k - (i + 1)) + 1 := by omega
      rw [hsub, List.getElem?_cons_succ, hne i (by omega)]

/-- Where `strchr` stops is where dropping the characters other than `c`
stops. -/
theorem strchr_eq_dropWhile (q : CStr) (c : Char) :
    strchr q c = match q.dropWhile (fun d => d != c) with
      | [] => none
      | d :: ds => some (d :: ds) := by
  induction q with
  | nil => rfl
  | cons d ds ih =>
    simp only [strchr, List.dropWhile]
    by_cases h : d = c
    · simp [h]
    · have hb : (d != c) = true := by simp [h]
      simp [h, hb, ih]

theorem strncmp_eq_UP (p : CStr) :
    strncmp_eq p ['U', 'P'] 2 = ['U', 'P'].isPrefixOf p := by
  rcases p with _ | ⟨a, _ | ⟨b, r⟩⟩ <;> simp [strncmp_eq, List.isPrefixOf, List.take]
  rw [Bool.eq_iff_iff]
  simp only [Bool.and_eq_true, beq_iff_eq]
  constructor <;> rintro ⟨rfl, rfl⟩ <;> exact ⟨rfl, rfl⟩

theorem strncmp_eq_DOWN (p : CStr) :
    strncmp_eq p ['D', 'O', 'W', 'N'] 4 = ['D', 'O', 'W', 'N'].isPrefixOf p := by
  rcases p with _ | ⟨a, _ | ⟨b, _ | ⟨c, _ | ⟨d, r⟩⟩⟩⟩ <;>
    simp [strncmp_eq, List.isPrefixOf, List.take]
  rw [Bool.eq_iff_iff]
  simp only [Bool.and_eq_true, beq_iff_eq]
  constructor <;> rintro ⟨rfl, rfl, rfl, rfl⟩ <;> exact ⟨rfl, rfl, rfl, rfl⟩

/-! ## Lemmas on single precision rounding -/

theorem ilog2_aux_le (k : Nat) : ∀ n, n ≤ k → n ≠ 0 → 2 ^ ilog2_aux k n ≤ n := by
  induction k with
  | zero => intro n h h0; omega
  | succ k ih =>
    intro n h h0
    unfold ilog2_aux
    split_ifs with h2
    · have := ih (n / 2) (by omega) (by omega)
      rw [pow_succ]
      omega
    · simp; omega

theorem ilog2_aux_lt (k : Nat) : ∀ n, n ≤ k → n < 2 ^ (ilog2_aux k n + 1) := by
  induction k with
  | zero => intro n h; simp [ilog2_aux]; omega
  | succ k ih =>
    intro n h
    unfold ilog2_aux
    split_ifs with h2
    · have := ih (n / 2) (by omega)
      rw [pow_succ]
      omega
    · simp; omega

theorem ilog2_le (n : Nat) (h : n ≠ 0) : 2 ^ ilog2 n ≤ n := ilog2_aux_le n n le_rfl h

theorem ilog2_lt (n : Nat) : n < 2 ^ (ilog2 n + 1) := ilog2_aux_lt n n le_rfl

theorem round_half_even_intCast (z : ℤ) : round_half_even (z : ℚ) = z := by
  simp [round_half_even]

theorem round_half_even_le (m : ℚ) (M : ℤ) (h : m ≤ M) : round_half_even m ≤ M := by
  have hf : ⌊m⌋ ≤ M := by
    have : ((⌊m⌋ : ℤ) : ℚ) ≤ (M : ℚ) := (Int.floor_le m).trans h
    exact_mod_cast this
  have hlt : 0 < m - ⌊m⌋ → ⌊m⌋ + 1 ≤ M := by
    intro hpos
    have : ((⌊m⌋ : ℤ) : ℚ) < (M : ℚ) := by linarith
    have : ⌊m⌋ < M := by exact_mod_cast this
    omega
  unfold round_half_even
  split_ifs with h1 h2 h3
  · exact hf
  · exact hlt (by linarith)
  · exact hf
  · exact hlt (by linarith)

theorem round_half_even_nonneg (m : ℚ) (h : 0 ≤ m) : 0 ≤ round_half_even m := by
  have hf : 0 ≤ ⌊m⌋ := Int.floor_nonneg.mpr h
  unfold round_half_even
  split_ifs <;> omega

theorem round_half_even_ge (m : ℚ) (M : ℤ) (h : (M : ℚ) ≤ m) : M ≤ round_half_even m := by
  have hf : M ≤ ⌊m⌋ := Int.le_floor.mpr h
  unfold round_half_even
  split_ifs <;> omega

/-- The exponent of a rational other than zero: `2^e ≤ |q| < 2^(e+1)`. -/
theorem f32_exponent_bounds (q : ℚ) (hq : q ≠ 0) :
    (2 : ℚ) ^ f32_exponent q ≤ |q| ∧ |q| < (2 : ℚ) ^ (f32_exponent q + 1) := by
  have hn0 : q.num.natAbs ≠ 0 := by
    have := Rat.num_ne_zero.mpr hq
    omega
  have hd0 : (0 : ℚ) < q.den := by exact_mod_cast q.den_pos
  have hqe : |q| = (q.num.natAbs : ℚ) / (q.den : ℚ) := by
    conv_lhs => rw [← Rat.num_div_den q]
    rw [abs_div, Nat.cast_natAbs, Int.cast_abs, abs_of_pos hd0]
  have ha : ((2 : ℚ) ^ ilog2 q.num.natAbs) ≤ (q.num.natAbs : ℚ) := by
    exact_mod_cast ilog2_le _ hn0
  have ha' : (q.num.natAbs : ℚ) < (2 : ℚ) ^ (ilog2 q.num.natAbs + 1) := by
    exact_mod_cast ilog2_lt q.num.natAbs
  have hb : (q.den : ℚ) ≤ (2 : ℚ) ^ (ilog2 q.den + 1) := by
    exact_mod_cast (ilog2_lt q.den).le
  have hb' : (2 : ℚ) ^ ilog2 q.den ≤ (q.den : ℚ) := by
    exact_mod_cast ilog2_le _ q.den_nz
  have h2 : (2 : ℚ) ≠ 0 := by norm_num
  unfold f32_exponent
  split_ifs with h
  · constructor
    · have he : (ilog2 q.num.natAbs : ℤ) - (ilog2 q.den : ℤ) - 1 =
          (ilog2 q.num.natAbs : ℤ) - ((ilog2 q.den + 1 : ℕ) : ℤ) := by push_cast; ring
      rw [he, zpow_sub₀ h2, zpow_natCast, zpow_natCast, hqe]
      exact div_le_div₀ (by positivity) ha hd0 hb
    · rw [sub_add_cancel]
      exact h
  · constructor
    · exact not_lt.mp h
    · have he : (ilog2 q.num.natAbs : ℤ) - (ilog2 q.den : ℤ) + 1 =
          ((ilog2 q.num.natAbs + 1 : ℕ) : ℤ) - (ilog2 q.den : ℤ) := by push_cast; ring
      rw [he, zpow_sub₀ h2, zpow_natCast, zpow_natCast, hqe]
      exact div_lt_div₀ ha' hb' (by positivity) (by positivity)

/-- A positive rational is at least the power of two of its exponent. -/
theorem f32_exponent_le (q : ℚ) (hq : 0 < q) : (2 : ℚ) ^ f32_exponent q ≤ q := by
  have := (f32_exponent_bounds q hq.ne.symm).1
  rwa [abs_of_pos hq] at this

/-- The integer that `round_half_even` picks is within one half of its
argument. -/
theorem round_half_even_dist (m : ℚ) : |(round_half_even m : ℚ) - m| ≤ 1 / 2 := by
  have h1 := Int.floor_le m
  have h2 := Int.lt_floor_add_one m
  unfold round_half_even
  rw [abs_le]
  split_ifs <;> push_cast <;> constructor <;> linarith

/-- The result of `f32_round` is a significand of at most 24 bits times the
unit in the last place of `q`, within half a unit of `q`. -/
theorem f32_round_nearest (q : ℚ) (hq : q ≠ 0) :
    (∃ z : ℤ, |z| ≤ 2 ^ 24 ∧ f32_round q = z * (2 : ℚ) ^ (f32_exponent q - 23)) ∧
    |f32_round q - q| ≤ (2 : ℚ) ^ (f32_exponent q - 23) / 2 := by
  obtain ⟨hlo, hhi⟩ := f32_exponent_bounds q hq
  have hu : (0 : ℚ) < (2 : ℚ) ^ (f32_exponent q - 23) := by positivity
  have hd := round_half_even_dist (q / (2 : ℚ) ^ (f32_exponent q - 23))
  have hr : f32_round q = (round_half_even (q / (2 : ℚ) ^ (f32_exponent q - 23)) : ℚ) *
      (2 : ℚ) ^ (f32_exponent q - 23) := by
    unfold f32_round
    rw [if_neg hq]
  constructor
  · refine ⟨round_half_even (q / (2 : ℚ) ^ (f32_exponent q - 23)), ?_, hr⟩
    have hm : |q / (2 : ℚ) ^ (f32_exponent q - 23)| < 2 ^ 24 := by
      rw [abs_div, abs_of_pos hu, div_lt_iff₀ hu]
      have : (2 : ℚ) ^ 24 * (2 : ℚ) ^ (f32_exponent q - 23) = (2 : ℚ) ^ (f32_exponent q + 1) := by
        rw [← zpow_natCast, ← zpow_add₀ (by norm_num : (2 : ℚ) ≠ 0)]
        congr 1
        push_cast
        ring
      rw [this]
      exact hhi
    have hle : (q / (2 : ℚ) ^ (f32_exponent q - 23)) ≤ ((2 ^ 24 : ℤ) : ℚ) := by
      push_cast
      exact (le_abs_self _).trans hm.le
    have hge : ((-(2 ^ 24) : ℤ) : ℚ) ≤ (q / (2 : ℚ) ^ (f32_exponent q - 23)) := by
      push_cast
      exact (neg_le_neg hm.le).trans (neg_abs_le _)
    have h1 := round_half_even_le _ _ hle
    have h2 := round_half_even_ge _ _ hge
    rw [abs_le]
    exact ⟨h2, h1⟩
  · rw [hr]
    have : (round_half_even (q / (2 : ℚ) ^ (f32_exponent q - 23)) : ℚ) *
        (2 : ℚ) ^ (f32_exponent q - 23) - q =
        ((round_half_even (q / (2 : ℚ) ^ (f32_exponent q - 23)) : ℚ) -
          q / (2 : ℚ) ^ (f32_exponent q - 23)) * (2 : ℚ) ^ (f32_exponent q - 23) := by
      field_simp
    rw [this, abs_mul, abs_of_pos hu]
    calc _ ≤ 1 / 2 * (2 : ℚ) ^ (f32_exponent q - 23) := mul_le_mul_of_nonneg_right hd hu.le
      _ = _ := by ring

/-- The scaling of `f32_round` for a positive rational below `2^k`, `k ≤ 24`:
the unit in the last place is `1 / 2^s` for a natural `s`. -/
theorem f32_exponent_scale (q : ℚ) (hq : 0 < q) (k : ℕ) (hk : k ≤ 24) (hlt : q < 2 ^ k) :
    ∃ s : ℕ, 24 ≤ s + k ∧ (2 : ℚ) ^ (f32_exponent q - 23) = 1 / 2 ^ s := by
  have h1 : (2 : ℚ) ^ f32_exponent q < (2 : ℚ) ^ (k : ℤ) := by
    rw [zpow_natCast]
    exact lt_of_le_of_lt (f32_exponent_le q hq) hlt
  have h2 : f32_exponent q < k := (zpow_lt_zpow_iff_right₀ (by norm_num : (1 : ℚ) < 2)).mp h1
  refine ⟨(23 - f32_exponent q).toNat, by omega, ?_⟩
  have h3 : f32_exponent q - 23 = -(((23 - f32_exponent q).toNat : ℕ) : ℤ) := by
    rw [Int.toNat_of_nonneg (by omega)]; ring
  rw [h3, zpow_neg, zpow_natCast, one_div]

/-- The naturals up to `2^24` are binary32 numbers. -/
theorem f32_round_natCast (k : ℕ) (hk : k ≤ 2 ^ 24) : f32_round (k : ℚ) = k := by
  rcases Nat.lt_or_ge k (2 ^ 24) with hk | hge
  swap
  · have : k = 2 ^ 24 := by omega
    subst this
    decide!
  unfold f32_round
  split_ifs with h0
  · exact h0.symm
  · have hpos : (0 : ℚ) < k := by
      rcases Nat.eq_zero_or_pos k with h | h
      · exact absurd (by simp [h]) h0
      · exact_mod_cast h
    obtain ⟨s, _, hs⟩ := f32_exponent_scale (k : ℚ) hpos 24 le_rfl (by exact_mod_cast hk)
    rw [hs]
    have : (k : ℚ) / (1 / 2 ^ s) = (((k * 2 ^ s : ℕ) : ℤ) : ℚ) := by
      push_cast; field_simp
    rw [this, round_half_even_intCast]
    push_cast
    field_simp

/-- Rounding keeps a value between 0 and 100 between 0 and 100. -/
theorem f32_round_percent (q : ℚ) (h0 : 0 ≤ q) (h100 : q ≤ 100) :
    0 ≤ f32_round q ∧ f32_round q ≤ 100 := by
  unfold f32_round
  split_ifs with hz
  · norm_num
  · have hpos : 0 < q := lt_of_le_of_ne h0 (Ne.symm hz)
    obtain ⟨s, hs7, hs⟩ := f32_exponent_scale q hpos 7 (by norm_num) (by linarith)
    rw [hs]
    have hp : (0 : ℚ) < 2 ^ s := by positivity
    constructor
    · have := round_half_even_nonneg (q / (1 / 2 ^ s)) (by positivity)
      have : (0 : ℚ) ≤ (round_half_even (q / (1 / 2 ^ s)) : ℚ) := by exact_mod_cast this
      positivity
    · have hM : q / (1 / 2 ^ s) ≤ (((100 * 2 ^ s : ℕ) : ℤ) : ℚ) := by
        push_cast
        rw [div_div_eq_mul_div, div_one]
        exact mul_le_mul_of_nonneg_right h100 hp.le
      have := round_half_even_le _ _ hM
      have h' : (round_half_even (q / (1 / 2 ^ s)) : ℚ) ≤ (((100 * 2 ^ s : ℕ) : ℤ) : ℚ) := by
        exact_mod_cast this
      push_cast at h'
      rw [mul_one_div, div_le_iff₀ hp]
      exact h'

/-- Bounds on the magnitude of `m` by naturals carry over to the integer that
`round_half_even` picks. -/
theorem round_half_even_abs (m : ℚ) (A B : ℕ) (hA : (A : ℚ) ≤ |m|) (hB : |m| ≤ (B : ℚ)) :
    (A : ℚ) ≤ |(round_half_even m : ℚ)| ∧ |(round_half_even m : ℚ)| ≤ (B : ℚ) := by
  rcases le_or_lt 0 m with h | h
  · rw [abs_of_nonneg h] at hA hB
    have h1 := round_half_even_ge m (A : ℤ) (by exact_mod_cast hA)
    have h2 := round_half_even_le m (B : ℤ) (by exact_mod_cast hB)
    have h0 : (0 : ℚ) ≤ (round_half_even m : ℚ) := by
      exact_mod_cast round_half_even_nonneg m h
    rw [abs_of_nonneg h0]
    exact ⟨by exact_mod_cast h1, by exact_mod_cast h2⟩
  · rw [abs_of_neg h] at hA hB
    have h1 := round_half_even_le m (-(A : ℤ)) (by push_cast; linarith)
    have h2 := round_half_even_ge m (-(B : ℤ)) (by push_cast; linarith)
    have h3 : (round_half_even m : ℚ) ≤ -(A : ℚ) := by exact_mod_cast h1
    have h4 : -(B : ℚ) ≤ (round_half_even m : ℚ) := by exact_mod_cast h2
    have h0 : (round_half_even m : ℚ) ≤ 0 := by
      have := round_half_even_le m 0 (by push_cast; linarith)
      exact_mod_cast this
    rw [abs_of_nonpos h0]
    constructor <;> linarith

/-- Rounding keeps a magnitude between two powers of two between them. -/
theorem f32_round_bounds (q : ℚ) (hq : q ≠ 0) (lo hi : ℤ) (hlo : (2 : ℚ) ^ lo ≤ |q|)
    (hhi : |q| ≤ (2 : ℚ) ^ hi) :
    (2 : ℚ) ^ lo ≤ |f32_round q| ∧ |f32_round q| ≤ (2 : ℚ) ^ hi := by
  obtain ⟨hb1, hb2⟩ := f32_exponent_bounds q hq
  have h12 : (1 : ℚ) < 2 := by norm_num
  have h20 : (2 : ℚ) ≠ 0 := by norm_num
  have hle : lo ≤ f32_exponent q := by
    have : lo < f32_exponent q + 1 :=
      (zpow_lt_zpow_iff_right₀ h12).mp (lt_of_le_of_lt hlo hb2)
    omega
  have hge : f32_exponent q ≤ hi := (zpow_le_zpow_iff_right₀ h12).mp (hb1.trans hhi)
  have hu : (0 : ℚ) < (2 : ℚ) ^ (f32_exponent q - 23) := by positivity
  have hr : f32_round q = (round_half_even (q / (2 : ℚ) ^ (f32_exponent q - 23)) : ℚ) *
      (2 : ℚ) ^ (f32_exponent q - 23) := by
    unfold f32_round
    rw [if_neg hq]
  have hk : hi - f32_exponent q + 23 = (((hi - f32_exponent q + 23).toNat : ℕ) : ℤ) :=
    (Int.toNat_of_nonneg (by omega)).symm
  have h23 : ((2 ^ 23 : ℕ) : ℚ) * (2 : ℚ) ^ (f32_exponent q - 23) =
      (2 : ℚ) ^ f32_exponent q := by
    rw [show ((2 ^ 23 : ℕ) : ℚ) = (2 : ℚ) ^ (23 : ℤ) by norm_num, ← zpow_add₀ h20]
    congr 1
    ring
  have hA : ((2 ^ 23 : ℕ) : ℚ) ≤ |q / (2 : ℚ) ^ (f32_exponent q - 23)| := by
    rw [abs_div, abs_of_pos hu, le_div_iff₀ hu]
    rw [h23]
    exact hb1
  have hB : |q / (2 : ℚ) ^ (f32_exponent q - 23)| ≤
      ((2 ^ (hi - f32_exponent q + 23).toNat : ℕ) : ℚ) := by
    rw [abs_div, abs_of_pos hu, div_le_iff₀ hu]
    have : ((2 ^ (hi - f32_exponent q + 23).toNat : ℕ) : ℚ) * (2 : ℚ) ^ (f32_exponent q - 23) =
        (2 : ℚ) ^ hi := by
      push_cast
      rw [← zpow_natCast, ← hk, ← zpow_add₀ h20]
      congr 1
      ring
    rw [this]
    exact hhi
  obtain ⟨h1, h2⟩ := round_half_even_abs _ _ _ hA hB
  rw [hr, abs_mul, abs_of_pos hu]
  constructor
  · calc (2 : ℚ) ^ lo ≤ (2 : ℚ) ^ f32_exponent q := (zpow_le_zpow_iff_right₀ h12).mpr hle
      _ = ((2 ^ 23 : ℕ) : ℚ) * (2 : ℚ) ^ (f32_exponent q - 23) := h23.symm
      _ ≤ _ := mul_le_mul_of_nonneg_right h1 hu.le
  · calc _ ≤ ((2 ^ (hi - f32_exponent q + 23).toNat : ℕ) : ℚ) *
          (2 : ℚ) ^ (f32_exponent q - 23) := mul_le_mul_of_nonneg_right h2 hu.le
      _ = (2 : ℚ) ^ hi := by
        push_cast
        rw [← zpow_natCast, ← hk, ← zpow_add₀ h20]
        congr 1
        ring

/-- Rounding keeps zero, and a magnitude between two powers of two. -/
theorem f32_round_between (lo hi : ℤ) (q : ℚ) (h : f32_between lo hi q) :
    f32_between lo hi (f32_round q) := by
  rcases h with h | ⟨h1, h2⟩
  · left; rw [h]; rfl
  · by_cases hq : q = 0
    · left; rw [hq]; rfl
    · right; exact f32_round_bounds q hq lo hi h1 h2


/-- What `atoi` returns is an `int`. -/
theorem atoi_range (s : CStr) : -(2 ^ 31) ≤ atoi s ∧ atoi s < 2 ^ 31 := by
  unfold atoi to_int32
  omega

theorem f32_between_mono (lo hi lo1 hi1 : ℤ) (q : ℚ) (h : f32_between lo hi q)
    (h1 : lo1 ≤ lo) (h2 : hi ≤ hi1) : f32_between lo1 hi1 q := by
  have h12 : (1 : ℚ) < 2 := by norm_num
  rcases h with h | ⟨ha, hb⟩
  · exact Or.inl h
  · exact Or.inr ⟨((zpow_le_zpow_iff_right₀ h12).mpr h1).trans ha,
      hb.trans ((zpow_le_zpow_iff_right₀ h12).mpr h2)⟩

theorem f32_between_intCast (x : Int) (hlo : -(2 ^ 31) ≤ x) (hhi : x < 2 ^ 31) :
    f32_between 0 31 (x : ℚ) := by
  by_cases h0 : x = 0
  · left; simp [h0]
  · right
    rw [← Int.cast_abs]
    have h1 : 1 ≤ |x| := Int.one_le_abs h0
    have h2 : |x| ≤ 2147483648 := abs_le.mpr ⟨by omega, by omega⟩
    constructor
    · have : ((1 : ℤ) : ℚ) ≤ ((|x| : ℤ) : ℚ) := by exact_mod_cast h1
      simpa using this
    · have : ((|x| : ℤ) : ℚ) ≤ ((2147483648 : ℤ) : ℚ) := by exact_mod_cast h2
      have e31 : ((2 : ℚ) ^ (31 : ℤ)) = 2147483648 := by norm_num
      rw [e31]
      exact_mod_cast this

/-- Every rounding in the status expressions of `hap_line2entry` is applied to
zero or to a magnitude between `2^-25` and `2^39`: `x` and `y` are `int`s,
`y ≠ 0`, and the operands are `x`, `y`, the product `100 * x`, the quotient by
`y` and the difference from 100. -/
theorem hap_status_operands_in_range (x y : Int) (hx : -(2 ^ 31) ≤ x ∧ x < 2 ^ 31)
    (hy : -(2 ^ 31) ≤ y ∧ y < 2 ^ 31) (hy0 : y ≠ 0) :
    f32_in_range (x : ℚ) ∧ f32_in_range (y : ℚ) ∧ f32_in_range (100 * f32_round (x : ℚ)) ∧
    f32_in_range (f32_round (100 * f32_round (x : ℚ)) / f32_round (y : ℚ)) ∧
    f32_in_range (100 - percent_f32 x y) := by
  have h12 : (1 : ℚ) < 2 := by norm_num
  have hX := f32_between_intCast x hx.1 hx.2
  have hY := f32_between_intCast y hy.1 hy.2
  have hA := f32_round_between 0 31 _ hX
  have hD := f32_round_between 0 31 _ hY
  have hy0' : (y : ℚ) ≠ 0 := by exact_mod_cast hy0
  have hD1 : (1 : ℚ) ≤ |f32_round (y : ℚ)| ∧ |f32_round (y : ℚ)| ≤ 2147483648 := by
    rcases hY with h | ⟨h1, h2⟩
    · exact absurd h hy0'
    · have := f32_round_bounds _ hy0' 0 31 h1 h2
      have e31 : ((2 : ℚ) ^ (31 : ℤ)) = 2147483648 := by norm_num
      rw [e31, zpow_zero] at this
      exact this
  have hP : f32_between 6 38 (100 * f32_round (x : ℚ)) := by
    rcases hA with h | ⟨h1, h2⟩
    · left; rw [h]; norm_num
    · right
      rw [abs_mul, abs_of_pos (by norm_num : (0 : ℚ) < 100)]
      have h1' : (1 : ℚ) ≤ |f32_round (x : ℚ)| := by simpa using h1
      have h2' : |f32_round (x : ℚ)| ≤ 2147483648 := by
        have : ((2 : ℚ) ^ (31 : ℤ)) = 2147483648 := by norm_num
        rw [← this]; exact h2
      constructor
      · have : ((2 : ℚ) ^ (6 : ℤ)) = 64 := by norm_num
        rw [this]; linarith
      · have : ((2 : ℚ) ^ (38 : ℤ)) = 274877906944 := by norm_num
        rw [this]; linarith
  have hB := f32_round_between 6 38 _ hP
  have hQ : f32_between (-25) 38
      (f32_round (100 * f32_round (x : ℚ)) / f32_round (y : ℚ)) := by
    rcases hB with h | ⟨h1, h2⟩
    · left; rw [h]; simp
    · right
      have hdpos : (0 : ℚ) < |f32_round (y : ℚ)| := by linarith [hD1.1]
      rw [abs_div]
      have e6 : ((2 : ℚ) ^ (6 : ℤ)) = 64 := by norm_num
      have e38 : ((2 : ℚ) ^ (38 : ℤ)) = 274877906944 := by norm_num
      have e25 : ((2 : ℚ) ^ (-25 : ℤ)) = 1 / 33554432 := by norm_num
      rw [e6] at h1
      rw [e38] at h2
      rw [e25, e38]
      constructor
      · rw [le_div_iff₀ hdpos]
        linarith [hD1.2]
      · rw [div_le_iff₀ hdpos]
        nlinarith [hD1.1]
  have hPc := f32_round_between (-25) 38 _ hQ
  refine ⟨f32_between_mono 0 31 _ _ _ hX (by norm_num) (by norm_num),
    f32_between_mono 0 31 _ _ _ hY (by norm_num) (by norm_num),
    f32_between_mono 6 38 _ _ _ hP (by norm_num) (by norm_num),
    f32_between_mono (-25) 38 _ _ _ hQ (by norm_num) (by norm_num), ?_⟩
  have e39 : ((2 : ℚ) ^ (39 : ℤ)) = 549755813888 := by norm_num
  have e38 : ((2 : ℚ) ^ (38 : ℤ)) = 274877906944 := by norm_num
  have e25 : ((2 : ℚ) ^ (-25 : ℤ)) = 1 / 33554432 := by norm_num
  have hup : |percent_f32 x y| ≤ 274877906944 := by
    rcases hPc with h | ⟨_, h2⟩
    · unfold percent_f32; rw [h]; norm_num
    · rw [e38] at h2; exact h2
  have hupper : |100 - percent_f32 x y| ≤ 549755813888 := by
    have := abs_sub (100 : ℚ) (percent_f32 x y)
    rw [abs_of_pos (by norm_num : (0 : ℚ) < 100)] at this
    linarith
  by_cases hq0 : f32_round (100 * f32_round (x : ℚ)) / f32_round (y : ℚ) = 0
  · right
    have : percent_f32 x y = 0 := by
      unfold percent_f32; rw [hq0]; rfl
    rw [this, e25, e39]
    norm_num
  · obtain ⟨⟨z, _, hz⟩, _⟩ := f32_round_nearest _ hq0
    obtain ⟨hb1, hb2⟩ := f32_exponent_bounds _ hq0
    rcases le_or_lt 5 (f32_exponent
        (f32_round (100 * f32_round (x : ℚ)) / f32_round (y : ℚ))) with he | he
    · have hk : f32_exponent (f32_round (100 * f32_round (x : ℚ)) / f32_round (y : ℚ)) - 23 =
          (((f32_exponent (f32_round (100 * f32_round (x : ℚ)) / f32_round (y : ℚ))
            - 5).toNat : ℕ) : ℤ) - 18 := by
        rw [Int.toNat_of_nonneg (by omega)]; ring
      have hw : 100 - percent_f32 x y =
          ((100 * 2 ^ 18 - z * 2 ^ (f32_exponent
            (f32_round (100 * f32_round (x : ℚ)) / f32_round (y : ℚ)) - 5).toNat : ℤ) : ℚ)
            / 2 ^ 18 := by
        unfold percent_f32
        rw [hz, hk, zpow_sub₀ (by norm_num : (2 : ℚ) ≠ 0), zpow_natCast]
        push_cast
        field_simp
        ring
      by_cases hw0 : (100 * 2 ^ 18 - z * 2 ^ (f32_exponent
            (f32_round (100 * f32_round (x : ℚ)) / f32_round (y : ℚ)) - 5).toNat : ℤ) = 0
      · left; rw [hw, hw0]; simp
      · right
        constructor
        · rw [hw, abs_div, abs_of_pos (by positivity : (0 : ℚ) < 2 ^ 18), e25, ← Int.cast_abs]
          have h1 : ((1 : ℤ) : ℚ) ≤ ((|(100 * 2 ^ 18 - z * 2 ^ (f32_exponent
            (f32_round (100 * f32_round (x : ℚ)) / f32_round (y : ℚ)) - 5).toNat : ℤ)| : ℤ) : ℚ) := by
            exact_mod_cast Int.one_le_abs hw0
          rw [le_div_iff₀ (by positivity)]
          push_cast at h1 ⊢
          linarith
        · rw [e39]; exact hupper
    · right
      have h5 : |f32_round (100 * f32_round (x : ℚ)) / f32_round (y : ℚ)| ≤ (2 : ℚ) ^ (5 : ℤ) :=
        hb2.le.trans ((zpow_le_zpow_iff_right₀ h12).mpr (by omega))
      have hp5 := (f32_round_bounds _ hq0 _ 5 hb1 h5).2
      have hp5' : |percent_f32 x y| ≤ 32 := by
        have : ((2 : ℚ) ^ (5 : ℤ)) = 32 := by norm_num
        rw [this] at hp5
        exact hp5
      have hle := (abs_le.mp hp5').2
      rw [e25, e39]
      constructor
      · rw [abs_of_pos (by linarith)]
        linarith
      · exact hupper

/-! ## The parser -/

/-- The decoding of `case 17` is the reference decoding in single precision. -/
theorem hap_status_of_eq_rounded (tok : CStr) :
    hap_status_of tok = rounded_availability tok := by
  unfold hap_status_of rounded_availability status_fraction percent_f32 f32_div f32_mul
    f32_sub f32_of_int
  rw [strncmp_eq_UP, strncmp_eq_DOWN]
  simp only [strchr_eq_dropWhile, strcmp_eq]
  split_ifs with h1 h2 h3 h4 h5 h6 <;> first | rfl | skip
  · cases List.dropWhile (fun d => d != '/') (List.drop 2 tok) <;> simp
  · cases List.dropWhile (fun d => d != '/') (List.drop 4 tok) <;> simp
  all_goals simp_all

/-- A member of the parsed entry that only field number `k < 51` writes. -/
theorem hap_tokenize_proj {α : Type} (interval_g : Int) (proj : hap_pentry → α) (k : Nat)
    (g : CStr → α) (hlt : k < 51)
    (hk : ∀ tok pe, proj (hap_field interval_g k tok pe) = g tok)
    (hne : ∀ j, j ≠ k → ∀ tok pe, proj (hap_field interval_g j tok pe) = proj pe)
    (line : List Char) :
    proj (hap_tokenize interval_g 51 0 line {}) =
      match (columns line)[k]? with
      | some tok => g tok
      | none => proj {} := by
  rw [hap_tokenize_eq_fields, hap_fields_proj interval_g proj k g hk hne _ 0 _ (Nat.zero_le k)]
  simp only [Nat.sub_zero]
  rw [List.getElem?_take_of_lt hlt]

theorem columns_getElem?_of_lt (line : List Char) (k : Nat) (h : k < (columns line).length) :
    (columns line)[k]? = some (column line k) := by
  simp [column, List.getD, List.getElem?_eq_getElem h]

theorem hap_tokenize_pxname (interval_g : Int) (line : List Char) :
    (hap_tokenize interval_g 51 0 line {}).pxname = (columns line)[0]? := by
  rw [hap_tokenize_proj interval_g (fun pe => pe.pxname) 0 some (by omega)
    (fun _ _ => rfl)
    (by intro j hj tok pe; unfold hap_field; split <;> first | rfl | exact absurd rfl hj)]
  cases (columns line)[0]? <;> rfl

theorem hap_tokenize_svname (interval_g : Int) (line : List Char) :
    (hap_tokenize interval_g 51 0 line {}).svname = (columns line)[1]? := by
  rw [hap_tokenize_proj interval_g (fun pe => pe.svname) 1 some (by omega)
    (fun _ _ => rfl)
    (by intro j hj tok pe; unfold hap_field; split <;> first | rfl | exact absurd rfl hj)]
  cases (columns line)[1]? <;> rfl

theorem hap_tokenize_status (interval_g : Int) (line : List Char) :
    (hap_tokenize interval_g 51 0 line {}).status =
      match (columns line)[17]? with
      | some tok => hap_status_of tok
      | none => 0 := by
  rw [hap_tokenize_proj interval_g (fun pe => pe.status) 17 hap_status_of (by omega)
    (fun _ _ => rfl)
    (by intro j hj tok pe; unfold hap_field; split <;> first | rfl | exact absurd rfl hj)]

/-- A line with columns 0 and 1 is linked, with the parsed values. -/
theorem hap_line2entry_of_names (interval_g : Int) (line : List Char) (el : List hap_entry_t)
    (px sv : CStr) (h0 : (columns line)[0]? = some px) (h1 : (columns line)[1]? = some sv) :
    hap_line2entry interval_g line el =
      { (hap_tokenize interval_g 51 0 line {}).tohap_values with pxname := px, svname := sv }
        :: el := by
  have hp := hap_tokenize_pxname interval_g line
  have hs := hap_tokenize_svname interval_g line
  rw [h0] at hp
  rw [h1] at hs
  simp only [hap_line2entry, hp, hs]

theorem columns_getElem?_lower (line : List Char) (j k : Nat) (tok : CStr) (hjk : j ≤ k)
    (h : (columns line)[k]? = some tok) : (columns line)[j]? = some (column line j) := by
  apply columns_getElem?_of_lt
  have := (List.getElem?_eq_some_iff.mp h).1
  omega

/-- A line with a status token is linked, and its availability is what
`case 17` decodes from the token. -/
theorem hap_line2entry_status (interval_g : Int) (line : List Char)
    (el : List hap_entry_t) (tok : CStr) (h : (columns line)[17]? = some tok) :
    ∃ e, hap_line2entry interval_g line el = e :: el ∧ e.status = hap_status_of tok := by
  have h0 := columns_getElem?_lower line 0 17 tok (by omega) h
  have h1 := columns_getElem?_lower line 1 17 tok (by omega) h
  refine ⟨_, hap_line2entry_of_names interval_g line el _ _ h0 h1, ?_⟩
  show (hap_tokenize interval_g 51 0 line {}).status = hap_status_of tok
  rw [hap_tokenize_status, h]

/-- C1, as stated, fails: `100*x/y` is computed in single precision.  The
token `UP 1/3` of the sample line gives 8738133/262144 (33.33333206...), the
binary32 number nearest to 100/3, not 100/3; and `DOWN 1/1000000000` gives
100, not `100 - 1/10000000`. -/
theorem hap_line2entry_status_rounds :
    (columns sample_line)[17]? = some "UP 1/3".toList ∧
    (hap_line2entry 10 sample_line []).map (fun e => e.status) = [8738133 / 262144] ∧
    reference_availability "UP 1/3".toList = 100 / 3 ∧
    (¬ ∀ e ∈ hap_line2entry 10 sample_line [],
      e.status = reference_availability "UP 1/3".toList) ∧
    hap_status_of "DOWN 1/1000000000".toList = 100 ∧
    reference_availability "DOWN 1/1000000000".toList = 100 - 1 / 10000000 := by
  refine ⟨by decide, by decide!, by decide!, by decide!, by decide!, by decide!⟩

/-- C1, amended: for every line that has a status token `tok` (column 17),
`hap_line2entry` links an entry whose availability is the reference decoding
of `tok` with the percentage evaluated in single precision: after `UP`, with
a fraction `x/y`, `y ≠ 0`, the binary32 quotient of the binary32 product
`100*x` by `y`, otherwise `100`; after `DOWN` the binary32 difference of `100`
and that quotient, otherwise `0`; `100` for `OPEN`, `50` for `no check`, `0`
otherwise; and the code decodes the eight tokens of the specification to the
stated values. -/
theorem hap_line2entry_status_reference (interval_g : Int) (line : List Char)
    (el : List hap_entry_t) (tok : CStr) (h : (columns line)[17]? = some tok) :
    (∃ e, hap_line2entry interval_g line el = e :: el ∧
      e.status = rounded_availability tok) ∧
    hap_status_of "UP".toList = 100 ∧ hap_status_of "UP 3/5".toList = 60 ∧
    hap_status_of "DOWN".toList = 0 ∧ hap_status_of "DOWN 2/5".toList = 60 ∧
    hap_status_of "OPEN".toList = 100 ∧ hap_status_of "no check".toList = 50 ∧
    hap_status_of "FULL".toList = 0 ∧ hap_status_of "UP 3/0".toList = 100 := by
  refine ⟨?_, by decide!, by decide!, by decide!, by decide!, by decide!, by decide!,
    by decide!, by decide!⟩
  obtain ⟨e, he, hs⟩ := hap_line2entry_status interval_g line el tok h
  exact ⟨e, he, hs.trans (hap_status_of_eq_rounded tok)⟩

/-- The sample line has the status token `UP 1/3`, decoded to the binary32
number 8738133/262144. -/
theorem hap_line2entry_status_reference_witness :
    (columns sample_line)[17]? = some "UP 1/3".toList ∧
    rounded_availability "UP 1/3".toList = 8738133 / 262144 ∧
    ((∃ e, hap_line2entry 10 sample_line [] = e :: [] ∧
      e.status = rounded_availability "UP 1/3".toList) ∧
    hap_status_of "UP".toList = 100 ∧ hap_status_of "UP 3/5".toList = 60 ∧
    hap_status_of "DOWN".toList = 0 ∧ hap_status_of "DOWN 2/5".toList = 60 ∧
    hap_status_of "OPEN".toList = 100 ∧ hap_status_of "no check".toList = 50 ∧
    hap_status_of "FULL".toList = 0 ∧ hap_status_of "UP 3/0".toList = 100) :=
  ⟨by decide, by decide!,
    hap_line2entry_status_reference 10 sample_line [] "UP 1/3".toList (by decide)⟩

/-- C2: a line that lacks column 0 (proxy name) or column 1 (server name)
yields no entry: `hap_line2entry` leaves `hap_entry_list` as it was. -/
theorem hap_line2entry_missing_name (interval_g : Int) (line : List Char)
    (el : List hap_entry_t)
    (h : (columns line)[0]? = none ∨ (columns line)[1]? = none) :
    hap_line2entry interval_g line el = el := by
  have hp := hap_tokenize_pxname interval_g line
  have hs := hap_tokenize_svname interval_g line
  unfold hap_line2entry
  rcases h with h | h
  · rw [h] at hp
    simp only [hp]
  · rw [h] at hs
    simp only [hs]
    split
    · rename_i heq
      simp at heq
    · rfl

/-- The line `fe1,sv1` has no comma after the server name: no entry. -/
theorem hap_line2entry_missing_name_witness :
    ((columns "fe1,sv1".toList)[0]? = none ∨ (columns "fe1,sv1".toList)[1]? = none) ∧
    hap_line2entry 10 "fe1,sv1".toList [] = [] :=
  ⟨by decide, hap_line2entry_missing_name 10 "fe1,sv1".toList [] (by decide)⟩

set_option maxRecDepth 20000 in
/-- C3 (the code differs): `hap_line2entry` takes `stot` from column 4, not
from column 7.  On the line of the end-to-end scenario column 7 is `120` and
column 4 is `0`; with interval 10 the entry has `stot = 0`, and the cycle
(uptime 500, restart gap 20) dispatches `hap_sessions` with the counters
`0, 0` for `sv1`/`fe1`, not `1200`, next to the `hap_status` gauge `100`. -/
theorem hap_read_scenario_sessions :
    column scenario_line 7 = "120".toList ∧ column scenario_line 4 = "0".toList ∧
    (hap_line2entry 10 scenario_line []).map (fun e => e.stot) = [0] ∧
    (hap_read {} 10 scenario_stat scenario_info {}).2 =
      [hap_event.submit_counter "sv1".toList "fe1".toList "hap_bytes".toList
        [.ull 1000, .ull 2000],
       hap_event.submit_counter "sv1".toList "fe1".toList "hap_sessions".toList
        [.ull 0, .ull 0],
       hap_event.submit_gauge "sv1".toList "fe1".toList "frequency".toList [.ull 0],
       hap_event.submit_counter "sv1".toList "fe1".toList "hap_errors".toList
        [.ull 0, .ull 0, .ull 0],
       hap_event.submit_counter "sv1".toList "fe1".toList "hap_http_codes".toList
        [.ull 0, .ull 0, .ull 0, .ull 0, .ull 0, .ull 0],
       hap_event.submit_counter "sv1".toList "fe1".toList "hap_deny".toList
        [.ull 0, .ull 0],
       hap_event.submit_gauge "sv1".toList "fe1".toList "hap_status".toList [.dbl 100]] := by
  refine ⟨by decide, by decide, by decide, by decide⟩

/-- A numeric member that only field number `k < 51` writes, on a line that
has column `k`. -/
theorem hap_tokenize_u64 (interval_g : Int) (proj : hap_pentry → Nat) (k : Nat)
    (g : CStr → Nat) (hlt : k < 51)
    (hk : ∀ tok pe, proj (hap_field interval_g k tok pe) = g tok)
    (hne : ∀ j, j ≠ k → ∀ tok pe, proj (hap_field interval_g j tok pe) = proj pe)
    (line : List Char) (h : k < (columns line).length) :
    proj (hap_tokenize interval_g 51 0 line {}) = g (column line k) := by
  rw [hap_tokenize_proj interval_g proj k g hlt hk hne, columns_getElem?_of_lt line k h]

/-- C4: on a line with at least 47 comma-terminated fields `hap_line2entry`
links an entry whose members come from the fixed columns: names from columns
0 and 1, `bin` 8, `bout` 9, `dreq` 10, `drsp` 11, `ereq` 12, `econ` 13,
`ersp` 14, `pxtype` 32, `rate` = column 33 times the interval modulo `2^64`,
`hrsp_1xx` .. `hrsp_other` 39 .. 44 and `req_rate` = column 46, not scaled;
numbers are decoded in decimal (`atoll`). -/
theorem hap_line2entry_columns (interval_g : Int) (line : List Char) (el : List hap_entry_t)
    (h : 47 ≤ (columns line).length) :
    ∃ e, hap_line2entry interval_g line el = e :: el ∧
      e.pxname = column line 0 ∧ e.svname = column line 1 ∧
      e.bin = column_u64 line 8 ∧ e.bout = column_u64 line 9 ∧
      e.dreq = column_u64 line 10 ∧ e.drsp = column_u64 line 11 ∧
      e.ereq = column_u64 line 12 ∧ e.econ = column_u64 line 13 ∧
      e.ersp = column_u64 line 14 ∧ e.pxtype = column_u64 line 32 ∧
      e.rate = (column_u64 line 33 * to_u64 interval_g) % 2 ^ 64 ∧
      e.hrsp_1xx = column_u64 line 39 ∧ e.hrsp_2xx = column_u64 line 40 ∧
      e.hrsp_3xx = column_u64 line 41 ∧ e.hrsp_4xx = column_u64 line 42 ∧
      e.hrsp_5xx = column_u64 line 43 ∧ e.hrsp_other = column_u64 line 44 ∧
      e.req_rate = column_u64 line 46 := by
  have h0 := columns_getElem?_of_lt line 0 (by omega)
  have h1 := columns_getElem?_of_lt line 1 (by omega)
  refine ⟨_, hap_line2entry_of_names interval_g line el _ _ h0 h1, rfl, rfl, ?_⟩
  refine ⟨?_, ?_, ?_, ?_, ?_, ?_, ?_, ?_, ?_, ?_, ?_, ?_, ?_, ?_, ?_, ?_⟩
  · exact hap_tokenize_u64 interval_g (fun pe => pe.bin) 8 _ (by omega) (fun _ _ => rfl)
      (by intro j hj tok pe; unfold hap_field; split <;> first | rfl | exact absurd rfl hj)
      line (by omega)
  · exact hap_tokenize_u64 interval_g (fun pe => pe.bout) 9 _ (by omega) (fun _ _ => rfl)
      (by intro j hj tok pe; unfold hap_field; split <;> first | rfl | exact absurd rfl hj)
      line (by omega)
  · exact hap_tokenize_u64 interval_g (fun pe => pe.dreq) 10 _ (by omega) (fun _ _ => rfl)
      (by intro j hj tok pe; unfold hap_field; split <;> first | rfl | exact absurd rfl hj)
      line (by omega)
  · exact hap_tokenize_u64 interval_g (fun pe => pe.drsp) 11 _ (by omega) (fun _ _ => rfl)
      (by intro j hj tok pe; unfold hap_field; split <;> first | rfl | exact absurd rfl hj)
      line (by omega)
  · exact hap_tokenize_u64 interval_g (fun pe => pe.ereq) 12 _ (by omega) (fun _ _ => rfl)
      (by intro j hj tok pe; unfold hap_field; split <;> first | rfl | exact absurd rfl hj)
      line (by omega)
  · exact hap_tokenize_u64 interval_g (fun pe => pe.econ) 13 _ (by omega) (fun _ _ => rfl)
      (by intro j hj tok pe; unfold hap_field; split <;> first | rfl | exact absurd rfl hj)
      line (by omega)
  · exact hap_tokenize_u64 interval_g (fun pe => pe.ersp) 14 _ (by omega) (fun _ _ => rfl)
      (by intro j hj tok pe; unfold hap_field; split <;> first | rfl | exact absurd rfl hj)
      line (by omega)
  · exact hap_tokenize_u64 interval_g (fun pe => pe.pxtype) 32 _ (by omega) (fun _ _ => rfl)
      (by intro j hj tok pe; unfold hap_field; split <;> first | rfl | exact absurd rfl hj)
      line (by omega)
  · exact hap_tokenize_u64 interval_g (fun pe => pe.rate) 33
      (fun tok => (to_u64 (atoll tok) * to_u64 interval_g) % 2 ^ 64) (by omega)
      (fun _ _ => rfl)
      (by intro j hj tok pe; unfold hap_field; split <;> first | rfl | exact absurd rfl hj)
      line (by omega)
  · exact hap_tokenize_u64 interval_g (fun pe => pe.hrsp_1xx) 39 _ (by omega) (fun _ _ => rfl)
      (by intro j hj tok pe; unfold hap_field; split <;> first | rfl | exact absurd rfl hj)
      line (by omega)
  · exact hap_tokenize_u64 interval_g (fun pe => pe.hrsp_2xx) 40 _ (by omega) (fun _ _ => rfl)
      (by intro j hj tok pe; unfold hap_field; split <;> first | rfl | exact absurd rfl hj)
      line (by omega)
  · exact hap_tokenize_u64 interval_g (fun pe => pe.hrsp_3xx) 41 _ (by omega) (fun _ _ => rfl)
      (by intro j hj tok pe; unfold hap_field; split <;> first | rfl | exact absurd rfl hj)
      line (by omega)
  · exact hap_tokenize_u64 interval_g (fun pe => pe.hrsp_4xx) 42 _ (by omega) (fun _ _ => rfl)
      (by intro j hj tok pe; unfold hap_field; split <;> first | rfl | exact absurd rfl hj)
      line (by omega)
  · exact hap_tokenize_u64 interval_g (fun pe => pe.hrsp_5xx) 43 _ (by omega) (fun _ _ => rfl)
      (by intro j hj tok pe; unfold hap_field; split <;> first | rfl | exact absurd rfl hj)
      line (by omega)
  · exact hap_tokenize_u64 interval_g (fun pe => pe.hrsp_other) 44 _ (by omega)
      (fun _ _ => rfl)
      (by intro j hj tok pe; unfold hap_field; split <;> first | rfl | exact absurd rfl hj)
      line (by omega)
  · exact hap_tokenize_u64 interval_g (fun pe => pe.req_rate) 46 _ (by omega) (fun _ _ => rfl)
      (by intro j hj tok pe; unfold hap_field; split <;> first | rfl | exact absurd rfl hj)
      line (by omega)

/-- The sample line has 51 columns. -/
theorem hap_line2entry_columns_witness :
    47 ≤ (columns sample_line).length ∧
    ∃ e, hap_line2entry 10 sample_line [] = e :: [] ∧
      e.pxname = column sample_line 0 ∧ e.svname = column sample_line 1 ∧
      e.bin = column_u64 sample_line 8 ∧ e.bout = column_u64 sample_line 9 ∧
      e.dreq = column_u64 sample_line 10 ∧ e.drsp = column_u64 sample_line 11 ∧
      e.ereq = column_u64 sample_line 12 ∧ e.econ = column_u64 sample_line 13 ∧
      e.ersp = column_u64 sample_line 14 ∧ e.pxtype = column_u64 sample_line 32 ∧
      e.rate = (column_u64 sample_line 33 * to_u64 10) % 2 ^ 64 ∧
      e.hrsp_1xx = column_u64 sample_line 39 ∧ e.hrsp_2xx = column_u64 sample_line 40 ∧
      e.hrsp_3xx = column_u64 sample_line 41 ∧ e.hrsp_4xx = column_u64 sample_line 42 ∧
      e.hrsp_5xx = column_u64 sample_line 43 ∧ e.hrsp_other = column_u64 sample_line 44 ∧
      e.req_rate = column_u64 sample_line 46 :=
  ⟨by decide, hap_line2entry_columns 10 sample_line [] (by decide)⟩

theorem rounded_availability_range (tok : CStr)
    (hfrac : ∀ x y, token_fraction tok = some (x, y) → y ≠ 0 →
      0 ≤ x ∧ x ≤ y ∧ 100 * x ≤ 2 ^ 24 ∧ y ≤ 2 ^ 24) :
    0 ≤ rounded_availability tok ∧ rounded_availability tok ≤ 100 := by
  have hp : ∀ x y : Int, y ≠ 0 → 0 ≤ x → x ≤ y → 100 * x ≤ 2 ^ 24 → y ≤ 2 ^ 24 →
      0 ≤ percent_f32 x y ∧ percent_f32 x y ≤ 100 := by
    intro x y hy0 hx hxy hx24 hy
    have hxn : ((x.toNat : ℕ) : ℚ) = (x : ℚ) := by
      have : ((x.toNat : ℕ) : ℤ) = x := Int.toNat_of_nonneg hx
      exact_mod_cast this
    have hyn : ((y.toNat : ℕ) : ℚ) = (y : ℚ) := by
      have : ((y.toNat : ℕ) : ℤ) = y := Int.toNat_of_nonneg (by omega)
      exact_mod_cast this
    have hypos : (0 : ℚ) < (y : ℚ) := by
      have : 0 < y := by omega
      exact_mod_cast this
    have hx0 : (0 : ℚ) ≤ (x : ℚ) := by exact_mod_cast hx
    have hxy' : (x : ℚ) ≤ (y : ℚ) := by exact_mod_cast hxy
    have e1 : f32_round (x : ℚ) = x := by
      rw [← hxn]; exact f32_round_natCast _ (by omega)
    have e2 : f32_round (y : ℚ) = y := by
      rw [← hyn]; exact f32_round_natCast _ (by omega)
    have e3 : f32_round (100 * (x : ℚ)) = 100 * x := by
      have : (100 * (x : ℚ)) = ((100 * x.toNat : ℕ) : ℚ) := by push_cast; rw [hxn]
      rw [this]; exact f32_round_natCast _ (by omega)
    unfold percent_f32
    rw [e1, e3, e2]
    apply f32_round_percent
    · positivity
    · rw [div_le_iff₀ hypos]; linarith
  unfold rounded_availability
  unfold token_fraction at hfrac
  split_ifs with h1 h2 h3 h4
  · rw [if_pos h1] at hfrac
    cases hf : status_fraction (List.drop 2 tok) with
    | none => simp
    | some v =>
      obtain ⟨a, b⟩ := v
      by_cases hb : b = 0
      · simp [hb]
      · obtain ⟨ha, hab, ha24, hb24⟩ := hfrac a b hf hb
        simp only [hb, ne_eq, not_false_eq_true, if_true]
        exact hp a b hb ha hab ha24 hb24
  · rw [if_neg h1, if_pos h2] at hfrac
    cases hf : status_fraction (List.drop 4 tok) with
    | none => simp
    | some v =>
      obtain ⟨a, b⟩ := v
      by_cases hb : b = 0
      · simp [hb]
      · obtain ⟨ha, hab, ha24, hb24⟩ := hfrac a b hf hb
        simp only [hb, ne_eq, not_false_eq_true, if_true]
        have := hp a b hb ha hab ha24 hb24
        apply f32_round_percent <;> linarith [this.1, this.2]
  · simp
  · simp; norm_num
  · simp

/-- C5, as stated, fails: the token `UP 7/5` gives the availability 140; and
single precision takes `UP 671091/671091`, a fraction of 1, to
13107201/131072, the binary32 number after 100. -/
theorem hap_line2entry_status_overshoot :
    (hap_line2entry 10 overshoot_line []).map (fun e => e.status) = [140] ∧
    (¬ ∀ e ∈ hap_line2entry 10 overshoot_line [], 0 ≤ e.status ∧ e.status ≤ 100) ∧
    hap_status_of "UP 671091/671091".toList = 13107201 / 131072 := by
  refine ⟨by decide!, by decide!, by decide!⟩

/-- C5, amended: for every line with a status token, the availability of the
linked entry lies between 0 and 100 when the token has no fraction `x/y` with
`y ≠ 0` after `UP` or `DOWN`, or that fraction has `0 ≤ x ≤ y`,
`100 * x ≤ 2^24` and `y ≤ 2^24` (so that `x`, `y` and `100*x` are binary32
numbers and only the quotient and the difference are rounded). -/
theorem hap_line2entry_status_range (interval_g : Int) (line : List Char)
    (el : List hap_entry_t) (tok : CStr) (h : (columns line)[17]? = some tok)
    (hfrac : ∀ x y, token_fraction tok = some (x, y) → y ≠ 0 →
      0 ≤ x ∧ x ≤ y ∧ 100 * x ≤ 2 ^ 24 ∧ y ≤ 2 ^ 24) :
    ∃ e, hap_line2entry interval_g line el = e :: el ∧ 0 ≤ e.status ∧ e.status ≤ 100 := by
  obtain ⟨e, he, hs⟩ := hap_line2entry_status interval_g line el tok h
  refine ⟨e, he, ?_⟩
  rw [hs, hap_status_of_eq_rounded]
  exact rounded_availability_range tok hfrac

/-- The sample line has the status token `UP 1/3`, with the fraction 1/3. -/
theorem hap_line2entry_status_range_witness :
    (columns sample_line)[17]? = some "UP 1/3".toList ∧
    token_fraction "UP 1/3".toList = some (1, 3) ∧
    (∀ x y, token_fraction "UP 1/3".toList = some (x, y) → y ≠ 0 →
      0 ≤ x ∧ x ≤ y ∧ 100 * x ≤ 2 ^ 24 ∧ y ≤ 2 ^ 24) ∧
    ∃ e, hap_line2entry 10 sample_line [] = e :: [] ∧ 0 ≤ e.status ∧ e.status ≤ 100 :=
  have hf : token_fraction "UP 1/3".toList = some (1, 3) := by decide
  have hh : ∀ x y, token_fraction "UP 1/3".toList = some (x, y) → y ≠ 0 →
      0 ≤ x ∧ x ≤ y ∧ 100 * x ≤ 2 ^ 24 ∧ y ≤ 2 ^ 24 := by
    intro x y hxy _
    rw [hf] at hxy
    simp only [Option.some.injEq, Prod.mk.injEq] at hxy
    obtain ⟨rfl, rfl⟩ := hxy
    decide
  ⟨by decide, hf, hh, hap_line2entry_status_range 10 sample_line [] "UP 1/3".toList (by decide) hh⟩

/-! ## The status cache -/

theorem get_hap_status_some (sv px : CStr) (sl : List hap_status_t) (i : Nat) (r : hap_status_t)
    (h : get_hap_status sv px sl = some (i, r)) :
    sl[i]? = some r ∧ r.svname = sv ∧ r.pxname = px := by
  induction sl generalizing i with
  | nil => simp [get_hap_status] at h
  | cons q qs ih =>
    simp only [get_hap_status] at h
    split_ifs at h with hm
    · simp only [Option.some.injEq, Prod.mk.injEq] at h
      obtain ⟨rfl, rfl⟩ := h
      simp only [strcmp_eq, Bool.and_eq_true, beq_iff_eq] at hm
      exact ⟨by simp, hm.1, hm.2⟩
    · cases hg : get_hap_status sv px qs with
      | none => simp [hg] at h
      | some v =>
        obtain ⟨j, t⟩ := v
        simp only [hg, Option.some.injEq, Prod.mk.injEq] at h
        obtain ⟨rfl, rfl⟩ := h
        have := ih j hg
        exact ⟨by simpa using this.1, this.2⟩

theorem get_hap_status_set (sl : List hap_status_t) (i : Nat) (r : hap_status_t) (s : Int)
    (h : sl[i]? = some r) (sv px : CStr) :
    get_hap_status sv px (sl.set i { r with status := s }) =
      (get_hap_status sv px sl).map
        (fun p => if p.1 = i then (p.1, { p.2 with status := s }) else p) := by
  induction sl generalizing i with
  | nil => simp at h
  | cons q qs ih =>
    cases i with
    | zero =>
      simp only [List.getElem?_cons_zero, Option.some.injEq] at h
      subst h
      simp only [List.set_cons_zero, get_hap_status]
      split_ifs with hm
      · simp
      · cases hg : get_hap_status sv px qs with
        | none => simp
        | some v => simp
    | succ n =>
      simp only [List.getElem?_cons_succ] at h
      simp only [List.set_cons_succ, get_hap_status]
      split_ifs with hm
      · simp
      · rw [ih n h]
        cases hg : get_hap_status sv px qs with
        | none => simp
        | some v =>
          obtain ⟨j, t⟩ := v
          by_cases hj : j = n <;> simp [hj]

theorem hap_reachable_nil (sl : List hap_status_t) (h : hap_reachable 0 sl) : sl = [] := by
  induction h with
  | start => rfl
  | track pentry sl _ ih => simp [hap_track, ih]

theorem hap_reachable_notifs (n : Nat) (sl : List hap_status_t) (h : hap_reachable n sl)
    (sv px : CStr) (p : Nat × hap_status_t) (hg : get_hap_status sv px sl = some p) : n ≠ 0 := by
  rintro rfl
  rw [hap_reachable_nil sl h] at hg
  simp [get_hap_status] at hg

theorem get_hap_status_set_self (sv px : CStr) (sl : List hap_status_t) (i : Nat)
    (r : hap_status_t) (s : Int) (h : get_hap_status sv px sl = some (i, r)) :
    get_hap_status sv px (set_hap_status (i, r) s sl) = some (i, { r with status := s }) := by
  unfold set_hap_status
  rw [get_hap_status_set sl i r s (get_hap_status_some sv px sl i r h).1, h]
  simp


/-- An availability that is neither 0 nor 100 leaves the status block without
effect. -/
theorem hap_track_skip (hap_notifs : Nat) (pentry : hap_entry_t)
    (sl : List hap_status_t) (h0 : pentry.status ≠ 0) (h100 : pentry.status ≠ 100) :
    hap_track hap_notifs pentry sl = (sl, []) := by
  simp [hap_track, h0, h100]

theorem recorded_status_new (sv px : CStr) (s : Int) (sl : List hap_status_t) :
    recorded_status sv px (new_hap_status sv px s sl) = some s := by
  simp [recorded_status, new_hap_status, get_hap_status, strcmp_eq]

theorem nat_and_ne_zero (n m : Nat) (h : n &&& m ≠ 0) : n ≠ 0 := by
  rintro rfl
  simp at h

/-- With a notification enabled, the status block records the state that the
specification expects for the key of the entry. -/
theorem hap_track_next_status (n : Nat) (hn : n ≠ 0) (e : hap_entry_t)
    (sl : List hap_status_t) :
    recorded_status e.svname e.pxname (hap_track n e sl).1 =
      next_status e.status (recorded_status e.svname e.pxname sl) := by
  by_cases h0 : e.status = 0
  · cases hg : get_hap_status e.svname e.pxname sl with
    | none =>
      have : hap_track n e sl = (new_hap_status e.svname e.pxname HAP_STATUS_DOWN sl, []) := by
        simp [hap_track, hn, h0, hg]
      rw [this, recorded_status_new]
      simp [next_status, h0]
    | some p =>
      obtain ⟨i, r⟩ := p
      by_cases hs : r.status = HAP_STATUS_DOWN
      · simp [hap_track, hn, h0, hg, hs, recorded_status, next_status]
      · have hset := get_hap_status_set_self _ _ sl i r HAP_STATUS_DOWN hg
        simp [hap_track, hn, h0, hg, hs, recorded_status, next_status, hset]
  · by_cases h100 : e.status = 100
    · cases hg : get_hap_status e.svname e.pxname sl with
      | none =>
        have : hap_track n e sl = (new_hap_status e.svname e.pxname HAP_STATUS_UP sl, []) := by
          simp [hap_track, hn, h100, hg]
        rw [this, recorded_status_new]
        simp [next_status, h100]
      | some p =>
        obtain ⟨i, r⟩ := p
        by_cases hs : r.status = HAP_STATUS_UP
        · simp [hap_track, hn, h100, hg, hs, recorded_status, next_status]
        · have hset := get_hap_status_set_self _ _ sl i r HAP_STATUS_UP hg
          simp [hap_track, hn, h100, hg, hs, recorded_status, next_status, hset]
    · rw [hap_track_skip n e sl h0 h100]
      simp [next_status, h0, h100]

/-- With both notifications enabled, the status block notifies what the
specification expects from the state recorded before. -/
theorem hap_track_edge (n : Nat) (hd : n &&& HAP_NOTIF_STATUSDOWN ≠ 0)
    (hu : n &&& HAP_NOTIF_STATUSUP ≠ 0) (e : hap_entry_t) (sl : List hap_status_t) :
    (hap_track n e sl).2 = edge_notification e (recorded_status e.svname e.pxname sl) := by
  have hn : n ≠ 0 := nat_and_ne_zero n _ hd
  by_cases h0 : e.status = 0
  · cases hg : get_hap_status e.svname e.pxname sl with
    | none =>
      simp [hap_track, hn, h0, hg, recorded_status, edge_notification]
    | some p =>
      obtain ⟨i, r⟩ := p
      by_cases hs : r.status = HAP_STATUS_DOWN
      · simp [hap_track, hn, h0, hg, hs, recorded_status, edge_notification]
      · simp [hap_track, hn, h0, hg, hs, recorded_status, edge_notification, hd]
  · by_cases h100 : e.status = 100
    · cases hg : get_hap_status e.svname e.pxname sl with
      | none =>
        simp [hap_track, hn, h100, hg, recorded_status, edge_notification]
      | some p =>
        obtain ⟨i, r⟩ := p
        by_cases hs : r.status = HAP_STATUS_UP
        · simp [hap_track, hn, h100, hg, hs, recorded_status, edge_notification]
        · simp [hap_track, hn, h100, hg, hs, recorded_status, edge_notification, hu]
    · rw [hap_track_skip n e sl h0 h100]
      cases hg : recorded_status e.svname e.pxname sl <;> simp [edge_notification, h0, h100]

theorem hap_read_loop_append (c : hap_conf) (a b : List hap_entry_t) (sl : List hap_status_t) :
    hap_read_loop c (a ++ b) sl =
      ((hap_read_loop c b (hap_read_loop c a sl).1).1,
        (hap_read_loop c a sl).2 ++ (hap_read_loop c b (hap_read_loop c a sl).1).2) := by
  induction a generalizing sl with
  | nil => simp [hap_read_loop]
  | cons e es ih => simp [hap_read_loop, ih]

theorem hap_track_cases (n : Nat) (e : hap_entry_t) (sl : List hap_status_t) :
    hap_track n e sl = (sl, []) ∨
    (∃ s, get_hap_status e.svname e.pxname sl = none ∧
      hap_track n e sl = (new_hap_status e.svname e.pxname s sl, [])) ∨
    (∃ i r s evs, get_hap_status e.svname e.pxname sl = some (i, r) ∧
      hap_track n e sl = (set_hap_status (i, r) s sl, evs) ∧
      ∀ ev ∈ evs, ∃ sev msg,
        ev = hap_event.notification e.svname e.pxname "hap_status".toList sev msg) := by
  by_cases hn : n = 0
  · left; simp [hap_track, hn]
  by_cases h0 : e.status = 0
  · cases hg : get_hap_status e.svname e.pxname sl with
    | none => right; left; exact ⟨HAP_STATUS_DOWN, rfl, by simp [hap_track, hn, h0, hg]⟩
    | some p =>
      obtain ⟨i, r⟩ := p
      by_cases hs : r.status = HAP_STATUS_DOWN
      · left; simp [hap_track, hn, h0, hg, hs]
      · right; right
        refine ⟨i, r, HAP_STATUS_DOWN,
          (if n &&& HAP_NOTIF_STATUSDOWN ≠ 0 then
            [hap_event.notification e.svname e.pxname "hap_status".toList NOTIF_WARNING
              "DOWN".toList]
          else []), rfl, by simp [hap_track, hn, h0, hg, hs], ?_⟩
        intro ev hev
        split_ifs at hev
        · exact ⟨_, _, List.mem_singleton.mp hev⟩
        · simp at hev
  by_cases h100 : e.status = 100
  · cases hg : get_hap_status e.svname e.pxname sl with
    | none => right; left; exact ⟨HAP_STATUS_UP, rfl, by simp [hap_track, hn, h100, hg]⟩
    | some p =>
      obtain ⟨i, r⟩ := p
      by_cases hs : r.status = HAP_STATUS_UP
      · left; simp [hap_track, hn, h100, hg, hs]
      · right; right
        refine ⟨i, r, HAP_STATUS_UP,
          (if n &&& HAP_NOTIF_STATUSUP ≠ 0 then
            [hap_event.notification e.svname e.pxname "hap_status".toList NOTIF_OKAY
              "UP".toList]
          else []), rfl, by simp [hap_track, hn, h100, hg, hs], ?_⟩
        intro ev hev
        split_ifs at hev
        · exact ⟨_, _, List.mem_singleton.mp hev⟩
        · simp at hev
  · left; simp [hap_track, h0, h100]

theorem hap_track_other_key (n : Nat) (e : hap_entry_t) (sl : List hap_status_t) (sv px : CStr)
    (hne : ¬ (e.svname = sv ∧ e.pxname = px)) :
    recorded_status sv px (hap_track n e sl).1 = recorded_status sv px sl := by
  have hnew : ∀ s, recorded_status sv px (new_hap_status e.svname e.pxname s sl) =
      recorded_status sv px sl := by
    intro s
    have hm : (strcmp_eq e.svname sv && strcmp_eq e.pxname px) = false := by
      simpa [strcmp_eq] using hne
    simp only [recorded_status, new_hap_status, get_hap_status, hm]
    cases get_hap_status sv px sl <;> simp
  have hset : ∀ i r s, get_hap_status e.svname e.pxname sl = some (i, r) →
      recorded_status sv px (set_hap_status (i, r) s sl) = recorded_status sv px sl := by
    intro i r s hg
    have he := get_hap_status_some _ _ sl i r hg
    simp only [recorded_status, set_hap_status]
    rw [get_hap_status_set sl i r s he.1]
    cases hq : get_hap_status sv px sl with
    | none => simp
    | some p =>
      obtain ⟨j, q⟩ := p
      have hq2 := get_hap_status_some _ _ sl j q hq
      by_cases hj : j = i
      · subst hj
        have : q = r := by
          have := hq2.1.symm.trans he.1
          simpa using this
        subst this
        exact absurd ⟨he.2.1.symm.trans hq2.2.1, he.2.2.symm.trans hq2.2.2⟩ hne
      · simp [hj]
  rcases hap_track_cases n e sl with h | ⟨s, _, h⟩ | ⟨i, r, s, evs, hg, h, _⟩
  · rw [h]
  · rw [h]; exact hnew s
  · rw [h]; exact hset i r s hg

theorem hap_track_notification_key (n : Nat) (e : hap_entry_t) (sl : List hap_status_t)
    (ev : hap_event) (h : ev ∈ (hap_track n e sl).2) :
    ∃ sev msg, ev = hap_event.notification e.svname e.pxname "hap_status".toList sev msg := by
  rcases hap_track_cases n e sl with h1 | ⟨s, _, h1⟩ | ⟨i, r, s, evs, hg, h1, hevs⟩
  · rw [h1] at h; simp at h
  · rw [h1] at h; simp at h
  · rw [h1] at h; exact hevs ev h

theorem hap_submit_no_notification (flags : Nat) (e : hap_entry_t) (ev : hap_event)
    (h : ev ∈ hap_submit flags e) (sv px t : CStr) (sev : Nat) (msg : CStr) :
    ev ≠ hap_event.notification sv px t sev msg := by
  rintro rfl
  simp only [hap_submit, List.mem_append] at h
  rcases h with ((((h | h) | h) | h) | h) | h <;> split_ifs at h <;> simp at h

theorem hap_track_same_key_quiet (n : Nat) (e : hap_entry_t) (sl : List hap_status_t)
    (hI : recorded_status e.svname e.pxname sl = none ∨
      recorded_status e.svname e.pxname sl = some HAP_STATUS_DOWN)
    (h100 : e.status ≠ 100) :
    (recorded_status e.svname e.pxname (hap_track n e sl).1 = none ∨
      recorded_status e.svname e.pxname (hap_track n e sl).1 = some HAP_STATUS_DOWN) ∧
    (hap_track n e sl).2 = [] := by
  by_cases hn : n = 0
  · subst hn
    simpa [hap_track] using hI
  by_cases h0 : e.status = 0
  · cases hg : get_hap_status e.svname e.pxname sl with
    | none =>
      have : hap_track n e sl = (new_hap_status e.svname e.pxname HAP_STATUS_DOWN sl, []) := by
        simp [hap_track, hn, h0, hg]
      rw [this]
      exact ⟨Or.inr (recorded_status_new _ _ _ _), rfl⟩
    | some p =>
      obtain ⟨i, r⟩ := p
      have hs : r.status = HAP_STATUS_DOWN := by
        simpa [recorded_status, hg] using hI
      have : hap_track n e sl = (sl, []) := by
        simp [hap_track, hn, h0, hg, hs]
      rw [this]
      exact ⟨hI, rfl⟩
  · rw [hap_track_skip n e sl h0 h100]
    exact ⟨hI, rfl⟩

theorem hap_read_loop_quiet (c : hap_conf) (sv px : CStr) (es : List hap_entry_t)
    (sl : List hap_status_t)
    (hI : recorded_status sv px sl = none ∨ recorded_status sv px sl = some HAP_STATUS_DOWN)
    (hes : ∀ e ∈ es, e.svname = sv → e.pxname = px → e.status ≠ 100)
    (ev : hap_event) (hev : ev ∈ (hap_read_loop c es sl).2)
    (t : CStr) (sev : Nat) (msg : CStr) :
    ev ≠ hap_event.notification sv px t sev msg := by
  induction es generalizing sl with
  | nil => simp [hap_read_loop] at hev
  | cons e es ih =>
    simp only [hap_read_loop, hap_read_entry, List.mem_append] at hev
    have hes' : ∀ x ∈ es, x.svname = sv → x.pxname = px → x.status ≠ 100 :=
      fun x hx => hes x (List.mem_cons_of_mem _ hx)
    by_cases hk : e.svname = sv ∧ e.pxname = px
    · obtain ⟨rfl, rfl⟩ := hk
      have hq := hap_track_same_key_quiet c.hap_notifs e sl hI
        (hes e (List.mem_cons_self _ _) rfl rfl)
      rcases hev with (hev | hev) | hev
      · rw [hq.2] at hev
        simp at hev
      · split_ifs at hev
        · simp at hev
        · exact hap_submit_no_notification _ _ _ hev _ _ _ _ _
      · exact ih _ hq.1 hes' hev
    · have hrec := hap_track_other_key c.hap_notifs e sl sv px hk
      rcases hev with (hev | hev) | hev
      · obtain ⟨s, m, rfl⟩ := hap_track_notification_key _ _ _ _ hev
        intro heq
        simp only [hap_event.notification.injEq] at heq
        exact hk ⟨heq.1, heq.2.1⟩
      · split_ifs at hev
        · simp at hev
        · exact hap_submit_no_notification _ _ _ hev _ _ _ _ _
      · exact ih _ (by rw [hrec]; exact hI) hes' hev

/-- The entry loop keeps the status list among the lists a run can hold. -/
theorem hap_read_loop_reachable (c : hap_conf) (es : List hap_entry_t)
    (sl : List hap_status_t) (h : hap_reachable c.hap_notifs sl) :
    hap_reachable c.hap_notifs (hap_read_loop c es sl).1 := by
  induction es generalizing sl with
  | nil => exact h
  | cons e es ih => exact ih _ (hap_reachable.track e sl h)

/-- A polling cycle keeps the status list among the lists a run can hold. -/
theorem hap_read_reachable (c : hap_conf) (interval_g : Int) (stat info : hap_sock)
    (st : hap_state) (h : hap_reachable c.hap_notifs st.hap_status_list) :
    hap_reachable c.hap_notifs (hap_read c interval_g stat info st).1.hap_status_list := by
  unfold hap_read
  simp only
  split_ifs
  · exact h
  · exact h
  · exact h
  · exact hap_read_loop_reachable c _ _ h

/-! ## Claims on the status cache and on the cycle -/

/-- C6: status transition on an existing record.  For every configuration
`c`, every status list `sl` that a run under `c` can hold and every entry
whose key has the record `r` at position `i`: a record UP with availability 0
becomes DOWN, and `DOWN` is notified with severity WARNING exactly when the
DOWN category is enabled; a record DOWN with availability 100 becomes UP, and
`UP` is notified with severity OKAY exactly when the UP category is enabled;
a record already in the target state leaves list and notifications as they
are. -/
theorem hap_track_existing (c : hap_conf) (sl : List hap_status_t)
    (hr : hap_reachable c.hap_notifs sl) (pentry : hap_entry_t) (i : Nat) (r : hap_status_t)
    (hget : get_hap_status pentry.svname pentry.pxname sl = some (i, r)) :
    (r.status = HAP_STATUS_UP → pentry.status = 0 →
      (hap_track c.hap_notifs pentry sl).1 = sl.set i { r with status := HAP_STATUS_DOWN } ∧
      get_hap_status pentry.svname pentry.pxname (hap_track c.hap_notifs pentry sl).1 =
        some (i, { r with status := HAP_STATUS_DOWN }) ∧
      (hap_track c.hap_notifs pentry sl).2 =
        if c.hap_notifs &&& HAP_NOTIF_STATUSDOWN ≠ 0 then
          [hap_event.notification pentry.svname pentry.pxname "hap_status".toList
            NOTIF_WARNING "DOWN".toList]
        else []) ∧
    (r.status = HAP_STATUS_DOWN → pentry.status = 100 →
      (hap_track c.hap_notifs pentry sl).1 = sl.set i { r with status := HAP_STATUS_UP } ∧
      get_hap_status pentry.svname pentry.pxname (hap_track c.hap_notifs pentry sl).1 =
        some (i, { r with status := HAP_STATUS_UP }) ∧
      (hap_track c.hap_notifs pentry sl).2 =
        if c.hap_notifs &&& HAP_NOTIF_STATUSUP ≠ 0 then
          [hap_event.notification pentry.svname pentry.pxname "hap_status".toList
            NOTIF_OKAY "UP".toList]
        else []) ∧
    (r.status = HAP_STATUS_DOWN → pentry.status = 0 →
      hap_track c.hap_notifs pentry sl = (sl, [])) ∧
    (r.status = HAP_STATUS_UP → pentry.status = 100 →
      hap_track c.hap_notifs pentry sl = (sl, [])) := by
  have hn : c.hap_notifs ≠ 0 := hap_reachable_notifs _ sl hr _ _ _ hget
  have hset := fun s => get_hap_status_set_self _ _ sl i r s hget
  refine ⟨?_, ?_, ?_, ?_⟩
  · intro hs h0
    have hne : r.status ≠ HAP_STATUS_DOWN := by rw [hs]; decide
    have ht : (hap_track c.hap_notifs pentry sl).1 = set_hap_status (i, r) HAP_STATUS_DOWN sl := by
      simp [hap_track, hn, h0, hget, hne]
    refine ⟨ht, ?_, ?_⟩
    · rw [ht]; exact hset _
    · simp [hap_track, hn, h0, hget, hne]
  · intro hs h100
    have hne : r.status ≠ HAP_STATUS_UP := by rw [hs]; decide
    have ht : (hap_track c.hap_notifs pentry sl).1 = set_hap_status (i, r) HAP_STATUS_UP sl := by
      simp [hap_track, hn, h100, hget, hne]
    refine ⟨ht, ?_, ?_⟩
    · rw [ht]; exact hset _
    · simp [hap_track, hn, h100, hget, hne]
  · intro hs h0
    simp [hap_track, hn, h0, hget, hs]
  · intro hs h100
    simp [hap_track, hn, h100, hget, hs]

/-- A first observation at 100 leaves the cell UP; then the availability 0 is
observed with only the DOWN notification enabled. -/
theorem hap_track_existing_witness :
    hap_reachable conf_down_only.hap_notifs [cell_up] ∧
    get_hap_status entry_down.svname entry_down.pxname [cell_up] = some (0, cell_up) ∧
    ((cell_up.status = HAP_STATUS_UP → entry_down.status = 0 →
      (hap_track conf_down_only.hap_notifs entry_down [cell_up]).1 =
        [cell_up].set 0 { cell_up with status := HAP_STATUS_DOWN } ∧
      get_hap_status entry_down.svname entry_down.pxname
          (hap_track conf_down_only.hap_notifs entry_down [cell_up]).1 =
        some (0, { cell_up with status := HAP_STATUS_DOWN }) ∧
      (hap_track conf_down_only.hap_notifs entry_down [cell_up]).2 =
        if conf_down_only.hap_notifs &&& HAP_NOTIF_STATUSDOWN ≠ 0 then
          [hap_event.notification entry_down.svname entry_down.pxname "hap_status".toList
            NOTIF_WARNING "DOWN".toList]
        else []) ∧
    (cell_up.status = HAP_STATUS_DOWN → entry_down.status = 100 →
      (hap_track conf_down_only.hap_notifs entry_down [cell_up]).1 =
        [cell_up].set 0 { cell_up with status := HAP_STATUS_UP } ∧
      get_hap_status entry_down.svname entry_down.pxname
          (hap_track conf_down_only.hap_notifs entry_down [cell_up]).1 =
        some (0, { cell_up with status := HAP_STATUS_UP }) ∧
      (hap_track conf_down_only.hap_notifs entry_down [cell_up]).2 =
        if conf_down_only.hap_notifs &&& HAP_NOTIF_STATUSUP ≠ 0 then
          [hap_event.notification entry_down.svname entry_down.pxname "hap_status".toList
            NOTIF_OKAY "UP".toList]
        else []) ∧
    (cell_up.status = HAP_STATUS_DOWN → entry_down.status = 0 →
      hap_track conf_down_only.hap_notifs entry_down [cell_up] = ([cell_up], [])) ∧
    (cell_up.status = HAP_STATUS_UP → entry_down.status = 100 →
      hap_track conf_down_only.hap_notifs entry_down [cell_up] = ([cell_up], []))) :=
  ⟨hap_reachable.track entry_up [] hap_reachable.start, by decide,
    hap_track_existing conf_down_only [cell_up]
      (hap_reachable.track entry_up [] hap_reachable.start) entry_down 0 cell_up (by decide)⟩

set_option maxRecDepth 20000 in
/-- C7, as stated, fails: under the default settings (no notification
category enabled) an entry with availability 0 whose key has no record
creates no record, and the cycle of the end-to-end scenario leaves the status
list empty although the availability of `sv1`/`fe1` is 100. -/
theorem hap_track_first_default :
    get_hap_status entry_down.svname entry_down.pxname [] = none ∧
    entry_down.status = 0 ∧
    hap_track ({} : hap_conf).hap_notifs entry_down [] = ([], []) ∧
    (hap_read {} 10 scenario_stat scenario_info {}).1.hap_status_list = [] := by
  refine ⟨by decide, by decide, by decide, by decide⟩

/-- C7, amended: first observation of a key.  For every configuration with
at least one notification category enabled and every entry whose key has no
record, availability 0 pushes a record DOWN and availability 100 a record UP,
and nothing is notified; with no category enabled the status block does
nothing. -/
theorem hap_track_first (c : hap_conf) (pentry : hap_entry_t) (sl : List hap_status_t)
    (hget : get_hap_status pentry.svname pentry.pxname sl = none) :
    (c.hap_notifs ≠ 0 →
      (pentry.status = 0 → hap_track c.hap_notifs pentry sl =
        ({ svname := pentry.svname, pxname := pentry.pxname, status := HAP_STATUS_DOWN } :: sl,
          [])) ∧
      (pentry.status = 100 → hap_track c.hap_notifs pentry sl =
        ({ svname := pentry.svname, pxname := pentry.pxname, status := HAP_STATUS_UP } :: sl,
          []))) ∧
    (c.hap_notifs = 0 → hap_track c.hap_notifs pentry sl = (sl, [])) := by
  refine ⟨fun hn => ⟨fun h0 => ?_, fun h100 => ?_⟩, fun hz => ?_⟩
  · simp [hap_track, hn, h0, hget, new_hap_status]
  · simp [hap_track, hn, h100, hget, new_hap_status]
  · simp [hap_track, hz]

/-- First observation at 100 with both notifications enabled. -/
theorem hap_track_first_witness :
    get_hap_status entry_up.svname entry_up.pxname [] = none ∧
    ((conf_both.hap_notifs ≠ 0 →
      (entry_up.status = 0 → hap_track conf_both.hap_notifs entry_up [] =
        ({ svname := entry_up.svname, pxname := entry_up.pxname,
           status := HAP_STATUS_DOWN } :: [], [])) ∧
      (entry_up.status = 100 → hap_track conf_both.hap_notifs entry_up [] =
        ({ svname := entry_up.svname, pxname := entry_up.pxname,
           status := HAP_STATUS_UP } :: [], []))) ∧
    (conf_both.hap_notifs = 0 → hap_track conf_both.hap_notifs entry_up [] = ([], []))) :=
  ⟨by decide, hap_track_first conf_both entry_up [] (by decide)⟩

/-- C8: an entry whose availability is neither 0 nor 100 leaves the whole
status list as it is and notifies nothing, whatever the settings. -/
theorem hap_track_intermediate (hap_notifs : Nat) (pentry : hap_entry_t)
    (sl : List hap_status_t) (h0 : pentry.status ≠ 0) (h100 : pentry.status ≠ 100) :
    hap_track hap_notifs pentry sl = (sl, []) := by
  simp [hap_track, h0, h100]

/-- Availability 40 observed on a cell UP. -/
theorem hap_track_intermediate_witness :
    entry_mid.status ≠ 0 ∧ entry_mid.status ≠ 100 ∧
    hap_track 3 entry_mid [cell_up] = ([cell_up], []) :=
  ⟨by decide, by decide, hap_track_intermediate 3 entry_mid [cell_up] (by decide) (by decide)⟩

theorem notifications_of_append (sv px : CStr) (a b : List hap_event) :
    notifications_of sv px (a ++ b) = notifications_of sv px a ++ notifications_of sv px b := by
  simp [notifications_of]

theorem notifications_of_submit (sv px : CStr) (flags : Nat) (e : hap_entry_t) :
    notifications_of sv px (hap_submit flags e) = [] := by
  unfold notifications_of
  rw [List.filter_eq_nil_iff]
  intro ev hev
  cases ev with
  | notification s p t sev msg => exact absurd rfl (hap_submit_no_notification flags e _ hev s p t sev msg)
  | submit_counter _ _ _ _ => simp
  | submit_gauge _ _ _ _ => simp

theorem notifications_of_edge_same (e : hap_entry_t) (old : Option Int) :
    notifications_of e.svname e.pxname (edge_notification e old) = edge_notification e old := by
  unfold notifications_of edge_notification
  cases old with
  | none => rfl
  | some a => split_ifs <;> simp

theorem notifications_of_edge_other (sv px : CStr) (e : hap_entry_t) (old : Option Int)
    (hne : ¬ (e.svname = sv ∧ e.pxname = px)) :
    notifications_of sv px (edge_notification e old) = [] := by
  unfold notifications_of edge_notification
  cases old with
  | none => rfl
  | some a => split_ifs <;> simp <;> exact fun _ h1 h2 => hne ⟨h1, h2⟩

/-- Over any run, with both notifications enabled, the notifications about a
key and the state recorded for it are what the specification expects from the
observations of that key. -/
theorem hap_read_loop_reference (c : hap_conf)
    (hd : c.hap_notifs &&& HAP_NOTIF_STATUSDOWN ≠ 0)
    (hu : c.hap_notifs &&& HAP_NOTIF_STATUSUP ≠ 0) (sv px : CStr)
    (es : List hap_entry_t) (sl : List hap_status_t) :
    notifications_of sv px (hap_read_loop c es sl).2 =
      reference_notifications (recorded_status sv px sl) (observations_of sv px es) ∧
    recorded_status sv px (hap_read_loop c es sl).1 =
      reference_status (recorded_status sv px sl) (observations_of sv px es) := by
  have hn : c.hap_notifs ≠ 0 := nat_and_ne_zero _ _ hd
  induction es generalizing sl with
  | nil => simp [hap_read_loop, notifications_of, observations_of, reference_notifications,
      reference_status]
  | cons e es ih =>
    have ih' := ih (hap_track c.hap_notifs e sl).1
    simp only [hap_read_loop, hap_read_entry, notifications_of_append]
    rw [ih'.1, ih'.2, hap_track_edge c.hap_notifs hd hu e sl]
    have hsub : notifications_of sv px
        (if hap_filtered c e then [] else hap_submit c.hap_flags e) = [] := by
      split_ifs
      · rfl
      · exact notifications_of_submit sv px _ e
    rw [hsub, List.append_nil]
    by_cases hk : e.svname = sv ∧ e.pxname = px
    · have hobs : observations_of sv px (e :: es) = e :: observations_of sv px es := by
        simp [observations_of, hk]
      obtain ⟨rfl, rfl⟩ := hk
      rw [hobs, hap_track_next_status c.hap_notifs hn e sl, notifications_of_edge_same]
      simp only [reference_notifications, reference_status, and_self]
    · have hobs : observations_of sv px (e :: es) = observations_of sv px es := by
        simp [observations_of, hk]
      rw [hobs, hap_track_other_key c.hap_notifs e sl sv px hk,
        notifications_of_edge_other sv px e _ hk]
      simp

/-- C9: notifications over a run.  `es` is the sequence of entries that the
entry loop of `hap_read` handles over the polling cycles, `sl0` the status
list at the start (the empty list, or any other), and both notification
categories are enabled.  For every key, the notifications dispatched about it
and the state recorded for it at the end are those of the specification,
computed from the observations of the key alone (`reference_notifications`,
`reference_status`): availability 0 records DOWN and availability 100 records
UP, with one notification when the record was the opposite state, none when
there was no record or the record was that state already, and an intermediate
availability neither records nor notifies.  At every observation `e` of the
run the loop records `next_status` and dispatches, after what it dispatched
before, exactly `edge_notification`, then the metrics of `e` and the rest of
the run.  And a key that has no record at the start and is never observed at
100 (for instance one that alternates between 0 and 40) is never notified. -/
theorem hap_read_loop_notifications (c : hap_conf)
    (hd : c.hap_notifs &&& HAP_NOTIF_STATUSDOWN ≠ 0)
    (hu : c.hap_notifs &&& HAP_NOTIF_STATUSUP ≠ 0)
    (sl0 : List hap_status_t) (es : List hap_entry_t) :
    (∀ sv px,
      notifications_of sv px (hap_read_loop c es sl0).2 =
        reference_notifications (recorded_status sv px sl0) (observations_of sv px es) ∧
      recorded_status sv px (hap_read_loop c es sl0).1 =
        reference_status (recorded_status sv px sl0) (observations_of sv px es)) ∧
    (∀ pre e post, es = pre ++ e :: post →
      recorded_status e.svname e.pxname
          (hap_track c.hap_notifs e (hap_read_loop c pre sl0).1).1 =
        next_status e.status (recorded_status e.svname e.pxname (hap_read_loop c pre sl0).1) ∧
      (hap_read_loop c es sl0).2 =
        (hap_read_loop c pre sl0).2 ++
        edge_notification e (recorded_status e.svname e.pxname (hap_read_loop c pre sl0).1) ++
        (if hap_filtered c e then [] else hap_submit c.hap_flags e) ++
        (hap_read_loop c post (hap_track c.hap_notifs e (hap_read_loop c pre sl0).1).1).2) ∧
    (∀ sv px, recorded_status sv px sl0 = none →
      (∀ e ∈ es, e.svname = sv → e.pxname = px → e.status ≠ 100) →
      ∀ ev ∈ (hap_read_loop c es sl0).2, ∀ t sev msg,
        ev ≠ hap_event.notification sv px t sev msg) := by
  refine ⟨fun sv px => hap_read_loop_reference c hd hu sv px es sl0, ?_, ?_⟩
  · intro pre e post hes
    subst hes
    refine ⟨hap_track_next_status c.hap_notifs (nat_and_ne_zero _ _ hd) e _, ?_⟩
    rw [hap_read_loop_append]
    simp only [hap_read_loop, hap_read_entry]
    rw [hap_track_edge c.hap_notifs hd hu e]
    simp only [List.append_assoc]
  · intro sv px h0 hes ev hev t sev msg
    exact hap_read_loop_quiet c sv px es sl0 (Or.inl h0) hes ev hev t sev msg

set_option maxRecDepth 20000 in
/-- The run 0, 40, 100, 100, 0 of `sv1`/`fe1` from the empty status list, with
an observation of `sv2`/`fe1` at 100 in between: the first 0 only records
DOWN, the first 100 notifies UP, the second 100 nothing, the last 0 notifies
DOWN, and `sv2`/`fe1` is recorded UP without a notification.  The run 0, 40,
0, 40 notifies nothing. -/
theorem hap_read_loop_notifications_witness :
    conf_both.hap_notifs &&& HAP_NOTIF_STATUSDOWN ≠ 0 ∧
    conf_both.hap_notifs &&& HAP_NOTIF_STATUSUP ≠ 0 ∧
    notifications_of "sv1".toList "fe1".toList (hap_read_loop conf_both flip_run []).2 =
      [hap_event.notification "sv1".toList "fe1".toList "hap_status".toList NOTIF_OKAY
        "UP".toList,
       hap_event.notification "sv1".toList "fe1".toList "hap_status".toList NOTIF_WARNING
        "DOWN".toList] ∧
    recorded_status "sv1".toList "fe1".toList (hap_read_loop conf_both flip_run []).1 =
      some HAP_STATUS_DOWN ∧
    notifications_of "sv2".toList "fe1".toList (hap_read_loop conf_both flip_run []).2 = [] ∧
    recorded_status "sv2".toList "fe1".toList (hap_read_loop conf_both flip_run []).1 =
      some HAP_STATUS_UP ∧
    notifications_of "sv1".toList "fe1".toList (hap_read_loop conf_both quiet_run []).2 = [] ∧
    ((∀ sv px,
      notifications_of sv px (hap_read_loop conf_both flip_run []).2 =
        reference_notifications (recorded_status sv px []) (observations_of sv px flip_run) ∧
      recorded_status sv px (hap_read_loop conf_both flip_run []).1 =
        reference_status (recorded_status sv px []) (observations_of sv px flip_run)) ∧
    (∀ pre e post, flip_run = pre ++ e :: post →
      recorded_status e.svname e.pxname
          (hap_track conf_both.hap_notifs e (hap_read_loop conf_both pre []).1).1 =
        next_status e.status
          (recorded_status e.svname e.pxname (hap_read_loop conf_both pre []).1) ∧
      (hap_read_loop conf_both flip_run []).2 =
        (hap_read_loop conf_both pre []).2 ++
        edge_notification e
          (recorded_status e.svname e.pxname (hap_read_loop conf_both pre []).1) ++
        (if hap_filtered conf_both e then [] else hap_submit conf_both.hap_flags e) ++
        (hap_read_loop conf_both post
          (hap_track conf_both.hap_notifs e (hap_read_loop conf_both pre []).1).1).2) ∧
    (∀ sv px, recorded_status sv px [] = none →
      (∀ e ∈ flip_run, e.svname = sv → e.pxname = px → e.status ≠ 100) →
      ∀ ev ∈ (hap_read_loop conf_both flip_run []).2,
        ∀ t sev msg, ev ≠ hap_event.notification sv px t sev msg)) :=
  ⟨by decide, by decide, by decide!, by decide!, by decide!, by decide!, by decide!,
    hap_read_loop_notifications conf_both (by decide) (by decide) [] flip_run⟩

/-- What `atol` returns is a `long`. -/
theorem atol_range (s : CStr) : -(2 ^ 63) ≤ atol s ∧ atol s < 2 ^ 63 := by
  unfold atol clamp64
  split_ifs <;> omega

/-- C10: restart guard.  `g` is the configured restart gap, a `long` (so below
`2^63`, see `atol_range`): the default 20, or the integer that `hap_config`
reads with `atol` and stores as `(unsigned long) g`.  For every such setting, every behaviour of the two
sockets and every state: if the uptime read by `hap_retrieveuptime` is below
`g + 1`, the cycle dispatches nothing, keeps `hap_status_list` as it was and
ends with an empty `hap_entry_list`. -/
theorem hap_read_restart_guard (c : hap_conf) (interval_g : Int) (stat info : hap_sock)
    (st : hap_state) (g : Int) (ret : Int) (uptime : Nat)
    (hlong : g < 2 ^ 63)
    (hgap : c.hap_restart_gap = to_u64 g)
    (hup : hap_retrieveuptime info = (ret, uptime))
    (h : (uptime : Int) < g + 1) :
    hap_read c interval_g stat info st =
      ({ hap_entry_list := [], hap_status_list := st.hap_status_list }, []) := by
  have hg0 : 0 ≤ g := by omega
  have hu64 : to_u64 g = g.toNat := by
    unfold to_u64
    rw [Int.emod_eq_of_lt hg0 (by omega)]
  have hlt : uptime < (c.hap_restart_gap + 1) % 2 ^ 64 := by
    rw [hgap, hu64, Nat.mod_eq_of_lt (by omega)]
    omega
  simp only [hap_read, hup]
  split_ifs <;> rfl

set_option maxRecDepth 20000 in
/-- Uptime 15 with the default restart gap 20: the cell UP is kept. -/
theorem hap_read_restart_guard_witness :
    (20 : Int) < 2 ^ 63 ∧
    ({} : hap_conf).hap_restart_gap = to_u64 20 ∧
    hap_retrieveuptime restarted_info = (0, 15) ∧
    ((15 : Nat) : Int) < 20 + 1 ∧
    hap_read {} 10 scenario_stat restarted_info { hap_status_list := [cell_up] } =
      ({ hap_entry_list := [],
         hap_status_list := ({ hap_status_list := [cell_up] } : hap_state).hap_status_list },
        []) :=
  ⟨by decide, by decide, by decide, by decide,
    hap_read_restart_guard {} 10 scenario_stat restarted_info { hap_status_list := [cell_up] }
      20 0 15 (by decide) (by decide) (by decide) (by decide)⟩

/-! ## Filters, failed cycles and key uniqueness -/

theorem toNat_ofNat_small (n : Nat) (h : n < 55296) : (Char.ofNat n).toNat = n := by
  have hv : n.isValidChar := Or.inl h
  simp only [Char.ofNat, hv, Char.ofNatAux, Char.toNat, dite_true]
  rfl

theorem toNat_inj (a b : Char) (h : a.toNat = b.toNat) : a = b := by
  apply Char.ext
  apply UInt32.ext
  exact h

theorem tolower_toNat (c : Char) :
    (tolower c).toNat = if 65 ≤ c.toNat ∧ c.toNat ≤ 90 then c.toNat + 32 else c.toNat := by
  unfold tolower
  split_ifs with h
  · exact toNat_ofNat_small _ (by omega)
  · rfl

theorem tolower_eq_iff (a b : Char) : tolower a = tolower b ↔ same_letter a b = true := by
  constructor
  · intro h
    have h2 := congrArg Char.toNat h
    rw [tolower_toNat, tolower_toNat] at h2
    simp only [same_letter, Bool.or_eq_true, Bool.and_eq_true, decide_eq_true_eq]
    split_ifs at h2 with ha hb hb
    · left; left; exact toNat_inj a b (by omega)
    · left; right; exact ⟨⟨ha.1, ha.2⟩, h2.symm⟩
    · right; exact ⟨⟨hb.1, hb.2⟩, h2⟩
    · left; left; exact toNat_inj a b h2
  · intro h
    simp only [same_letter, Bool.or_eq_true, Bool.and_eq_true, decide_eq_true_eq] at h
    apply toNat_inj
    rw [tolower_toNat, tolower_toNat]
    rcases h with (h | ⟨⟨h1, h2⟩, h3⟩) | ⟨⟨h1, h2⟩, h3⟩
    · subst h; rfl
    · split_ifs <;> omega
    · split_ifs <;> omega

theorem strcasecmp_eq_ignore_case (p q : CStr) : strcasecmp_eq p q = eq_ignore_case p q := by
  induction p generalizing q with
  | nil => cases q <;> simp [strcasecmp_eq, eq_ignore_case]
  | cons a p ih =>
    cases q with
    | nil => simp [strcasecmp_eq, eq_ignore_case]
    | cons b q =>
      have := ih q
      simp only [strcasecmp_eq] at this
      rw [Bool.eq_iff_iff]
      simp only [strcasecmp_eq, eq_ignore_case, List.map_cons, Bool.and_eq_true, beq_iff_eq,
        List.cons.injEq, tolower_eq_iff]
      rw [← this]
      simp

theorem hap_filter_hit_iff (fs : List CStr) (name : CStr) :
    hap_filter_hit fs name = true ↔ ∃ f ∈ fs, eq_ignore_case name f = true := by
  induction fs with
  | nil => simp [hap_filter_hit]
  | cons f fs ih =>
    simp only [hap_filter_hit, List.mem_cons, exists_eq_or_imp]
    have hsym : strcasecmp_eq f name = strcasecmp_eq name f := by
      simp only [strcasecmp_eq]
      rw [Bool.eq_iff_iff]
      simp only [beq_iff_eq]
      exact eq_comm
    by_cases h : strcasecmp_eq f name = true
    · have h2 := h
      rw [hsym, strcasecmp_eq_ignore_case] at h2
      simp [h, h2]
    · have h2 := h
      rw [hsym, strcasecmp_eq_ignore_case] at h2
      simp [h, h2, ih]

theorem hap_filtered_iff (c : hap_conf) (e : hap_entry_t) :
    hap_filtered c e = false ↔ filter_includes c.pxf c.svf e := by
  unfold hap_filtered filter_includes
  rw [← hap_filter_hit_iff, ← hap_filter_hit_iff]
  by_cases h1 : c.pxf = [] <;> by_cases h2 : c.svf = [] <;>
    cases h3 : hap_filter_hit c.pxf e.pxname <;>
    cases h4 : hap_filter_hit c.svf e.svname <;> simp [h1, h2]

/-- C11: a failed query aborts the cycle.  If `hap_retrievestat` fails, also
after it linked entries, or `hap_retrieveuptime` fails, `hap_read` dispatches
nothing, keeps `hap_status_list` as it was and ends with an empty
`hap_entry_list`. -/
theorem hap_read_failed_query (c : hap_conf) (interval_g : Int) (stat info : hap_sock)
    (st : hap_state)
    (h : (hap_retrievestat interval_g stat st.hap_entry_list).1 < 0 ∨
      (hap_retrieveuptime info).1 < 0) :
    hap_read c interval_g stat info st =
      ({ hap_entry_list := [], hap_status_list := st.hap_status_list }, []) := by
  unfold hap_read
  simp only
  rcases h with h | h
  · rw [if_pos h]
  · split_ifs <;> rfl

/-- C12: an entry reaches the submission of its metrics exactly when the
filter of the specification includes it: each allow-list is empty or holds
the name of the entry up to ASCII case.  An entry whose proxy name is in no
element of a non-empty proxy list is filtered whatever the server list. -/
theorem hap_filtered_iff_includes (c : hap_conf) (e : hap_entry_t)
    (sl : List hap_status_t) :
    (hap_filtered c e = false ↔ filter_includes c.pxf c.svf e) ∧
    (hap_read_entry c e sl).2 =
      (hap_track c.hap_notifs e sl).2 ++
        (if hap_filtered c e = false then hap_submit c.hap_flags e else []) ∧
    (c.pxf ≠ [] → (∀ f ∈ c.pxf, eq_ignore_case e.pxname f = false) →
      hap_filtered c e = true) := by
  refine ⟨hap_filtered_iff c e, ?_, ?_⟩
  · unfold hap_read_entry
    cases hap_filtered c e <;> simp
  · intro hne hall
    cases hf : hap_filtered c e with
    | true => rfl
    | false =>
      have := (hap_filtered_iff c e).mp hf
      rcases this.1 with h | ⟨f, hf1, hf2⟩
      · exact absurd h hne
      · rw [hall f hf1] at hf2
        exact absurd hf2 (by decide)

theorem hap_notifications_append (a b : List hap_event) :
    hap_notifications (a ++ b) = hap_notifications a ++ hap_notifications b := by
  simp [hap_notifications]

theorem hap_notifications_submit (flags : Nat) (e : hap_entry_t) :
    hap_notifications (hap_submit flags e) = [] := by
  unfold hap_notifications
  rw [List.filter_eq_nil_iff]
  intro ev hev
  cases ev with
  | notification sv px t sev msg =>
    exact absurd rfl (hap_submit_no_notification flags e _ hev sv px t sev msg)
  | submit_counter _ _ _ _ => simp
  | submit_gauge _ _ _ _ => simp

theorem hap_notifications_track (n : Nat) (e : hap_entry_t) (sl : List hap_status_t) :
    hap_notifications (hap_track n e sl).2 = (hap_track n e sl).2 := by
  unfold hap_notifications
  rw [List.filter_eq_self]
  intro ev hev
  obtain ⟨sev, msg, rfl⟩ := hap_track_notification_key n e sl ev hev
  rfl

theorem hap_read_entry_notifications (c : hap_conf) (e : hap_entry_t) (sl : List hap_status_t) :
    (hap_read_entry c e sl).1 = (hap_track c.hap_notifs e sl).1 ∧
    hap_notifications (hap_read_entry c e sl).2 = (hap_track c.hap_notifs e sl).2 := by
  refine ⟨rfl, ?_⟩
  unfold hap_read_entry
  simp only
  rw [hap_notifications_append, hap_notifications_track]
  split_ifs
  · simp [hap_notifications]
  · rw [hap_notifications_submit]; simp

theorem hap_read_loop_filters (c d : hap_conf) (h : d.hap_notifs = c.hap_notifs)
    (es : List hap_entry_t) (sl : List hap_status_t) :
    (hap_read_loop d es sl).1 = (hap_read_loop c es sl).1 ∧
    hap_notifications (hap_read_loop d es sl).2 = hap_notifications (hap_read_loop c es sl).2 := by
  induction es generalizing sl with
  | nil => exact ⟨rfl, rfl⟩
  | cons e es ih =>
    simp only [hap_read_loop]
    have hd := hap_read_entry_notifications d e sl
    have hc := hap_read_entry_notifications c e sl
    rw [h] at hd
    have h1 : (hap_read_entry d e sl).1 = (hap_read_entry c e sl).1 := hd.1.trans hc.1.symm
    rw [h1]
    refine ⟨(ih _).1, ?_⟩
    rw [hap_notifications_append, hap_notifications_append, (ih _).2, hd.2, hc.2]

/-- C13: status tracking does not depend on the filters.  Replacing the two
allow-lists of a configuration by any others leaves the state after a cycle
and the notifications of the cycle as they are, for the same socket
behaviour and the same state before; for every entry, filtered or not, the
status list after its turn of the loop and what is notified are those of the
status block. -/
theorem hap_read_filters_irrelevant (c : hap_conf) (pxf svf : List CStr) (interval_g : Int)
    (stat info : hap_sock) (st : hap_state) :
    (hap_read { c with pxf := pxf, svf := svf } interval_g stat info st).1 =
      (hap_read c interval_g stat info st).1 ∧
    hap_notifications (hap_read { c with pxf := pxf, svf := svf } interval_g stat info st).2 =
      hap_notifications (hap_read c interval_g stat info st).2 ∧
    ∀ e sl, (hap_read_entry c e sl).1 = (hap_track c.hap_notifs e sl).1 ∧
      hap_notifications (hap_read_entry c e sl).2 = (hap_track c.hap_notifs e sl).2 := by
  have hl := hap_read_loop_filters c { c with pxf := pxf, svf := svf } rfl
  refine ⟨?_, ?_, hap_read_entry_notifications c⟩
  · unfold hap_read
    simp only
    split_ifs
    · rfl
    · rfl
    · rfl
    · rw [(hl _ _).1]
  · unfold hap_read
    simp only
    split_ifs
    · rfl
    · rfl
    · rfl
    · exact (hl _ _).2

/-- A failed `show stat` query after one entry was linked: the cycle leaves
the cell UP and dispatches nothing. -/
theorem hap_read_failed_query_witness :
    ((hap_retrievestat 10 broken_stat []).1 < 0 ∨ (hap_retrieveuptime scenario_info).1 < 0) ∧
    hap_read conf_both 10 broken_stat scenario_info { hap_status_list := [cell_up] } =
      ({ hap_entry_list := [],
         hap_status_list := ({ hap_status_list := [cell_up] } : hap_state).hap_status_list },
        []) :=
  ⟨by decide,
    hap_read_failed_query conf_both 10 broken_stat scenario_info { hap_status_list := [cell_up] }
      (by decide)⟩

theorem get_hap_status_none (sv px : CStr) (sl : List hap_status_t)
    (h : get_hap_status sv px sl = none) : (px, sv) ∉ hap_keys sl := by
  induction sl with
  | nil => simp [hap_keys]
  | cons r rs ih =>
    simp only [get_hap_status] at h
    split_ifs at h with hm
    cases hg : get_hap_status sv px rs with
    | some v => simp [hg] at h
    | none =>
      simp only [strcmp_eq, Bool.and_eq_true, beq_iff_eq, not_and] at hm
      have := ih hg
      simp only [hap_keys, List.map_cons, List.mem_cons, Prod.mk.injEq, not_or] at this ⊢
      refine ⟨?_, this⟩
      rintro ⟨h1, h2⟩
      exact hm h2.symm h1.symm

theorem hap_keys_set (sl : List hap_status_t) (i : Nat) (r : hap_status_t) (s : Int)
    (h : sl[i]? = some r) : hap_keys (sl.set i { r with status := s }) = hap_keys sl := by
  induction sl generalizing i with
  | nil => rfl
  | cons q qs ih =>
    cases i with
    | zero =>
      simp only [List.getElem?_cons_zero, Option.some.injEq] at h
      subst h
      simp [hap_keys]
    | succ n =>
      simp only [List.getElem?_cons_succ] at h
      have := ih n h
      simp only [hap_keys] at this
      simp [hap_keys, this]

theorem hap_track_keys_nodup (n : Nat) (e : hap_entry_t) (sl : List hap_status_t)
    (h : (hap_keys sl).Nodup) : (hap_keys (hap_track n e sl).1).Nodup := by
  rcases hap_track_cases n e sl with h1 | ⟨s, hg, h1⟩ | ⟨i, r, s, evs, hg, h1, _⟩
  · rw [h1]; exact h
  · rw [h1]
    simp only [new_hap_status, hap_keys, List.map_cons]
    exact List.nodup_cons.mpr ⟨get_hap_status_none _ _ sl hg, h⟩
  · rw [h1]
    simp only [set_hap_status]
    rw [hap_keys_set sl i r s (get_hap_status_some _ _ sl i r hg).1]
    exact h

theorem hap_reachable_keys_nodup (n : Nat) (sl : List hap_status_t) (h : hap_reachable n sl) :
    (hap_keys sl).Nodup := by
  induction h with
  | start => simp [hap_keys]
  | track e sl _ ih => exact hap_track_keys_nodup n e sl ih

theorem hap_cycles_reachable (c : hap_conf) (interval_g : Int)
    (cycles : List (hap_sock × hap_sock)) (st : hap_state)
    (h : hap_reachable c.hap_notifs st.hap_status_list) :
    hap_reachable c.hap_notifs (hap_cycles c interval_g cycles st).hap_status_list := by
  induction cycles generalizing st with
  | nil => exact h
  | cons p rest ih =>
    obtain ⟨stat, info⟩ := p
    simp only [hap_cycles]
    exact ih _ (hap_read_reachable c interval_g stat info st h)

theorem hap_loops_reachable (c : hap_conf) (ess : List (List hap_entry_t))
    (sl : List hap_status_t) (h : hap_reachable c.hap_notifs sl) :
    hap_reachable c.hap_notifs (ess.foldl (fun l es => (hap_read_loop c es l).1) sl) := by
  induction ess generalizing sl with
  | nil => exact h
  | cons es rest ih =>
    simp only [List.foldl_cons]
    exact ih _ (hap_read_loop_reachable c es sl h)

theorem get_hap_status_unique (sl : List hap_status_t) (h : (hap_keys sl).Nodup)
    (sv px : CStr) (i : Nat) (r : hap_status_t)
    (hg : get_hap_status sv px sl = some (i, r)) (j : Nat) (q : hap_status_t)
    (hj : sl[j]? = some q) (hsv : q.svname = sv) (hpx : q.pxname = px) : j = i := by
  have hi := get_hap_status_some sv px sl i r hg
  have h1 : (hap_keys sl)[i]? = some (px, sv) := by
    simp [hap_keys, hi.1, hi.2.1, hi.2.2]
  have h2 : (hap_keys sl)[j]? = some (px, sv) := by
    simp [hap_keys, hj, hsv, hpx]
  have hlt : j < (hap_keys sl).length := by
    have := (List.getElem?_eq_some_iff.mp h2).1
    exact this
  exact List.getElem?_inj hlt h (h2.trans h1.symm)

/-- C20: key uniqueness.  Starting from the empty status list, after any run
of polling cycles, and after the entry loop has handled any sequence of entry
lists (keys may repeat inside a list), no two cells of `hap_status_list` have
the same pair of names (compared as strings, case included); so the cell
`get_hap_status` returns is the only cell of its key. -/
theorem hap_status_list_unique_keys (c : hap_conf) (interval_g : Int)
    (cycles : List (hap_sock × hap_sock)) (ess : List (List hap_entry_t)) :
    (hap_keys (hap_cycles c interval_g cycles {}).hap_status_list).Nodup ∧
    (hap_keys (ess.foldl (fun l es => (hap_read_loop c es l).1) [])).Nodup ∧
    (∀ sv px i r,
      get_hap_status sv px (hap_cycles c interval_g cycles {}).hap_status_list = some (i, r) →
      ∀ j q, (hap_cycles c interval_g cycles {}).hap_status_list[j]? = some q →
        q.svname = sv → q.pxname = px → j = i) ∧
    (∀ sv px i r,
      get_hap_status sv px (ess.foldl (fun l es => (hap_read_loop c es l).1) []) = some (i, r) →
      ∀ j q, (ess.foldl (fun l es => (hap_read_loop c es l).1) [])[j]? = some q →
        q.svname = sv → q.pxname = px → j = i) := by
  have h1 := hap_reachable_keys_nodup _ _
    (hap_cycles_reachable c interval_g cycles {} hap_reachable.start)
  have h2 := hap_reachable_keys_nodup _ _ (hap_loops_reachable c ess [] hap_reachable.start)
  exact ⟨h1, h2, fun sv px i r hg j q hj hsv hpx =>
      get_hap_status_unique _ h1 sv px i r hg j q hj hsv hpx,
    fun sv px i r hg j q hj hsv hpx => get_hap_status_unique _ h2 sv px i r hg j q hj hsv hpx⟩

theorem hap_config_congr (IS_TRUE : CStr → Bool) (key name value : CStr) (c : hap_conf)
    (h : eq_ignore_case key name = true) :
    hap_config IS_TRUE key value c = hap_config IS_TRUE name value c := by
  rw [← strcasecmp_eq_ignore_case] at h
  simp only [strcasecmp_eq, beq_iff_eq] at h
  simp only [hap_config, strcasecmp_eq, h]

theorem hap_config_disable (IS_TRUE : CStr → Bool) (m : hap_metric) (value : CStr)
    (c : hap_conf) :
    hap_config IS_TRUE m.disable_key value c =
      (0, if IS_TRUE value then { c with hap_flags := c.hap_flags &&& int_not m.flag } else c) := by
  cases m <;> rfl

theorem hap_config_enable (IS_TRUE : CStr → Bool) (n : hap_notif_category) (value : CStr)
    (c : hap_conf) :
    hap_config IS_TRUE n.enable_key value c =
      (0, if IS_TRUE value then { c with hap_notifs := c.hap_notifs ||| n.flag } else c) := by
  cases n <;> rfl

theorem int_not_flag (m m' : hap_metric) :
    int_not m.flag &&& m'.flag = if m' = m then 0 else m'.flag := by
  cases m <;> cases m' <;> decide

theorem and_int_not (x : Nat) (m m' : hap_metric) :
    (x &&& int_not m.flag) &&& m'.flag = if m' = m then 0 else x &&& m'.flag := by
  rw [Nat.land_assoc, int_not_flag]
  split_ifs <;> simp

theorem or_ne_zero (a b : Nat) (hb : b ≠ 0) : a ||| b ≠ 0 := by
  intro h
  apply hb
  apply Nat.zero_of_testBit_eq_false
  intro i
  have := congrArg (fun n => Nat.testBit n i) h
  simp only [Nat.testBit_or, Nat.zero_testBit, Bool.or_eq_false_iff] at this
  exact this.2

theorem notif_flag_and (n n' : hap_notif_category) :
    n.flag &&& n'.flag = if n' = n then n.flag else 0 := by
  cases n <;> cases n' <;> decide

theorem or_notif_flag (x : Nat) (n n' : hap_notif_category) :
    ((x ||| n.flag) &&& n'.flag ≠ 0) ↔ (x &&& n'.flag ≠ 0 ∨ n' = n) := by
  rw [Nat.and_distrib_right, notif_flag_and]
  by_cases h : n' = n
  · subst h
    simp only [if_true, or_true, iff_true]
    exact or_ne_zero _ _ (by cases n' <;> decide)
  · simp [h]

theorem metric_enabled_disable (c : hap_conf) (m m' : hap_metric) :
    metric_enabled { c with hap_flags := c.hap_flags &&& int_not m.flag } m' =
      (metric_enabled c m' && decide (m' ≠ m)) := by
  simp only [metric_enabled, and_int_not]
  by_cases h : m' = m <;> simp [h]

theorem notif_enabled_enable (c : hap_conf) (n n' : hap_notif_category) :
    notif_enabled { c with hap_notifs := c.hap_notifs ||| n.flag } n' =
      (notif_enabled c n' || decide (n' = n)) := by
  simp only [notif_enabled, or_notif_flag]
  rw [Bool.eq_iff_iff]
  simp

theorem hap_config_unknown (IS_TRUE : CStr → Bool) (key value : CStr) (c : hap_conf)
    (h : ∀ k ∈ config_keys, eq_ignore_case key k = false) :
    hap_config IS_TRUE key value c = (-1, c) := by
  have hk : ∀ k ∈ config_keys, strcasecmp_eq key k = false := by
    intro k hk
    rw [strcasecmp_eq_ignore_case]
    exact h k hk
  simp only [config_keys, List.mem_cons, List.mem_singleton, forall_eq_or_imp, forall_eq,
    List.not_mem_nil, false_implies, implies_true, and_true] at hk
  obtain ⟨h1, h2, h3, h4, h5, h6, h7, h8, h9, h10, h11, h12⟩ := hk
  simp only [hap_config, h1, h2, h3, h4, h5, h6, h7, h8, h9, h10, h11, h12,
    Bool.false_eq_true, if_false]


/-- C18: the options of `hap_config` act on their own setting.  With the
defaults every metric category is enabled, no notification category is, and
the restart gap is 20.  For a key equal up to case to a `Disable...` option
and a true value, the call returns 0 and removes that category and no other
from the enabled metrics, and leaves every other setting; for a key equal up
to case to `NotifStatusDown` or `NotifStatusUp` and a true value it adds that
category and no other to the enabled notifications, and leaves every other
setting; with a value that is not true these options change nothing; a key
that is none of the twelve names returns -1 and changes nothing. -/
theorem hap_config_options (IS_TRUE : CStr → Bool) (key value : CStr) (c : hap_conf) :
    ((∀ m, metric_enabled {} m = true) ∧ (∀ n, notif_enabled {} n = false) ∧
      ({} : hap_conf).hap_restart_gap = 20) ∧
    (∀ m, eq_ignore_case key m.disable_key = true → IS_TRUE value = true →
      (hap_config IS_TRUE key value c).1 = 0 ∧
      (∀ m', metric_enabled (hap_config IS_TRUE key value c).2 m' =
        (metric_enabled c m' && decide (m' ≠ m))) ∧
      (hap_config IS_TRUE key value c).2.hap_notifs = c.hap_notifs ∧
      (hap_config IS_TRUE key value c).2.hap_restart_gap = c.hap_restart_gap ∧
      (hap_config IS_TRUE key value c).2.hap_socketpath = c.hap_socketpath ∧
      (hap_config IS_TRUE key value c).2.pxf = c.pxf ∧
      (hap_config IS_TRUE key value c).2.svf = c.svf) ∧
    (∀ n, eq_ignore_case key n.enable_key = true → IS_TRUE value = true →
      (hap_config IS_TRUE key value c).1 = 0 ∧
      (∀ n', notif_enabled (hap_config IS_TRUE key value c).2 n' =
        (notif_enabled c n' || decide (n' = n))) ∧
      (hap_config IS_TRUE key value c).2.hap_flags = c.hap_flags ∧
      (hap_config IS_TRUE key value c).2.hap_restart_gap = c.hap_restart_gap ∧
      (hap_config IS_TRUE key value c).2.hap_socketpath = c.hap_socketpath ∧
      (hap_config IS_TRUE key value c).2.pxf = c.pxf ∧
      (hap_config IS_TRUE key value c).2.svf = c.svf) ∧
    (((∃ m : hap_metric, eq_ignore_case key m.disable_key = true) ∨
        (∃ n : hap_notif_category, eq_ignore_case key n.enable_key = true)) →
      IS_TRUE value = false → hap_config IS_TRUE key value c = (0, c)) ∧
    ((∀ k ∈ config_keys, eq_ignore_case key k = false) →
      hap_config IS_TRUE key value c = (-1, c)) := by
  refine ⟨⟨?_, ?_, rfl⟩, ?_, ?_, ?_, hap_config_unknown IS_TRUE key value c⟩
  · intro m; cases m <;> decide
  · intro n; cases n <;> decide
  · intro m hk hv
    rw [hap_config_congr IS_TRUE key _ value c hk, hap_config_disable, if_pos hv]
    exact ⟨rfl, metric_enabled_disable c m, rfl, rfl, rfl, rfl, rfl⟩
  · intro n hk hv
    rw [hap_config_congr IS_TRUE key _ value c hk, hap_config_enable, if_pos hv]
    exact ⟨rfl, notif_enabled_enable c n, rfl, rfl, rfl, rfl, rfl⟩
  · intro hk hv
    rcases hk with ⟨m, hk⟩ | ⟨n, hk⟩
    · rw [hap_config_congr IS_TRUE key _ value c hk, hap_config_disable, hv]
      rfl
    · rw [hap_config_congr IS_TRUE key _ value c hk, hap_config_enable, hv]
      rfl

/-- C19 (the code differs): `config_keys` holds twelve names and
`config_keys_num` is 11, so the keys that `module_register` registers stop
before `RestartGap`, the twelfth name: no registered key equals `RestartGap`,
even up to case, although `hap_config` itself handles that key. -/
theorem module_register_without_restart_gap :
    config_keys.length = 12 ∧ config_keys_num = 11 ∧
    "RestartGap".toList ∈ config_keys ∧
    (∀ k ∈ module_register, eq_ignore_case "RestartGap".toList k = false) ∧
    hap_config (fun _ => false) "RestartGap".toList "30".toList {} =
      (0, { hap_restart_gap := 30 }) := by
  refine ⟨by decide, by decide, by decide, by decide, by decide⟩

set_option maxRecDepth 20000 in
/-- C14 (the code differs): the submissions of an included entry, here the
entry of `gauge_line` under the default settings, come in the stated order,
but the `frequency` gauge is handed `req_rate` as an `unsigned long long`
while `hap_submit_gauge` reads a `double`: the value it dispatches is not
defined (`none`), it is not the request rate 21.  The `hap_status` gauge is
handed a `double` and dispatches the availability. -/
theorem hap_submit_frequency_gauge :
    hap_line2entry 10 gauge_line [] = [gauge_entry] ∧
    hap_filtered {} gauge_entry = false ∧
    (hap_read_entry {} gauge_entry []).2 =
      [hap_event.submit_counter "srv1".toList "www".toList "hap_bytes".toList
        [.ull 1000, .ull 2000],
       hap_event.submit_counter "srv1".toList "www".toList "hap_sessions".toList
        [.ull 20, .ull 70],
       hap_event.submit_gauge "srv1".toList "www".toList "frequency".toList [.ull 21],
       hap_event.submit_counter "srv1".toList "www".toList "hap_errors".toList
        [.ull 7, .ull 9, .ull 8],
       hap_event.submit_counter "srv1".toList "www".toList "hap_http_codes".toList
        [.ull 11, .ull 12, .ull 13, .ull 14, .ull 15, .ull 16],
       hap_event.submit_counter "srv1".toList "www".toList "hap_deny".toList
        [.ull 5, .ull 6],
       hap_event.submit_gauge "srv1".toList "www".toList "hap_status".toList
        [.dbl 50]] ∧
    ((hap_read_entry {} gauge_entry []).2.map hap_dispatched_values).get? 2 = some [none] ∧
    ((hap_read_entry {} gauge_entry []).2.map hap_dispatched_values).get? 6 =
      some [some 50] := by
  refine ⟨by decide!, by decide, by decide!, by decide!, by decide!⟩

/-! ## Reassembling lines -/

theorem scan_to_some_eq (d : Char) (s : List Char) (l : CStr) (rest : List Char)
    (h : scan_to d s = some (l, rest)) : s = l ++ d :: rest := by
  induction s generalizing l with
  | nil => simp [scan_to] at h
  | cons c cs ih =>
    simp only [scan_to] at h
    split_ifs at h with h0 hc
    · simp only [Option.some.injEq, Prod.mk.injEq] at h
      obtain ⟨rfl, rfl⟩ := h
      simp [hc]
    · cases hs : scan_to d cs with
      | none => simp [hs] at h
      | some v =>
        obtain ⟨t, r⟩ := v
        simp only [hs, Option.some.injEq, Prod.mk.injEq] at h
        obtain ⟨rfl, rfl⟩ := h
        simp [ih t hs]

theorem scan_to_newline_none (s : List Char) (hnul : ∀ x ∈ s, x ≠ '\x00')
    (h : scan_to '\n' s = none) : split_lines s = ([], s) := by
  induction s with
  | nil => rfl
  | cons c cs ih =>
    have hc0 : c ≠ '\x00' := hnul c (List.mem_cons_self _ _)
    have hcs : ∀ x ∈ cs, x ≠ '\x00' := fun x hx => hnul x (List.mem_cons_of_mem _ hx)
    simp only [scan_to, hc0, if_false] at h
    split_ifs at h with hc
    cases hs : scan_to '\n' cs with
    | some v => simp [hs] at h
    | none =>
      have := ih hcs hs
      simp [split_lines, hc, this]

theorem scan_to_newline_some (s : List Char) (hnul : ∀ x ∈ s, x ≠ '\x00') (l : CStr)
    (rest : List Char) (h : scan_to '\n' s = some (l, rest)) :
    split_lines s = (l :: (split_lines rest).1, (split_lines rest).2) := by
  induction s generalizing l with
  | nil => simp [scan_to] at h
  | cons c cs ih =>
    have hc0 : c ≠ '\x00' := hnul c (List.mem_cons_self _ _)
    have hcs : ∀ x ∈ cs, x ≠ '\x00' := fun x hx => hnul x (List.mem_cons_of_mem _ hx)
    simp only [scan_to, hc0, if_false] at h
    split_ifs at h with hc
    · simp only [Option.some.injEq, Prod.mk.injEq] at h
      obtain ⟨rfl, rfl⟩ := h
      simp [split_lines, hc]
    · cases hs : scan_to '\n' cs with
      | none => simp [hs] at h
      | some v =>
        obtain ⟨t, r⟩ := v
        simp only [hs, Option.some.injEq, Prod.mk.injEq] at h
        obtain ⟨rfl, rfl⟩ := h
        have := ih hcs t hs
        simp [split_lines, hc, this]

theorem split_lines_append (a b : List Char) :
    split_lines (a ++ b) =
      ((split_lines a).1 ++ (split_lines ((split_lines a).2 ++ b)).1,
        (split_lines ((split_lines a).2 ++ b)).2) := by
  induction a with
  | nil => simp [split_lines]
  | cons c a ih =>
    by_cases hc : c = '\n'
    · simp [split_lines, hc, ih]
    · cases h1 : (split_lines a).1 with
      | nil =>
        rw [h1] at ih
        simp only [List.nil_append] at ih
        have e1 : split_lines (c :: a) = ([], c :: (split_lines a).2) := by
          simp [split_lines, hc, h1]
        have ih2 : split_lines (a ++ b) = split_lines ((split_lines a).2 ++ b) := by rw [ih]
        have e2 : split_lines (c :: (a ++ b)) =
            split_lines (c :: ((split_lines a).2 ++ b)) := by
          simp only [split_lines, hc, if_false, ih2]
        rw [List.cons_append, e2, e1]
        simp
      | cons l ls =>
        rw [h1] at ih
        simp [split_lines, hc, ih, h1]

theorem complete_lines_append (a b : List Char) :
    complete_lines (a ++ b) = complete_lines a ++ complete_lines (line_rest a ++ b) := by
  simp only [complete_lines, line_rest]
  rw [split_lines_append]

theorem line_rest_no_newline (s : List Char) : '\n' ∉ line_rest s := by
  induction s with
  | nil => simp [line_rest, split_lines]
  | cons c cs ih =>
    simp only [line_rest] at ih ⊢
    by_cases hc : c = '\n'
    · simp [split_lines, hc, ih]
    · cases h1 : (split_lines cs).1 with
      | nil => simp [split_lines, hc, h1, ih, Ne.symm hc]
      | cons l ls => simp [split_lines, hc, h1, ih]

theorem line_rest_subset (s : List Char) : ∀ x ∈ line_rest s, x ∈ s := by
  induction s with
  | nil => simp [line_rest, split_lines]
  | cons c cs ih =>
    simp only [line_rest] at ih ⊢
    intro x hx
    by_cases hc : c = '\n'
    · simp only [split_lines, hc, if_true] at hx
      exact List.mem_cons_of_mem _ (ih x hx)
    · cases h1 : (split_lines cs).1 with
      | nil =>
        simp only [split_lines, hc, if_false, h1, List.mem_cons] at hx
        rcases hx with rfl | hx
        · exact List.mem_cons_self _ _
        · exact List.mem_cons_of_mem _ (ih x hx)
      | cons l ls =>
        simp only [split_lines, hc, if_false, h1] at hx
        exact List.mem_cons_of_mem _ (ih x hx)

theorem complete_lines_length_le (s : List Char) : (complete_lines s).length ≤ s.length := by
  induction s with
  | nil => simp [complete_lines, split_lines]
  | cons c cs ih =>
    simp only [complete_lines] at ih ⊢
    by_cases hc : c = '\n'
    · simp [split_lines, hc]; omega
    · cases h1 : (split_lines cs).1 with
      | nil => simp [split_lines, hc, h1]
      | cons l ls =>
        rw [h1] at ih
        simp only [split_lines, hc, if_false, h1, List.length_cons] at ih ⊢
        omega

/-- A text without newline in front of a stream prolongs its first line. -/
theorem complete_lines_no_newline_append (a s : List Char) (ha : '\n' ∉ a) :
    complete_lines (a ++ s) =
      match complete_lines s with
      | [] => []
      | l :: ls => (a ++ l) :: ls := by
  induction a with
  | nil => cases h : complete_lines s <;> simp [h]
  | cons c a ih =>
    have hc : c ≠ '\n' := fun h => ha (h ▸ List.mem_cons_self _ _)
    have ha' : '\n' ∉ a := fun h => ha (List.mem_cons_of_mem _ h)
    have := ih ha'
    simp only [complete_lines] at this ⊢
    cases h : (split_lines s).1 with
    | nil =>
      rw [h] at this
      simp [split_lines, hc, this]
    | cons l ls =>
      rw [h] at this
      simp [split_lines, hc, this]

theorem hap_stat_lines_eq (interval_g : Int) (fuel : Nat) (d : List Char)
    (el : List hap_entry_t) (hnul : ∀ x ∈ d, x ≠ '\x00')
    (hfuel : (complete_lines d).length < fuel) :
    hap_stat_lines interval_g fuel d el =
      ((complete_lines d).foldl (hap_stat_line interval_g) el, line_rest d) := by
  induction fuel generalizing d el with
  | zero => omega
  | succ fuel ih =>
    simp only [hap_stat_lines]
    cases hs : scan_to '\n' d with
    | none =>
      have := scan_to_newline_none d hnul hs
      simp [complete_lines, line_rest, this]
    | some v =>
      obtain ⟨l, rest⟩ := v
      have hsp := scan_to_newline_some d hnul l rest hs
      have hd := scan_to_some_eq '\n' d l rest hs
      have hnul' : ∀ x ∈ rest, x ≠ '\x00' := by
        intro x hx
        apply hnul
        rw [hd]
        simp [hx]
      have hlen : (complete_lines rest).length < fuel := by
        simp only [complete_lines, hsp, List.length_cons] at hfuel ⊢
        omega
      simp only
      rw [ih rest _ hnul' hlen]
      simp [complete_lines, line_rest, hsp, hap_stat_line]

/-- The receive outcomes of a response delivered as the reads `chunks`. -/
theorem hap_recv_rest_chunks (bytes : List Char) (room : Nat) (rs : List (List Char)) :
    hap_recv_rest bytes room (rs.map hap_recv.recv_data) =
      (if bytes.drop room = [] then rs else bytes.drop room :: rs).map hap_recv.recv_data := by
  unfold hap_recv_rest
  split_ifs <;> simp

theorem hap_reads_size_chunks (rs : List (List Char)) :
    hap_reads_size (rs.map hap_recv.recv_data) = (rs.map (fun c => c.length + 1)).sum := by
  induction rs with
  | nil => rfl
  | cons c rs ih => simp [hap_reads_size, ih]

theorem hap_stat_recv_eq (interval_g : Int) (fuel : Nat) (chunks : List (List Char))
    (buf : List Char) (el : List hap_entry_t)
    (hfuel : hap_reads_size (chunks.map hap_recv.recv_data) < fuel)
    (hne : ∀ c ∈ chunks, c ≠ [])
    (hnul : ∀ x ∈ buf ++ chunks.flatten, x ≠ '\x00')
    (hbuf : '\n' ∉ buf)
    (hfit : ∀ l ∈ complete_lines (buf ++ chunks.flatten), l.length + 1 ≤ HAP_STAT_LINE_LEN) :
    hap_stat_recv interval_g fuel (chunks.map hap_recv.recv_data) buf el =
      (0, (complete_lines (buf ++ chunks.flatten)).foldl (hap_stat_line interval_g) el) := by
  induction fuel generalizing chunks buf el with
  | zero => omega
  | succ fuel ih =>
    cases chunks with
    | nil =>
      have : complete_lines buf = [] := by
        have := complete_lines_no_newline_append buf [] hbuf
        simpa [complete_lines, split_lines] using this
      simp [hap_stat_recv, this]
    | cons bytes rs =>
      have hb : bytes ≠ [] := hne bytes (List.mem_cons_self _ _)
      simp only [List.map_cons, hap_stat_recv]
      by_cases hgot : bytes.take (HAP_STAT_LINE_LEN - buf.length) = []
      · -- the buffer is full: no line can end any more
        rw [if_pos hgot]
        have hroom : HAP_STAT_LINE_LEN - buf.length = 0 := by
          rcases List.take_eq_nil_iff.mp hgot with h | h
          · exact h
          · exact absurd h hb
        have hl := complete_lines_no_newline_append buf (bytes :: rs).flatten hbuf
        cases hc : complete_lines (bytes :: rs).flatten with
        | nil =>
          rw [hc] at hl
          rw [hl]
          rfl
        | cons l ls =>
          rw [hc] at hl
          have := hfit (buf ++ l) (by rw [hl]; exact List.mem_cons_self _ _)
          simp only [List.length_append] at this
          omega
      · rw [if_neg hgot]
        have hroom : 0 < HAP_STAT_LINE_LEN - buf.length := by
          rcases Nat.eq_zero_or_pos (HAP_STAT_LINE_LEN - buf.length) with h | h
          · rw [h] at hgot; simp at hgot
          · exact h
        have hsplit : buf ++ (bytes :: rs).flatten =
            (buf ++ bytes.take (HAP_STAT_LINE_LEN - buf.length)) ++
              (bytes.drop (HAP_STAT_LINE_LEN - buf.length) ++ rs.flatten) := by
          simp only [List.flatten_cons, List.append_assoc]
          rw [← List.append_assoc (bytes.take _), List.take_append_drop]
        have hnul1 : ∀ x ∈ buf ++ bytes.take (HAP_STAT_LINE_LEN - buf.length), x ≠ '\x00' := by
          intro x hx
          apply hnul
          rw [hsplit]
          exact List.mem_append_left _ hx
        rw [hap_stat_lines_eq interval_g _ _ el hnul1
          (Nat.lt_succ_of_le (complete_lines_length_le _))]
        simp only
        rw [hap_recv_rest_chunks]
        have hflat : (if bytes.drop (HAP_STAT_LINE_LEN - buf.length) = [] then rs
            else bytes.drop (HAP_STAT_LINE_LEN - buf.length) :: rs).flatten =
            bytes.drop (HAP_STAT_LINE_LEN - buf.length) ++ rs.flatten := by
          split_ifs with h
          · simp [h]
          · simp
        rw [ih]
        · rw [hflat, hsplit]
          conv_rhs => rw [complete_lines_append, List.foldl_append]
        · -- fuel
          rw [hap_reads_size_chunks] at hfuel ⊢
          have hlen : (bytes.drop (HAP_STAT_LINE_LEN - buf.length)).length < bytes.length := by
            rw [List.length_drop]
            have : 0 < bytes.length := List.length_pos.mpr hb
            omega
          split_ifs with h
          · simp only [List.map_cons, List.sum_cons] at hfuel
            omega
          · simp only [List.map_cons, List.sum_cons] at hfuel ⊢
            omega
        · intro c hc
          split_ifs at hc with h
          · exact hne c (List.mem_cons_of_mem _ hc)
          · rcases List.mem_cons.mp hc with rfl | hc
            · exact h
            · exact hne c (List.mem_cons_of_mem _ hc)
        · intro x hx
          rw [hflat] at hx
          apply hnul
          rw [hsplit]
          rcases List.mem_append.mp hx with h | h
          · exact List.mem_append_left _ (line_rest_subset _ x h)
          · exact List.mem_append_right _ h
        · exact line_rest_no_newline _
        · intro l hl
          rw [hflat] at hl
          apply hfit
          rw [hsplit, complete_lines_append]
          exact List.mem_append_right _ hl

theorem hap_retrievestat_chunks (interval_g : Int) (s : hap_sock) (chunks : List (List Char))
    (el : List hap_entry_t)
    (hfd : s.socket_fd ≠ -1) (hconn : 0 ≤ s.connect_ret) (hsend : 10 ≤ to_u64 s.send_ret)
    (hreads : s.reads = chunks.map hap_recv.recv_data)
    (hne : ∀ c ∈ chunks, c ≠ [])
    (hnul : ∀ x ∈ chunks.flatten, x ≠ '\x00')
    (hfit : ∀ l ∈ complete_lines chunks.flatten, l.length + 1 ≤ HAP_STAT_LINE_LEN) :
    hap_retrievestat interval_g s el =
      (0, (complete_lines chunks.flatten).foldl (hap_stat_line interval_g) el) := by
  unfold hap_retrievestat
  rw [if_neg hfd, if_neg (by omega), if_neg (by omega), hreads]
  have := hap_stat_recv_eq interval_g (hap_reads_size (chunks.map hap_recv.recv_data) + 1)
    chunks [] el (by omega) hne (by simpa using hnul) (by simp) (by simpa using hfit)
  simpa using this

/-- C15: line reassembly does not depend on the reads.  The socket works and
delivers the response as the non-empty reads `chunks`; the response holds no
NUL byte and each of its newline-terminated lines fits, with its newline, in
the 2047 bytes of the buffer.  Then `hap_retrievestat` succeeds and has
handed exactly the newline-terminated lines of the whole response, in order,
to the line loop (which passes each line that is no `#` comment to
`hap_line2entry`); so any other way of cutting the same response into
non-empty reads gives the same entry list. -/
theorem hap_retrievestat_reassembly (interval_g : Int) (s : hap_sock)
    (chunks : List (List Char)) (el : List hap_entry_t)
    (hfd : s.socket_fd ≠ -1) (hconn : 0 ≤ s.connect_ret) (hsend : 10 ≤ to_u64 s.send_ret)
    (hreads : s.reads = chunks.map hap_recv.recv_data)
    (hne : ∀ c ∈ chunks, c ≠ [])
    (hnul : ∀ x ∈ chunks.flatten, x ≠ '\x00')
    (hfit : ∀ l ∈ complete_lines chunks.flatten, l.length + 1 ≤ HAP_STAT_LINE_LEN) :
    hap_retrievestat interval_g s el =
      (0, (complete_lines chunks.flatten).foldl (hap_stat_line interval_g) el) ∧
    ∀ other : List (List Char), (∀ c ∈ other, c ≠ []) → other.flatten = chunks.flatten →
      hap_retrievestat interval_g { s with reads := other.map hap_recv.recv_data } el =
        hap_retrievestat interval_g s el := by
  have h1 := hap_retrievestat_chunks interval_g s chunks el hfd hconn hsend hreads hne hnul hfit
  refine ⟨h1, ?_⟩
  intro other hne' hflat
  rw [h1, hap_retrievestat_chunks interval_g { s with reads := other.map hap_recv.recv_data }
    other el hfd hconn hsend rfl hne' (by rw [hflat]; exact hnul) (by rw [hflat]; exact hfit),
    hflat]

set_option maxRecDepth 20000 in
/-- The scenario response cut inside the field `120` of its statistics
line. -/
theorem hap_retrievestat_reassembly_witness :
    ({ reads := scenario_chunks.map hap_recv.recv_data } : hap_sock).socket_fd ≠ -1 ∧
    0 ≤ ({ reads := scenario_chunks.map hap_recv.recv_data } : hap_sock).connect_ret ∧
    10 ≤ to_u64 ({ reads := scenario_chunks.map hap_recv.recv_data } : hap_sock).send_ret ∧
    (∀ c ∈ scenario_chunks, c ≠ []) ∧
    (∀ x ∈ scenario_chunks.flatten, x ≠ '\x00') ∧
    (∀ l ∈ complete_lines scenario_chunks.flatten, l.length + 1 ≤ HAP_STAT_LINE_LEN) ∧
    (hap_retrievestat 10 { reads := scenario_chunks.map hap_recv.recv_data } [] =
      (0, (complete_lines scenario_chunks.flatten).foldl (hap_stat_line 10) []) ∧
    ∀ other : List (List Char), (∀ c ∈ other, c ≠ []) →
      other.flatten = scenario_chunks.flatten →
      hap_retrievestat 10
          { ({ reads := scenario_chunks.map hap_recv.recv_data } : hap_sock) with
            reads := other.map hap_recv.recv_data } [] =
        hap_retrievestat 10 { reads := scenario_chunks.map hap_recv.recv_data } []) :=
  ⟨by decide, by decide, by decide, by decide, by decide, by decide,
    hap_retrievestat_reassembly 10 { reads := scenario_chunks.map hap_recv.recv_data }
      scenario_chunks [] (by decide) (by decide) (by decide) rfl (by decide) (by decide)
      (by decide)⟩

theorem strncmp_eq_isPrefixOf (l k : CStr) : strncmp_eq l k k.length = k.isPrefixOf l := by
  induction k generalizing l with
  | nil => simp [strncmp_eq]
  | cons a k ih =>
    cases l with
    | nil => simp [strncmp_eq]
    | cons b l =>
      have := ih l
      simp only [strncmp_eq, List.take_length] at this
      rw [Bool.eq_iff_iff]
      simp only [strncmp_eq, List.length_cons, List.take_succ_cons, List.take_length,
        List.isPrefixOf, Bool.and_eq_true, beq_iff_eq, List.cons.injEq]
      rw [← this]
      simp only [beq_iff_eq]
      constructor
      · rintro ⟨rfl, h⟩; exact ⟨rfl, h⟩
      · rintro ⟨rfl, h⟩; exact ⟨rfl, h⟩

theorem strncmp_eq_uptime (l : CStr) :
    strncmp_eq l "Uptime_sec:".toList 11 = is_uptime_line l :=
  strncmp_eq_isPrefixOf l "Uptime_sec:".toList

theorem hap_uptime_lines_eq (fuel : Nat) (d : List Char) (hnul : ∀ x ∈ d, x ≠ '\x00')
    (hfuel : (complete_lines d).length < fuel) :
    hap_uptime_lines fuel d =
      match (complete_lines d).find? is_uptime_line with
      | some l => .inl (to_u64 (atol (l.drop 11)))
      | none => .inr (line_rest d) := by
  induction fuel generalizing d with
  | zero => omega
  | succ fuel ih =>
    simp only [hap_uptime_lines]
    cases hs : scan_to '\n' d with
    | none =>
      have := scan_to_newline_none d hnul hs
      simp [complete_lines, line_rest, this]
    | some v =>
      obtain ⟨l, rest⟩ := v
      have hsp := scan_to_newline_some d hnul l rest hs
      have hd := scan_to_some_eq '\n' d l rest hs
      have hnul' : ∀ x ∈ rest, x ≠ '\x00' := by
        intro x hx
        apply hnul
        rw [hd]
        simp [hx]
      have hlen : (complete_lines rest).length < fuel := by
        simp only [complete_lines, hsp, List.length_cons] at hfuel ⊢
        omega
      simp only [strncmp_eq_uptime]
      by_cases hu : is_uptime_line l = true
      · simp [complete_lines, hsp, hu]
      · simp only [Bool.not_eq_true] at hu
        rw [ih rest hnul' hlen]
        simp [complete_lines, line_rest, hsp, hu]

theorem hap_uptime_recv_eq (fuel : Nat) (chunks : List (List Char)) (buf : List Char)
    (hfuel : hap_reads_size (chunks.map hap_recv.recv_data) < fuel)
    (hne : ∀ c ∈ chunks, c ≠ [])
    (hnul : ∀ x ∈ buf ++ chunks.flatten, x ≠ '\x00')
    (hbuf : '\n' ∉ buf)
    (hfit : ∀ l ∈ complete_lines (buf ++ chunks.flatten), l.length + 1 ≤ HAP_STAT_LINE_LEN) :
    hap_uptime_recv fuel (chunks.map hap_recv.recv_data) buf =
      match response_uptime (buf ++ chunks.flatten) with
      | some u => (0, u)
      | none => (-1, 0) := by
  induction fuel generalizing chunks buf with
  | zero => omega
  | succ fuel ih =>
    cases chunks with
    | nil =>
      have : complete_lines buf = [] := by
        have := complete_lines_no_newline_append buf [] hbuf
        simpa [complete_lines, split_lines] using this
      simp [hap_uptime_recv, response_uptime, this]
    | cons bytes rs =>
      have hb : bytes ≠ [] := hne bytes (List.mem_cons_self _ _)
      simp only [List.map_cons, hap_uptime_recv]
      by_cases hgot : bytes.take (HAP_STAT_LINE_LEN - buf.length) = []
      · rw [if_pos hgot]
        have hroom : HAP_STAT_LINE_LEN - buf.length = 0 := by
          rcases List.take_eq_nil_iff.mp hgot with h | h
          · exact h
          · exact absurd h hb
        have hl := complete_lines_no_newline_append buf (bytes :: rs).flatten hbuf
        cases hc : complete_lines (bytes :: rs).flatten with
        | nil =>
          rw [hc] at hl
          simp only [response_uptime]
          rw [hl]
          rfl
        | cons l ls =>
          rw [hc] at hl
          have := hfit (buf ++ l) (by rw [hl]; exact List.mem_cons_self _ _)
          simp only [List.length_append] at this
          omega
      · rw [if_neg hgot]
        have hroom : 0 < HAP_STAT_LINE_LEN - buf.length := by
          rcases Nat.eq_zero_or_pos (HAP_STAT_LINE_LEN - buf.length) with h | h
          · rw [h] at hgot; simp at hgot
          · exact h
        have hsplit : buf ++ (bytes :: rs).flatten =
            (buf ++ bytes.take (HAP_STAT_LINE_LEN - buf.length)) ++
              (bytes.drop (HAP_STAT_LINE_LEN - buf.length) ++ rs.flatten) := by
          simp only [List.flatten_cons, List.append_assoc]
          rw [← List.append_assoc (bytes.take _), List.take_append_drop]
        have hnul1 : ∀ x ∈ buf ++ bytes.take (HAP_STAT_LINE_LEN - buf.length), x ≠ '\x00' := by
          intro x hx
          apply hnul
          rw [hsplit]
          exact List.mem_append_left _ hx
        rw [hap_uptime_lines_eq _ _ hnul1 (Nat.lt_succ_of_le (complete_lines_length_le _))]
        have hresp : response_uptime (buf ++ (bytes :: rs).flatten) =
            match (complete_lines (buf ++ bytes.take (HAP_STAT_LINE_LEN - buf.length))).find?
              is_uptime_line with
            | some l => some (to_u64 (atol (l.drop 11)))
            | none => response_uptime
                (line_rest (buf ++ bytes.take (HAP_STAT_LINE_LEN - buf.length)) ++
                  (bytes.drop (HAP_STAT_LINE_LEN - buf.length) ++ rs.flatten)) := by
          rw [hsplit]
          simp only [response_uptime]
          rw [complete_lines_append, List.find?_append]
          cases (complete_lines (buf ++ bytes.take (HAP_STAT_LINE_LEN - buf.length))).find?
            is_uptime_line <;> simp
        rw [hresp]
        cases hf : (complete_lines (buf ++ bytes.take (HAP_STAT_LINE_LEN - buf.length))).find?
            is_uptime_line with
        | some l => rfl
        | none =>
          simp only
          rw [hap_recv_rest_chunks]
          have hflat : (if bytes.drop (HAP_STAT_LINE_LEN - buf.length) = [] then rs
              else bytes.drop (HAP_STAT_LINE_LEN - buf.length) :: rs).flatten =
              bytes.drop (HAP_STAT_LINE_LEN - buf.length) ++ rs.flatten := by
            split_ifs with h
            · simp [h]
            · simp
          rw [ih]
          · rw [hflat]
          · rw [hap_reads_size_chunks] at hfuel ⊢
            have hlen : (bytes.drop (HAP_STAT_LINE_LEN - buf.length)).length < bytes.length := by
              rw [List.length_drop]
              have : 0 < bytes.length := List.length_pos.mpr hb
              omega
            split_ifs with h
            · simp only [List.map_cons, List.sum_cons] at hfuel
              omega
            · simp only [List.map_cons, List.sum_cons] at hfuel ⊢
              omega
          · intro c hc
            split_ifs at hc with h
            · exact hne c (List.mem_cons_of_mem _ hc)
            · rcases List.mem_cons.mp hc with rfl | hc
              · exact h
              · exact hne c (List.mem_cons_of_mem _ hc)
          · intro x hx
            rw [hflat] at hx
            apply hnul
            rw [hsplit]
            rcases List.mem_append.mp hx with h | h
            · exact List.mem_append_left _ (line_rest_subset _ x h)
            · exact List.mem_append_right _ h
          · exact line_rest_no_newline _
          · intro l hl
            rw [hflat] at hl
            apply hfit
            rw [hsplit, complete_lines_append]
            exact List.mem_append_right _ hl

set_option maxRecDepth 100000 in
/-- C16, as stated, fails for some responses: a response that holds a NUL
byte, or a line that does not fit in the buffer, before its complete line
`Uptime_sec: 500` makes `hap_retrieveuptime` fail. -/
theorem hap_retrieveuptime_stuck :
    response_uptime nul_info = some 500 ∧
    hap_retrieveuptime { reads := [hap_recv.recv_data nul_info] } = (-1, 0) ∧
    response_uptime long_info = some 500 ∧
    hap_retrieveuptime { reads := [hap_recv.recv_data long_info] } = (-1, 0) := by
  refine ⟨by decide, by decide, by decide!, by decide!⟩

/-- C16, amended: the socket works and delivers the `show info` response as
the non-empty reads `chunks`; the response holds no NUL byte and each of its
newline-terminated lines fits, with its newline, in the 2047 bytes of the
buffer.  Then `hap_retrieveuptime` succeeds with the integer after
`Uptime_sec:` on the first complete line that begins with it, and fails when
the response has no such line. -/
theorem hap_retrieveuptime_response (s : hap_sock) (chunks : List (List Char))
    (hfd : s.socket_fd ≠ -1) (hconn : 0 ≤ s.connect_ret) (hsend : 10 ≤ to_u64 s.send_ret)
    (hreads : s.reads = chunks.map hap_recv.recv_data)
    (hne : ∀ c ∈ chunks, c ≠ [])
    (hnul : ∀ x ∈ chunks.flatten, x ≠ '\x00')
    (hfit : ∀ l ∈ complete_lines chunks.flatten, l.length + 1 ≤ HAP_STAT_LINE_LEN) :
    hap_retrieveuptime s =
      match response_uptime chunks.flatten with
      | some u => (0, u)
      | none => (-1, 0) := by
  unfold hap_retrieveuptime
  rw [if_neg hfd, if_neg (by omega), if_neg (by omega), hreads]
  have := hap_uptime_recv_eq (hap_reads_size (chunks.map hap_recv.recv_data) + 1)
    chunks [] (by omega) hne (by simpa using hnul) (by simp) (by simpa using hfit)
  simpa using this

set_option maxRecDepth 20000 in
/-- A response cut inside its line `Uptime_sec: 500`. -/
theorem hap_retrieveuptime_response_witness :
    ({ reads := info_chunks.map hap_recv.recv_data } : hap_sock).socket_fd ≠ -1 ∧
    0 ≤ ({ reads := info_chunks.map hap_recv.recv_data } : hap_sock).connect_ret ∧
    10 ≤ to_u64 ({ reads := info_chunks.map hap_recv.recv_data } : hap_sock).send_ret ∧
    (∀ c ∈ info_chunks, c ≠ []) ∧
    (∀ x ∈ info_chunks.flatten, x ≠ '\x00') ∧
    (∀ l ∈ complete_lines info_chunks.flatten, l.length + 1 ≤ HAP_STAT_LINE_LEN) ∧
    response_uptime info_chunks.flatten = some 500 ∧
    hap_retrieveuptime { reads := info_chunks.map hap_recv.recv_data } =
      match response_uptime info_chunks.flatten with
      | some u => (0, u)
      | none => (-1, 0) :=
  ⟨by decide, by decide, by decide, by decide, by decide, by decide, by decide,
    hap_retrieveuptime_response { reads := info_chunks.map hap_recv.recv_data } info_chunks
      (by decide) (by decide) (by decide) rfl (by decide) (by decide) (by decide)⟩

theorem hap_stat_line_foldl (interval_g : Int) (ls : List CStr) (el : List hap_entry_t) :
    ls.foldl (hap_stat_line interval_g) el =
      (ls.filter (fun l => !is_comment_line l)).foldl
        (fun el l => hap_line2entry interval_g l el) el := by
  induction ls generalizing el with
  | nil => rfl
  | cons l ls ih =>
    simp only [List.foldl_cons, List.filter_cons]
    by_cases h : l.head? = some '#'
    · simp [hap_stat_line, is_comment_line, h, ih]
    · simp [hap_stat_line, is_comment_line, h, ih]

set_option maxRecDepth 100000 in
/-- C17, as stated, fails for some responses: with a comment line that holds
a NUL byte, or that does not fit in the buffer, the line `fe1,sv1,` that
follows yields no entry, while the response without the comment line yields
one. -/
theorem hap_retrievestat_comment_stuck :
    complete_lines "#\x00\nfe1,sv1,\n".toList = ["#\x00".toList, "fe1,sv1,".toList] ∧
    hap_retrievestat 10 nul_comment_stat [] = (0, []) ∧
    hap_retrievestat 10 long_comment_stat [] = (0, []) ∧
    (hap_retrievestat 10 nul_comment_stat_plain []).2.map (fun e => (e.pxname, e.svname)) =
      [("fe1".toList, "sv1".toList)] := by
  refine ⟨by decide, by decide, by decide!, by decide⟩

/-- C17, amended: comment lines are ignored.  The socket works and delivers
the `show stat` response as the non-empty reads `chunks`; the response holds
no NUL byte and each of its newline-terminated lines fits, with its newline,
in the 2047 bytes of the buffer.  Then the entries are those that
`hap_line2entry` makes of the lines that do not begin with `#`, in order: no
comment line yields an entry, and a response without NUL byte whose lines are
the other lines of this one, delivered in any non-empty reads, gives the same
entries. -/
theorem hap_retrievestat_comments (interval_g : Int) (s : hap_sock)
    (chunks : List (List Char)) (el : List hap_entry_t)
    (hfd : s.socket_fd ≠ -1) (hconn : 0 ≤ s.connect_ret) (hsend : 10 ≤ to_u64 s.send_ret)
    (hreads : s.reads = chunks.map hap_recv.recv_data)
    (hne : ∀ c ∈ chunks, c ≠ [])
    (hnul : ∀ x ∈ chunks.flatten, x ≠ '\x00')
    (hfit : ∀ l ∈ complete_lines chunks.flatten, l.length + 1 ≤ HAP_STAT_LINE_LEN) :
    hap_retrievestat interval_g s el =
      (0, ((complete_lines chunks.flatten).filter (fun l => !is_comment_line l)).foldl
        (fun el l => hap_line2entry interval_g l el) el) ∧
    ∀ other : List (List Char), (∀ c ∈ other, c ≠ []) →
      (∀ x ∈ other.flatten, x ≠ '\x00') →
      complete_lines other.flatten =
        (complete_lines chunks.flatten).filter (fun l => !is_comment_line l) →
      hap_retrievestat interval_g { s with reads := other.map hap_recv.recv_data } el =
        hap_retrievestat interval_g s el := by
  have h1 := hap_retrievestat_chunks interval_g s chunks el hfd hconn hsend hreads hne hnul hfit
  rw [hap_stat_line_foldl] at h1
  refine ⟨h1, ?_⟩
  intro other hne' hnul' hlines
  have hfit' : ∀ l ∈ complete_lines other.flatten, l.length + 1 ≤ HAP_STAT_LINE_LEN := by
    intro l hl
    rw [hlines] at hl
    exact hfit l (List.mem_filter.mp hl).1
  rw [h1, hap_retrievestat_chunks interval_g { s with reads := other.map hap_recv.recv_data }
    other el hfd hconn hsend rfl hne' hnul' hfit', hap_stat_line_foldl, hlines,
    List.filter_filter]
  simp

set_option maxRecDepth 20000 in
/-- The scenario response, cut in two reads, and the same response without
its comment line. -/
theorem hap_retrievestat_comments_witness :
    ({ reads := scenario_chunks.map hap_recv.recv_data } : hap_sock).socket_fd ≠ -1 ∧
    0 ≤ ({ reads := scenario_chunks.map hap_recv.recv_data } : hap_sock).connect_ret ∧
    10 ≤ to_u64 ({ reads := scenario_chunks.map hap_recv.recv_data } : hap_sock).send_ret ∧
    (∀ c ∈ scenario_chunks, c ≠ []) ∧
    (∀ x ∈ scenario_chunks.flatten, x ≠ '\x00') ∧
    (∀ l ∈ complete_lines scenario_chunks.flatten, l.length + 1 ≤ HAP_STAT_LINE_LEN) ∧
    complete_lines scenario_plain_chunks.flatten =
      (complete_lines scenario_chunks.flatten).filter (fun l => !is_comment_line l) ∧
    (hap_retrievestat 10 { reads := scenario_chunks.map hap_recv.recv_data } [] =
      (0, ((complete_lines scenario_chunks.flatten).filter
        (fun l => !is_comment_line l)).foldl (fun el l => hap_line2entry 10 l el) []) ∧
    ∀ other : List (List Char), (∀ c ∈ other, c ≠ []) →
      (∀ x ∈ other.flatten, x ≠ '\x00') →
      complete_lines other.flatten =
        (complete_lines scenario_chunks.flatten).filter (fun l => !is_comment_line l) →
      hap_retrievestat 10
          { ({ reads := scenario_chunks.map hap_recv.recv_data } : hap_sock) with
            reads := other.map hap_recv.recv_data } [] =
        hap_retrievestat 10 { reads := scenario_chunks.map hap_recv.recv_data } []) :=
  ⟨by decide, by decide, by decide, by decide, by decide, by decide, by decide,
    hap_retrievestat_comments 10 { reads := scenario_chunks.map hap_recv.recv_data }
      scenario_chunks [] (by decide) (by decide) (by decide) rfl (by decide) (by decide)
      (by decide)⟩

/-! ## Fields without a terminating comma -/

theorem columns_length (line : List Char) : (columns line).length = comma_count line := by
  induction line with
  | nil => rfl
  | cons c cs ih =>
    simp only [comma_count] at ih ⊢
    by_cases h0 : c = '\x00'
    · simp [columns, h0]
    · have hb : (c != '\x00') = true := by simp [h0]
      by_cases hc : c = ','
      · subst hc
        simp [columns, List.takeWhile_cons, ih]
      · have hne : (c == ',') = false := by simp [hc]
        cases hcol : columns cs with
        | nil =>
          rw [hcol] at ih
          simp only [columns, h0, hc, if_false, hcol, List.takeWhile_cons, hb, if_true,
            List.count_cons, hne]
          simpa using ih
        | cons f fs =>
          rw [hcol] at ih
          simp only [columns, h0, hc, if_false, hcol, List.takeWhile_cons, hb, if_true,
            List.count_cons, hne]
          simpa using ih

theorem columns_of_no_comma (t : List Char) (h : ',' ∉ t) : columns t = [] := by
  induction t with
  | nil => rfl
  | cons c cs ih =>
    have hc : c ≠ ',' := fun e => h (e ▸ List.mem_cons_self _ _)
    have := ih (fun e => h (List.mem_cons_of_mem _ e))
    by_cases h0 : c = '\x00'
    · simp [columns, h0]
    · simp [columns, h0, hc, this]

theorem columns_append_no_comma (l t : List Char) (h : ',' ∉ t) :
    columns (l ++ t) = columns l := by
  induction l with
  | nil => simpa [columns] using columns_of_no_comma t h
  | cons c cs ih =>
    show columns (c :: (cs ++ t)) = columns (c :: cs)
    simp only [columns, ih]

theorem hap_line2entry_columns_congr (interval_g : Int) (l1 l2 : List Char)
    (el : List hap_entry_t) (h : columns l1 = columns l2) :
    hap_line2entry interval_g l1 el = hap_line2entry interval_g l2 el := by
  simp only [hap_line2entry, hap_tokenize_eq_fields, h]

theorem hap_line2entry_few_columns (interval_g : Int) (line : List Char)
    (el : List hap_entry_t) (h : (columns line).length < 2) :
    hap_line2entry interval_g line el = el := by
  have hs := hap_tokenize_svname interval_g line
  have h1 : (columns line)[1]? = none := List.getElem?_eq_none (by omega)
  rw [h1] at hs
  unfold hap_line2entry
  simp only [hs]
  split
  · rename_i heq
    simp at heq
  · rfl

/-- C21: `hap_line2entry` links an entry exactly when the line has at least
two commas, and otherwise leaves the list as it is; text that no comma
terminates is never read, so appending text without comma to a line changes
nothing.  The line `fe1,sv1` yields no entry; the line of two commas yields
an entry with two empty names, and a header-shaped line handed to the parser
yields an entry named `# pxname` / `svname`. -/
theorem hap_line2entry_iff_two_commas (interval_g : Int) (line tail : List Char)
    (el : List hap_entry_t) :
    ((∃ e, hap_line2entry interval_g line el = e :: el) ↔ 2 ≤ comma_count line) ∧
    (comma_count line < 2 → hap_line2entry interval_g line el = el) ∧
    (',' ∉ tail →
      hap_line2entry interval_g (line ++ tail) el = hap_line2entry interval_g line el) ∧
    hap_line2entry interval_g "fe1,sv1".toList el = el ∧
    hap_line2entry interval_g ",,".toList el = { pxname := [], svname := [] } :: el ∧
    hap_line2entry interval_g "# pxname,svname,".toList el =
      { pxname := "# pxname".toList, svname := "svname".toList } :: el := by
  have hlen := columns_length line
  have hfew : comma_count line < 2 → hap_line2entry interval_g line el = el := by
    intro h
    exact hap_line2entry_few_columns interval_g line el (by omega)
  refine ⟨⟨?_, ?_⟩, hfew, ?_, ?_, ?_, ?_⟩
  · rintro ⟨e, he⟩
    by_contra hlt
    have := hfew (by omega)
    rw [this] at he
    have := congrArg List.length he
    simp at this
  · intro h2
    exact ⟨_, hap_line2entry_of_names interval_g line el _ _
      (columns_getElem?_of_lt line 0 (by omega)) (columns_getElem?_of_lt line 1 (by omega))⟩
  · intro ht
    exact hap_line2entry_columns_congr interval_g _ _ el (columns_append_no_comma line tail ht)
  · exact hap_line2entry_few_columns interval_g _ el (by decide)
  · rw [hap_line2entry_of_names interval_g ",,".toList el [] [] (by decide) (by decide)]
    rfl
  · rw [hap_line2entry_of_names interval_g "# pxname,svname,".toList el "# pxname".toList
      "svname".toList (by decide) (by decide)]
    rfl

end Haproxy
